import Mathlib

/-! libdnxpp: a shallow embedding of the Diannex bytecode runtime

The definitions below transcribe `src/src/DxInterpreter.cpp`,
`src/src/DxInterpreterImpl.cpp`, `src/src/DxValue.cpp` and the headers they use.

Conventions of the embedding

* a C++ `char` is a `Char` and a `std::string` is a `List Char` (`DxStr`);
* a free function that can throw returns `Except DxError _`; a member function of the
  interpreter is an `Exec _`, which returns its outcome together with the state of the
  interpreter, so that the state survives an exception;
* behaviour that C++ leaves undefined (reading past a span, `back()` of an empty deque,
  `operator[]` out of range) is the error `DxError.undefinedBehaviour`;
* signed 32-bit arithmetic wraps around (two's complement), see `wrapI32`;
* a loop or recursion that has no bound in the source takes a `fuel : Nat`; running out of
  it is the error `DxError.fuelExhausted`, which is never an outcome of the code;
* positions inside a string are natural numbers, and the sizes of strings and vectors are
  taken to fit the `int` variables that index them;
* the host callbacks are deterministic and do not call back into the interpreter; every
  invocation is recorded in `DxInterpreter.hostCalls`.
-/

namespace diannex

/-- The `DxStr` alias of `common.hpp` (`std::string`), as a list of characters. -/
abbrev DxStr := List Char

/-- Every way in which the embedded code can stop without a result. -/
inductive DxError where
  /-- A plain `diannex_exception`: `dx_assert`, `assert_state`, the handler stubs. -/
  | diannexException
  /-- The exception `value_conversion_exception` of `DxValue::convert`. -/
  | valueConversion
  /-- The exception `value_invalid_operator_exception` of the `DxValue` operators. -/
  | invalidOperator
  /-- The exception `interpreter_runtime_exception` thrown by `panic`. -/
  | runtimeError
  /-- The exception `std::out_of_range` (`at()` of strings, vectors and maps, `std::stoi`). -/
  | outOfRange
  /-- The exception `std::invalid_argument` (`std::stoi`, `std::stod`). -/
  | invalidArgument
  /-- The exception `std::bad_variant_access` of `std::get` on the wrong alternative. -/
  | badVariantAccess
  /-- The exception `std::length_error` of a vector built with a negative count. -/
  | lengthError
  /-- The exception `data_processing_exception` of the loaders of `DxData`. -/
  | dataProcessing
  /-- An exception thrown by a callback of the host. -/
  | hostException
  /-- Behaviour the C++ standard leaves undefined. -/
  | undefinedBehaviour
  /-- The fuel of a loop of the embedding ran out (not a behaviour of the code). -/
  | fuelExhausted
  deriving DecidableEq, Repr

/-! ## String interpolation (`DxInterpreter::interpolate`) -/

/-- The backslash character, code 92. -/
def chBackslash : Char := Char.ofNat 92

/-- The dollar character, code 36. -/
def chDollar : Char := Char.ofNat 36

/-- The opening brace, code 123. -/
def chOpen : Char := Char.ofNat 123

/-- The closing brace, code 125. -/
def chClose : Char := Char.ofNat 125

/-- Bounds-checked `str.at(pos)`: throws `std::out_of_range` when `pos >= size()`. -/
def strAt (str : DxStr) (pos : Nat) : Except DxError Char :=
  match str.get? pos with
  | some c => .ok c
  | none => .error .outOfRange

/-- The predicate `isspace` of the C locale, which `strtol` uses to skip a prefix. -/
def isSpace (c : Char) : Bool :=
  c.toNat = 32 || (9 ≤ c.toNat && c.toNat ≤ 13)

/-- Value of a string of decimal digits, most significant digit first. -/
def decimalValue (ds : List Char) : Nat :=
  ds.foldl (fun acc c => 10 * acc + (c.toNat - 48)) 0

/-- The function `std::stoi(str)` (base 10): skips white space, reads an optional sign
and the longest run of digits; `std::invalid_argument` when there is no digit,
`std::out_of_range` when the value does not fit an `int`. -/
def stoi (s : DxStr) : Except DxError Int :=
  let body := s.dropWhile isSpace
  let signed : Bool × DxStr :=
    match body with
    | c :: rest =>
      if c = Char.ofNat 45 then (true, rest)
      else if c = Char.ofNat 43 then (false, rest)
      else (false, body)
    | [] => (false, body)
  let digits := signed.2.takeWhile Char.isDigit
  if digits = [] then .error .invalidArgument
  else
    let n : Int := decimalValue digits
    let v : Int := if signed.1 then -n else n
    if v < -2147483648 ∨ 2147483647 < v then .error .outOfRange else .ok v

/-- The inner `do ... while (c != '}' && pos <= str.length())` loop of `interpolate`:
`build << c; pos++; c = str.at(pos);`. Returns the final `pos`, `c` and `build`. -/
def scanPlaceholder (str : DxStr) : Nat → Nat → Char → DxStr → Except DxError (Nat × Char × DxStr)
  | 0, _, _, _ => .error .fuelExhausted
  | fuel + 1, pos, c, build =>
    match strAt str (pos + 1) with
    | .error e => .error e
    | .ok c1 =>
      if c1 ≠ chClose ∧ pos + 1 ≤ str.length then
        scanPlaceholder str fuel (pos + 1) c1 (build ++ [c])
      else .ok (pos + 1, c1, build ++ [c])

/-- The `for (auto pos = 0; pos < str.length(); ++pos)` loop of `interpolate`, one
iteration per unit of fuel. Each `continue` of the source is followed by the `++pos`
of the `for` statement, which is why every recursive call adds one to the position
the body left in `pos`. -/
def interpolateLoop (str : DxStr) (elems : List DxStr) : Nat → Nat → DxStr → Except DxError DxStr
  | 0, _, _ => .error .fuelExhausted
  | fuel + 1, pos, result =>
    if pos < str.length then
      match strAt str pos with
      | .error e => .error e
      | .ok c =>
        if c = chBackslash ∧ pos + 1 ≤ str.length then
          -- pos++; continue;
          interpolateLoop str elems fuel ((pos + 1) + 1) result
        else if c = chDollar ∧ pos + 2 ≤ str.length then
          let startPos := pos
          match strAt str (pos + 1) with
          | .error e => .error e
          | .ok c1 =>
            if c1 = chOpen then
              -- pos += 2; c = str.at(pos);
              match strAt str (pos + 2) with
              | .error e => .error e
              | .ok c2 =>
                match scanPlaceholder str (str.length + 1) (pos + 2) c2 [] with
                | .error e => .error e
                | .ok (pos1, c3, build) =>
                  if c3 ≠ chClose then
                    -- pos = startPos + 1; result << '$'; continue;
                    interpolateLoop str elems fuel ((startPos + 1) + 1) (result ++ [chDollar])
                  else
                    match stoi build with
                    | .error _ =>
                      interpolateLoop str elems fuel ((startPos + 1) + 1) (result ++ [chDollar])
                    | .ok index =>
                      if index < 0 ∨ (elems.length : Int) ≤ index then
                        interpolateLoop str elems fuel ((startPos + 1) + 1) (result ++ [chDollar])
                      else
                        -- result << elems[index]; continue;
                        interpolateLoop str elems fuel (pos1 + 1)
                          (result ++ elems.getD index.toNat [])
            else
              interpolateLoop str elems fuel (pos + 1) (result ++ [c])
        else
          interpolateLoop str elems fuel (pos + 1) (result ++ [c])
    else .ok result

/-- The function `DxInterpreter::interpolate(str, elems)`. Every iteration of its loop
moves `pos` forward, so `str.length + 1` iterations are always enough. -/
def interpolate (str : DxStr) (elems : List DxStr) : Except DxError DxStr :=
  interpolateLoop str elems (str.length + 1) 0 []

/-! ## Machine integers -/

/-- Reduction of an integer to the range of a two's-complement `int` (32 bits). -/
def wrapI32 (x : Int) : Int := (x + 2147483648) % 4294967296 - 2147483648

/-- Conversion of an `int` to `size_t` (64 bits): negative values become huge. -/
def toSizeT (x : Int) : Nat := (x % 18446744073709551616).toNat

/-! ## Values (`DxValue.hpp`, `DxValue.cpp`) -/

/-- The enumeration `DxValueType`. -/
inductive DxValueType where
  | Integer | Double | String | Undefined | Array | Reference | Unknown
  deriving DecidableEq, Repr

/-- A C++ `double`, kept as its 64-bit pattern; its arithmetic is a parameter (`FloatOps`). -/
structure DxDouble where
  /-- The IEEE-754 binary64 pattern. -/
  bits : Nat
  deriving DecidableEq, Repr

mutual
/-- The alias `DxValue::variant_type`: `variant<int, double, DxStr, array_type, DxAny>`. -/
inductive DxVariant where
  | int (i : Int)
  | double (d : DxDouble)
  | string (s : DxStr)
  | array (a : List DxValue)
  | any (r : Nat)
/-- The class `DxValue`: the optional payload `m_value` and, separately, the tag `m_type`. -/
inductive DxValue where
  | mk (m_value : Option DxVariant) (m_type : DxValueType)
end

/-- The member `m_value`. -/
def DxValue.m_value : DxValue → Option DxVariant
  | ⟨v, _⟩ => v

/-- The accessor `type()`, that is the member `m_type`. -/
def DxValue.type : DxValue → DxValueType
  | ⟨_, t⟩ => t

/-- The method `detect_type()`, as the tag it assigns for a payload. -/
def DxVariant.detect_type : DxVariant → DxValueType
  | .array _ => .Array
  | .string _ => .String
  | .int _ => .Integer
  | .double _ => .Double
  | .any _ => .Reference

/-- The constructor `DxValue(value_type value, DxValueType type)`. -/
def DxValue.make (value : Option DxVariant) (type : DxValueType) : DxValue :=
  match value with
  | some v => if type = .Undefined then ⟨some v, v.detect_type⟩ else ⟨some v, type⟩
  | none => ⟨none, type⟩

/-- The default-constructed value `DxValue{}`: no payload, tag `Undefined`. -/
def DxValue.undefined : DxValue := DxValue.make none .Undefined

/-- The constructor `DxValue(bool value)`: payload `(int)value`, tag `Integer`. -/
def DxValue.ofBool (b : Bool) : DxValue := ⟨some (.int (if b then 1 else 0)), .Integer⟩

/-- The accessor `get<int>()`, `std::get<int>(*m_value)`. -/
def DxValue.getInt (v : DxValue) : Except DxError Int :=
  match v.m_value with
  | none => .error .undefinedBehaviour
  | some (.int i) => .ok i
  | some _ => .error .badVariantAccess

/-- The accessor `get<double>()`. -/
def DxValue.getDouble (v : DxValue) : Except DxError DxDouble :=
  match v.m_value with
  | none => .error .undefinedBehaviour
  | some (.double d) => .ok d
  | some _ => .error .badVariantAccess

/-- The accessor `get<std::string>()`. -/
def DxValue.getString (v : DxValue) : Except DxError DxStr :=
  match v.m_value with
  | none => .error .undefinedBehaviour
  | some (.string s) => .ok s
  | some _ => .error .badVariantAccess

/-- The accessor `get<array_type>()`. -/
def DxValue.getArray (v : DxValue) : Except DxError (List DxValue) :=
  match v.m_value with
  | none => .error .undefinedBehaviour
  | some (.array a) => .ok a
  | some _ => .error .badVariantAccess

/-- The floating-point primitives of the platform that the runtime calls. -/
structure FloatOps where
  /-- The cast `(double)i` of an `int`. -/
  ofInt : Int → DxDouble
  /-- The expression `(int)floor(d)`; undefined when the floor does not fit an `int`. -/
  floorToInt : DxDouble → Except DxError Int
  /-- The function `std::to_string(double)`. -/
  toStr : DxDouble → DxStr
  /-- The function `std::stod`. -/
  stod : DxStr → Except DxError DxDouble
  add : DxDouble → DxDouble → DxDouble
  sub : DxDouble → DxDouble → DxDouble
  mul : DxDouble → DxDouble → DxDouble
  div : DxDouble → DxDouble → DxDouble
  neg : DxDouble → DxDouble
  pow : DxDouble → DxDouble → DxDouble
  /-- The comparison `a == b` of two doubles. -/
  eq : DxDouble → DxDouble → Bool
  /-- The comparison `a < b`. -/
  lt : DxDouble → DxDouble → Bool
  /-- The comparison `a <= b`. -/
  le : DxDouble → DxDouble → Bool

/-- The function `std::to_string(int)`: decimal digits with a leading minus sign. -/
def intToStr (i : Int) : DxStr :=
  if i < 0 then Char.ofNat 45 :: Nat.toDigits 10 i.natAbs else Nat.toDigits 10 i.toNat

/-- The method `DxValue::convert(newType)`. -/
def DxValue.convert (fp : FloatOps) (v : DxValue) (newType : DxValueType) : Except DxError DxValue :=
  if v.type = newType ∨ newType = .Undefined then .ok v
  else
    match v.type, newType with
    | .Double, .Integer => do
      let d ← v.getDouble
      let i ← fp.floorToInt d
      pure (DxValue.make (some (.int i)) .Integer)
    | .Double, .String => do
      let d ← v.getDouble
      pure (DxValue.make (some (.string (fp.toStr d))) .String)
    | .Integer, .Double => do
      let i ← v.getInt
      pure (DxValue.make (some (.double (fp.ofInt i))) .Double)
    | .Integer, .String => do
      let i ← v.getInt
      pure (DxValue.make (some (.string (intToStr i))) .String)
    | .String, .Double => do
      let s ← v.getString
      let d ← fp.stod s
      pure (DxValue.make (some (.double d)) .Double)
    | .String, .Integer => do
      let s ← v.getString
      let i ← stoi s
      pure (DxValue.make (some (.int i)) .Integer)
    | .Undefined, .String => .ok (DxValue.make (some (.string "undefined".toList)) .String)
    | _, _ => .error .valueConversion

/-- The helper `safe_get<DxValueType::Integer>()`. -/
def DxValue.safeGetInt (fp : FloatOps) (v : DxValue) : Except DxError Int :=
  (v.convert fp .Integer).bind DxValue.getInt

/-- The helper `safe_get<DxValueType::Double>()`. -/
def DxValue.safeGetDouble (fp : FloatOps) (v : DxValue) : Except DxError DxDouble :=
  (v.convert fp .Double).bind DxValue.getDouble

/-- The helper `safe_get<DxValueType::String>()`. -/
def DxValue.safeGetString (fp : FloatOps) (v : DxValue) : Except DxError DxStr :=
  (v.convert fp .String).bind DxValue.getString

/-- The binary operators that `DxValue` overloads. -/
inductive BinOp where
  | add | sub | mul | div | mod | eq | ne | gt | lt | ge | le
  deriving DecidableEq, Repr

/-- The `cond` argument of `op_convert_cond`: when true the right operand is converted
to the type of the left one, otherwise the left operand to the type of the right one. -/
def BinOp.cond (op : BinOp) (l r : DxValueType) : Bool :=
  match op with
  | .add => decide (l = .String) || (decide (l = .Double) && decide (r = .Integer))
  | _ => decide (l = .Double) && decide (r = .Integer)

/-- The arguments `(if_both_null, if_both_not_null)` of `operator_disu`, for `==` and `!=`. -/
def BinOp.nullcheck : BinOp → Option (Bool × Bool)
  | .eq => some (true, false)
  | .ne => some (false, true)
  | _ => none

/-- The expression `this->get<int>() op rhs.get<int>()`, converted to the payload the
constructor receives: an `int` for arithmetic (two's complement), a `bool` stored as
an `int` for comparisons. Division by zero and `INT_MIN / -1` are undefined. -/
def BinOp.onInt (op : BinOp) (a b : Int) : Except DxError DxVariant :=
  match op with
  | .add => .ok (.int (wrapI32 (a + b)))
  | .sub => .ok (.int (wrapI32 (a - b)))
  | .mul => .ok (.int (wrapI32 (a * b)))
  | .div =>
    if b = 0 ∨ (a = -2147483648 ∧ b = -1) then .error .undefinedBehaviour
    else .ok (.int (Int.tdiv a b))
  | .mod =>
    if b = 0 ∨ (a = -2147483648 ∧ b = -1) then .error .undefinedBehaviour
    else .ok (.int (Int.tmod a b))
  | .eq => .ok (.int (if a = b then 1 else 0))
  | .ne => .ok (.int (if a ≠ b then 1 else 0))
  | .gt => .ok (.int (if b < a then 1 else 0))
  | .lt => .ok (.int (if a < b then 1 else 0))
  | .ge => .ok (.int (if b ≤ a then 1 else 0))
  | .le => .ok (.int (if a ≤ b then 1 else 0))

/-- The expression `this->get<double>() op rhs.get<double>()` as a payload; `none` for
`%`, which has no `Double` branch. -/
def BinOp.onDouble (fp : FloatOps) (op : BinOp) (a b : DxDouble) : Option DxVariant :=
  match op with
  | .add => some (.double (fp.add a b))
  | .sub => some (.double (fp.sub a b))
  | .mul => some (.double (fp.mul a b))
  | .div => some (.double (fp.div a b))
  | .mod => none
  | .eq => some (.int (if fp.eq a b then 1 else 0))
  | .ne => some (.int (if fp.eq a b then 0 else 1))
  | .gt => some (.int (if fp.lt b a then 1 else 0))
  | .lt => some (.int (if fp.lt a b then 1 else 0))
  | .ge => some (.int (if fp.le b a then 1 else 0))
  | .le => some (.int (if fp.le a b then 1 else 0))

/-- The expression `this->get<std::string>() op rhs.get<std::string>()` as a payload;
only `+`, `==` and `!=` have a `String` branch. -/
def BinOp.onString (op : BinOp) (a b : DxStr) : Option DxVariant :=
  match op with
  | .add => some (.string (a ++ b))
  | .eq => some (.int (if a = b then 1 else 0))
  | .ne => some (.int (if a ≠ b then 1 else 0))
  | _ => none

/-- The `switch (this->m_type)` of an operator, reached when both tags are equal: one
`op_branch` per supported type, `op_null_branch` for `==`/`!=`, else `op_throw`. -/
def DxValue.sameTypeOp (fp : FloatOps) (op : BinOp) (l r : DxValue) : Except DxError DxValue :=
  match l.type with
  | .Double =>
    match op with
    | .mod => .error .invalidOperator
    | _ => do
      let a ← l.getDouble
      let b ← r.getDouble
      match BinOp.onDouble fp op a b with
      | some p => pure (DxValue.make (some p) .Double)
      | none => .error .invalidOperator
  | .Integer => do
    let a ← l.getInt
    let b ← r.getInt
    let p ← BinOp.onInt op a b
    pure (DxValue.make (some p) .Integer)
  | .String =>
    match op with
    | .add | .eq | .ne => do
      let a ← l.getString
      let b ← r.getString
      match BinOp.onString op a b with
      | some p => pure (DxValue.make (some p) .String)
      | none => .error .invalidOperator
    | _ => .error .invalidOperator
  | .Undefined =>
    match op.nullcheck with
    | some (ifBothNull, _) => .ok (DxValue.ofBool ifBothNull)
    | none => .error .invalidOperator
  | _ => .error .invalidOperator

/-- The operator `l op r` of `DxValue` (`op_signature_cond`, `op_nullcheck_signature_cond`).
The coercion step calls the operator again on the converted operands; each such call uses
one unit of fuel. -/
def DxValue.binop (fp : FloatOps) (op : BinOp) : Nat → DxValue → DxValue → Except DxError DxValue
  | 0, _, _ => .error .fuelExhausted
  | fuel + 1, l, r =>
    let oneNull : Bool :=
      match op.nullcheck with
      | some _ => decide (l.type = .Undefined) != decide (r.type = .Undefined)
      | none => false
    if oneNull then
      match op.nullcheck with
      | some (_, ifBothNotNull) => .ok (DxValue.ofBool ifBothNotNull)
      | none => .error .invalidOperator
    else if l.type ≠ r.type then
      if op.cond l.type r.type then
        match r.convert fp l.type with
        | .ok r1 => DxValue.binop fp op fuel l r1
        | .error e => .error e
      else
        match l.convert fp r.type with
        | .ok l1 => DxValue.binop fp op fuel l1 r
        | .error e => .error e
    else DxValue.sameTypeOp fp op l r

/-! ## The image (`models.hpp`, `DxData.hpp`) -/

/-- A byte of the instruction buffer. -/
abbrev Byte := Fin 256

/-- The record `DxScene`. -/
structure DxScene where
  name : DxStr
  codeOffset : Int
  flagOffsets : List Int
  flagNames : List DxStr
  deriving DecidableEq, Repr

/-- The record `DxFunction`. -/
structure DxFunction where
  name : DxStr
  codeOffset : Int
  flagOffsets : List Int
  flagNames : List DxStr
  deriving DecidableEq, Repr

/-- The record `DxDefinition`. -/
structure DxDefinition where
  valueStringIndex : Nat
  codeOffset : Int
  isInternal : Bool
  deriving DecidableEq, Repr

/-- The class `DxData`. The two `unordered_map`s are association lists in which the
first entry of a key is the one `at` finds. -/
structure DxData where
  m_currentCacheID : Int
  m_strings : List DxStr
  m_translations : List DxStr
  m_instructions : List Byte
  m_functions : List DxFunction
  m_scenes : List (DxStr × DxScene)
  m_definitions : List (DxStr × DxDefinition)
  m_originalText : Option (List DxStr)
  deriving DecidableEq, Repr

/-- The bounds-checked `vector::at(idx)` with `idx` converted from `int` to `size_t`. -/
def vectorAt {α : Type} (v : List α) (idx : Int) : Except DxError α :=
  match v.get? (toSizeT idx) with
  | some a => .ok a
  | none => .error .outOfRange

/-- The unchecked `vector::operator[]` with an `int` index; undefined out of range. -/
def vectorIndex {α : Type} (v : List α) (idx : Int) : Except DxError α :=
  match v.get? (toSizeT idx) with
  | some a => .ok a
  | none => .error .undefinedBehaviour

/-- The method `DxData::string(idx)`, `m_strings.at(idx)`. -/
def DxData.string (d : DxData) (idx : Int) : Except DxError DxStr := vectorAt d.m_strings idx

/-- The method `DxData::translation(idx)`, `m_translations.at(idx)`. -/
def DxData.translation (d : DxData) (idx : Int) : Except DxError DxStr :=
  vectorAt d.m_translations idx

/-- The method `DxData::scene(name)`, `m_scenes.at(name)`. -/
def DxData.scene (d : DxData) (name : DxStr) : Except DxError DxScene :=
  match d.m_scenes.lookup name with
  | some s => .ok s
  | none => .error .outOfRange

/-! ## The host -/

/-- One invocation of a host callback, with the arguments it received. -/
inductive HostCall where
  | text (text : DxStr)
  | choice (choices : List DxStr)
  | endScene (name : DxStr)
  | setVariable (name : DxStr) (value : DxValue)
  | getVariable (name : DxStr)
  | setFlag (name : DxStr) (value : DxValue)
  | getFlag (name : DxStr)
  | chance (chance : DxDouble)
  | weightedChance (weights : List DxDouble)
  | unregisteredFunction (name : DxStr)
  | function (name : DxStr) (args : List DxValue)

/-- The callbacks of the embedder. A callback is any deterministic procedure that does not
call back into the interpreter: its outcome (a value, or an exception) is a function of
the invocations made so far and of its arguments. -/
structure Host where
  /-- The callback `m_textHandler`. -/
  text : List HostCall → DxStr → Except DxError Unit
  /-- The callback `m_choiceHandler`. -/
  choice : List HostCall → List DxStr → Except DxError Unit
  /-- The callback `m_endSceneHandler`. -/
  endScene : List HostCall → DxStr → Except DxError Unit
  /-- The callback `m_setVariableHandler`. -/
  setVariable : List HostCall → DxStr → DxValue → Except DxError Unit
  /-- The callback `m_getVariableHandler`. -/
  getVariable : List HostCall → DxStr → Except DxError DxValue
  /-- The callback `m_setFlagHandler`. -/
  setFlag : List HostCall → DxStr → DxValue → Except DxError Unit
  /-- The callback `m_getFlagHandler`. -/
  getFlag : List HostCall → DxStr → Except DxError DxValue
  /-- The callback `m_chanceHandler`. -/
  chance : List HostCall → DxDouble → Except DxError Bool
  /-- The callback `m_weighedChanceHandler`. -/
  weightedChance : List HostCall → List DxDouble → Except DxError Int
  /-- The callback `m_unregisteredFunctionHandler`. -/
  unregisteredFunction : List HostCall → DxStr → Except DxError Unit
  /-- The map `m_functionHandlers`. -/
  functionHandlers : DxStr → Option (List HostCall → List DxValue → Except DxError DxValue)

/-! ## The interpreter state (`DxInterpreter.hpp`) -/

/-- The enumeration `DxInterpreter::State`. -/
inductive State where
  | Inactive | Running | Paused | InText | InChoice | Eval
  deriving DecidableEq, Repr

/-- The record `StackFrame`. A `DxStack` is a list whose head is the top. -/
structure StackFrame where
  returnOffset : Int
  stack : List DxValue
  locals : List DxValue
  flagCount : Int

/-- The record `ChoiceEntry`. -/
structure ChoiceEntry where
  targetOffset : Int
  text : DxStr
  deriving DecidableEq, Repr

/-- The record `ChooseEntry`. -/
structure ChooseEntry where
  targetOffset : Int
  chance : DxDouble
  deriving DecidableEq, Repr

/-- The class `_internal::DxDefinitionInstance` (without its two weak pointers). -/
structure DxDefinitionInstance where
  m_target : DxDefinition
  m_cachedValue : Option DxStr
  m_cachedId : Int
  deriving DecidableEq, Repr

/-- The data members of `DxInterpreter`, together with the image `m_data` points to and
the list `hostCalls` of the callback invocations made so far (oldest first). The stacks
`m_stack` and `m_callStack` are lists whose head is the top; the vectors `m_locals`,
`m_choiceOptions` and `m_chooseOptions` are lists in index order. -/
structure DxInterpreter where
  m_data : DxData
  m_state : State
  m_programCounter : Int
  m_stack : List DxValue
  m_callStack : List StackFrame
  m_locals : List DxValue
  m_choiceOptions : List ChoiceEntry
  m_chooseOptions : List ChooseEntry
  m_saveRegister : Option DxValue
  m_flagCount : Int
  m_currentScene : Option DxScene
  m_startingChoice : Bool
  m_definitions : List (DxStr × DxDefinitionInstance)
  m_flagsInitialized : Bool
  hostCalls : List HostCall

/-- The interpreter right after `DxInterpreter(DxData&& data)`. -/
def DxInterpreter.fresh (data : DxData) : DxInterpreter where
  m_data := data
  m_state := .Inactive
  m_programCounter := -1
  m_stack := []
  m_callStack := []
  m_locals := []
  m_choiceOptions := []
  m_chooseOptions := []
  m_saveRegister := none
  m_flagCount := 0
  m_currentScene := none
  m_startingChoice := false
  m_definitions := []
  m_flagsInitialized := false
  hostCalls := []

/-- A member function of the interpreter: from the state before the call to its outcome
(a result or a thrown exception) and the state it leaves behind. -/
def Exec (α : Type) : Type := DxInterpreter → Except DxError α × DxInterpreter

/-- Normal return. -/
def Exec.pure {α : Type} (a : α) : Exec α := fun m => (.ok a, m)

/-- Sequencing: an exception of the first part skips the second and keeps the state. -/
def Exec.bind {α β : Type} (x : Exec α) (f : α → Exec β) : Exec β := fun m =>
  match x m with
  | (.ok a, m1) => f a m1
  | (.error e, m1) => (.error e, m1)

instance : Monad Exec where
  pure := Exec.pure
  bind := Exec.bind

/-- The statement `throw`. -/
def Exec.throw {α : Type} (e : DxError) : Exec α := fun m => (.error e, m)

/-- Read access to the members. -/
def Exec.get : Exec DxInterpreter := fun m => (.ok m, m)

/-- Write access to the members. -/
def Exec.modify (f : DxInterpreter → DxInterpreter) : Exec Unit := fun m => (.ok (), f m)

/-- The outcome of a computation that does not touch the interpreter. -/
def Exec.lift {α : Type} (r : Except DxError α) : Exec α := fun m => (r, m)

/-- Invocation of a host callback: the call is recorded, then its outcome is returned. -/
def Exec.host {α : Type} (call : HostCall) (outcome : List HostCall → Except DxError α) : Exec α :=
  fun m => (outcome m.hostCalls, { m with hostCalls := m.hostCalls ++ [call] })

/-- The helper `dx_assert(condition, ...)`. -/
def dx_assert (condition : Bool) : Exec Unit :=
  if condition then Exec.pure () else Exec.throw .diannexException

/-- The method `assert_state(state, message)`. -/
def assert_state (state : State) : Exec Unit := fun m =>
  if state ≠ m.m_state then (.error .diannexException, m) else (.ok (), m)

/-- The call `m_stack.push(val)`. -/
def push (v : DxValue) : Exec Unit := Exec.modify (fun m => { m with m_stack := v :: m.m_stack })

/-- The call `m_stack.pop()`; `back()` of an empty deque is undefined. -/
def pop : Exec DxValue := fun m =>
  match m.m_stack with
  | v :: rest => (.ok v, { m with m_stack := rest })
  | [] => (.error .undefinedBehaviour, m)

/-- The call `m_stack.peek()`. -/
def peek : Exec DxValue := fun m =>
  match m.m_stack with
  | v :: _ => (.ok v, m)
  | [] => (.error .undefinedBehaviour, m)

/-- A loop `for (int i = 0; i < count; ++i) args[i] = m_stack.pop();`. -/
def popN : Nat → Exec (List DxValue)
  | 0 => Exec.pure []
  | n + 1 => do
    let v ← pop
    let rest ← popN n
    pure (v :: rest)

/-- The construction `DxVec<T> v(count)` from an `int`: a negative count converts to a
size above `max_size()` and throws `std::length_error`. -/
def vectorOfCount (count : Int) : Exec Nat :=
  if count < 0 then Exec.throw .lengthError else Exec.pure count.toNat

/-- Little-endian value of a list of bytes. -/
def leValue : List Byte → Nat
  | [] => 0
  | b :: rest => b.val + 256 * leValue rest

/-- The lambda `read` of `interpret` for a `T` of `n` bytes: `m_programCounter += sizeof(T)`
and `reader->read<T>()`. The reader was created over
`buff.subspan(m_programCounter)` and every read of `interpret` precedes any other
assignment to `m_programCounter`, so the bytes are those at the old program counter.
Taking bytes beyond the end of the span is undefined. -/
def readBytes (n : Nat) : Exec (List Byte) := fun m =>
  if 0 ≤ m.m_programCounter ∧ m.m_programCounter.toNat + n ≤ m.m_data.m_instructions.length then
    (.ok ((m.m_data.m_instructions.drop m.m_programCounter.toNat).take n),
      { m with m_programCounter := wrapI32 (m.m_programCounter + n) })
  else (.error .undefinedBehaviour, m)

/-- The lambda `argI`: one `int32_t` immediate. -/
def argI : Exec Int := do
  let bs ← readBytes 4
  pure (wrapI32 (leValue bs))

/-- The lambda `argII`: two `int32_t` immediates. -/
def argII : Exec (Int × Int) := do
  let v1 ← argI
  let v2 ← argI
  pure (v1, v2)

/-- The lambda `argD`: one `double` immediate. -/
def argD : Exec DxDouble := do
  let bs ← readBytes 8
  pure ⟨leValue bs⟩

/-! ## Opcodes (`DxInstructions.hpp`) -/

/-- The enumeration `DxOpcode`. -/
inductive DxOpcode where
  | nop | freeloc | save | load | pushu | pushi | pushd | pushs | pushints | pushbs
  | pushbints | makearr | pusharrind | setarrind | setvarglb | setvarloc | pushvarglb
  | pushvarloc | pop | dup | dup2 | add | sub | mul | div | mod | neg | inv | bitls | bitrs
  | _bitand | _bitor | bitxor | bitneg | pow | cmpeq | cmpgt | cmplt | cmpgte | cmplte
  | cmpneq | j | jt | jf | exit | ret | call | callext | choicebeg | choiceadd | choiceaddt
  | choicesel | chooseadd | chooseaddt | choosesel | textrun
  deriving DecidableEq, Repr

/-- The numeric value of each enumerator. -/
def DxOpcode.toByte : DxOpcode → Byte
  | .nop => 0x00 | .freeloc => 0x0A | .save => 0x0B | .load => 0x0C | .pushu => 0x0F
  | .pushi => 0x10 | .pushd => 0x11 | .pushs => 0x12 | .pushints => 0x13 | .pushbs => 0x14
  | .pushbints => 0x15 | .makearr => 0x16 | .pusharrind => 0x17 | .setarrind => 0x18
  | .setvarglb => 0x19 | .setvarloc => 0x1A | .pushvarglb => 0x1B | .pushvarloc => 0x1C
  | .pop => 0x1D | .dup => 0x1E | .dup2 => 0x1F | .add => 0x20 | .sub => 0x21 | .mul => 0x22
  | .div => 0x23 | .mod => 0x24 | .neg => 0x25 | .inv => 0x26 | .bitls => 0x27 | .bitrs => 0x28
  | ._bitand => 0x29 | ._bitor => 0x2A | .bitxor => 0x2B | .bitneg => 0x2C | .pow => 0x2D
  | .cmpeq => 0x30 | .cmpgt => 0x31 | .cmplt => 0x32 | .cmpgte => 0x33 | .cmplte => 0x34
  | .cmpneq => 0x35 | .j => 0x40 | .jt => 0x41 | .jf => 0x42 | .exit => 0x43 | .ret => 0x44
  | .call => 0x45 | .callext => 0x46 | .choicebeg => 0x47 | .choiceadd => 0x48
  | .choiceaddt => 0x49 | .choicesel => 0x4A | .chooseadd => 0x4B | .chooseaddt => 0x4C
  | .choosesel => 0x4D | .textrun => 0x4E

/-- All enumerators, in declaration order. -/
def DxOpcode.all : List DxOpcode :=
  [.nop, .freeloc, .save, .load, .pushu, .pushi, .pushd, .pushs, .pushints, .pushbs,
   .pushbints, .makearr, .pusharrind, .setarrind, .setvarglb, .setvarloc, .pushvarglb,
   .pushvarloc, .pop, .dup, .dup2, .add, .sub, .mul, .div, .mod, .neg, .inv, .bitls, .bitrs,
   ._bitand, ._bitor, .bitxor, .bitneg, .pow, .cmpeq, .cmpgt, .cmplt, .cmpgte, .cmplte,
   .cmpneq, .j, .jt, .jf, .exit, .ret, .call, .callext, .choicebeg, .choiceadd, .choiceaddt,
   .choicesel, .chooseadd, .chooseaddt, .choosesel, .textrun]

/-- The enumerator a byte denotes, if any. -/
def DxOpcode.ofByte (b : Byte) : Option DxOpcode :=
  DxOpcode.all.find? (fun op => op.toByte = b)

/-- The `int32_t` immediate `v`, as the four bytes the image stores. -/
def encodeI32 (v : Int) : List Byte :=
  let u : Nat := (v % 4294967296).toNat
  [Fin.ofNat u, Fin.ofNat (u / 256), Fin.ofNat (u / 65536), Fin.ofNat (u / 16777216)]

/-! ## The opcode dispatcher (`DxInterpreter::interpret`) -/

/-- What `interpret` needs from outside the interpreter object. -/
structure Env where
  fp : FloatOps
  host : Host

/-- The call `m_locals.pop_back()`; undefined on an empty vector. -/
def popBackLocals : Exec Unit := fun m =>
  match m.m_locals with
  | [] => (.error .undefinedBehaviour, m)
  | _ :: _ => (.ok (), { m with m_locals := m.m_locals.dropLast })

/-- The method `clearVMState()`. -/
def clearVMState : Exec Unit :=
  Exec.modify (fun m => { m with
    m_stack := [], m_callStack := [], m_locals := [], m_choiceOptions := [],
    m_chooseOptions := [], m_saveRegister := none })

/-- The method `endScene()`. Dereferencing an empty `m_currentScene` is undefined. -/
def endScene (env : Env) : Exec Unit := do
  Exec.modify (fun m => { m with m_state := .Inactive })
  let m ← Exec.get
  match m.m_currentScene with
  | none => Exec.throw .undefinedBehaviour
  | some scene => do
    let name := scene.name
    Exec.modify (fun m => { m with m_currentScene := none })
    clearVMState
    Exec.host (.endScene name) (fun h => env.host.endScene h name)

/-- Loop `m_locals.push_back(m_getFlagHandler(flagName))` over a list of flag names. -/
def loadFlags (env : Env) : List DxStr → Exec Unit
  | [] => Exec.pure ()
  | n :: rest => do
    let v ← Exec.host (.getFlag n) (fun h => env.host.getFlag h n)
    Exec.modify (fun m => { m with m_locals := m.m_locals ++ [v] })
    loadFlags env rest

/-- Case `freeloc`. -/
def execFreeloc (env : Env) : Exec Unit := do
  let argIndex ← argI
  let m ← Exec.get
  if toSizeT argIndex = toSizeT ((m.m_locals.length : Int) - 1) then do
    if argIndex < m.m_flagCount then do
      let value ← Exec.lift (vectorIndex m.m_locals argIndex)
      dx_assert m.m_flagsInitialized
      match m.m_currentScene with
      | none => Exec.throw .undefinedBehaviour
      | some scene => do
        let name ← Exec.lift (vectorIndex scene.flagNames argIndex)
        Exec.host (.setFlag name value) (fun h => env.host.setFlag h name value)
    else Exec.pure ()
    popBackLocals
  else Exec.pure ()

/-- Case `save`. -/
def execSave : Exec Unit := do
  let v ← peek
  Exec.modify (fun m => { m with m_saveRegister := some v })

/-- Case `load`. -/
def execLoad : Exec Unit := do
  let m ← Exec.get
  push (m.m_saveRegister.getD DxValue.undefined)
  Exec.modify (fun m => { m with m_saveRegister := none })

/-- Case `pushi`. -/
def execPushi : Exec Unit := do
  let val ← argI
  push (DxValue.make (some (.int val)) .Integer)

/-- Case `pushd`. -/
def execPushd : Exec Unit := do
  let val ← argD
  push (DxValue.make (some (.double val)) .Double)

/-- Cases `pushs` (`translated = true`) and `pushbs`. -/
def execPushs (translated : Bool) : Exec Unit := do
  let textIdx ← argI
  let m ← Exec.get
  let s ← Exec.lift (if translated then m.m_data.translation textIdx else m.m_data.string textIdx)
  push (DxValue.make (some (.string s)) .String)

/-- The function `generate_vector(count, gen)` over the coroutine of `pushints`: `count` times
`m_stack.pop().convert(DxValueType::String).get<std::string>()`. -/
def popStrings (env : Env) : Nat → Exec (List DxStr)
  | 0 => Exec.pure []
  | n + 1 => do
    let v ← pop
    let s ← Exec.lift (v.safeGetString env.fp)
    let rest ← popStrings env n
    pure (s :: rest)

/-- Cases `pushints` (`translated = true`) and `pushbints`. -/
def execPushints (env : Env) (translated : Bool) : Exec Unit := do
  let (textIdx, elemCount) ← argII
  let m ← Exec.get
  let str ← Exec.lift (if translated then m.m_data.translation textIdx else m.m_data.string textIdx)
  let count ← vectorOfCount elemCount
  let elems ← popStrings env count
  let text ← Exec.lift (interpolate str elems)
  push (DxValue.make (some (.string text)) .String)

/-- Case `makearr`. -/
def execMakearr : Exec Unit := do
  let arrSize ← argI
  let n ← vectorOfCount arrSize
  let popped ← popN n
  push (DxValue.make (some (.array popped.reverse)) .Array)

/-- Case `pusharrind`. -/
def execPusharrind (env : Env) : Exec Unit := do
  let v ← pop
  let ind ← Exec.lift (v.safeGetInt env.fp)
  let arr ← pop
  if arr.type ≠ .Array then Exec.throw .runtimeError
  else do
    let vArr ← Exec.lift arr.getArray
    let elem ← Exec.lift (vectorIndex vArr ind)
    push elem

/-- Case `setarrind`. -/
def execSetarrind (env : Env) : Exec Unit := do
  let value ← pop
  let v ← pop
  let ind ← Exec.lift (v.safeGetInt env.fp)
  let arr ← peek
  if arr.type ≠ .Array then Exec.throw .runtimeError
  else do
    let vArr ← Exec.lift arr.getArray
    let _ ← Exec.lift (vectorIndex vArr ind)
    let _ ← pop
    push ⟨some (.array (vArr.set (toSizeT ind) value)), arr.type⟩

/-- Case `setvarglb`. -/
def execSetvarglb (env : Env) : Exec Unit := do
  let v ← pop
  let idx ← Exec.lift (v.safeGetInt env.fp)
  let m ← Exec.get
  let name ← Exec.lift (m.m_data.string idx)
  let value ← pop
  Exec.host (.setVariable name value) (fun h => env.host.setVariable h name value)

/-- Case `setvarloc`. With a negative `idx` the padding loop runs until `int i`
overflows, which is undefined. -/
def execSetvarloc : Exec Unit := do
  let value ← pop
  let m ← Exec.get
  let count := m.m_locals.length
  let idx ← argI
  if count ≤ toSizeT idx then
    if idx < 0 then Exec.throw .undefinedBehaviour
    else
      Exec.modify (fun m => { m with
        m_locals := m.m_locals ++ List.replicate (idx.toNat - count) DxValue.undefined ++ [value] })
  else
    Exec.modify (fun m => { m with m_locals := m.m_locals.set idx.toNat value })

/-- Case `pushvarglb`. -/
def execPushvarglb (env : Env) : Exec Unit := do
  let v ← pop
  let idx ← Exec.lift (v.safeGetInt env.fp)
  let m ← Exec.get
  let name ← Exec.lift (m.m_data.string idx)
  let value ← Exec.host (.getVariable name) (fun h => env.host.getVariable h name)
  push value

/-- Case `pushvarloc`. -/
def execPushvarloc : Exec Unit := do
  let idx ← argI
  let m ← Exec.get
  if m.m_locals.length ≤ toSizeT idx then push DxValue.undefined
  else do
    let v ← Exec.lift (vectorIndex m.m_locals idx)
    push v

/-- Case `dup`. -/
def execDup : Exec Unit := do
  let v ← peek
  push v

/-- Case `dup2`. -/
def execDup2 : Exec Unit := do
  let v1 ← pop
  let v2 ← pop
  push v2
  push v1
  push v2
  push v1

/-- Cases `add sub mul div mod` and `cmpeq cmpgt cmplt cmpgte cmplte cmpneq`:
`v2 = pop(); v1 = pop(); push(v1 op v2)`. -/
def execBinop (env : Env) (fuel : Nat) (op : BinOp) : Exec Unit := do
  let v2 ← pop
  let v1 ← pop
  let r ← Exec.lift (DxValue.binop env.fp op fuel v1 v2)
  push r

/-- Case `neg`. -/
def execNeg (env : Env) : Exec Unit := do
  let v ← pop
  match v.type with
  | .Integer => do
    let i ← Exec.lift v.getInt
    push (DxValue.make (some (.int (wrapI32 (-i)))) .Integer)
  | .Double => do
    let d ← Exec.lift v.getDouble
    push (DxValue.make (some (.double (env.fp.neg d))) .Double)
  | _ => Exec.throw .runtimeError

/-- Case `inv`. The values `1.0` and `0.0` are written as their bit patterns. -/
def execInv (env : Env) : Exec Unit := do
  let v ← pop
  match v.type with
  | .Integer => do
    let i ← Exec.lift v.getInt
    push (DxValue.make (some (.int (if i = 0 then 1 else 0))) .Integer)
  | .Double => do
    let d ← Exec.lift v.getDouble
    push (DxValue.make
      (some (.double (if env.fp.eq d ⟨0⟩ then ⟨0x3FF0000000000000⟩ else ⟨0⟩))) .Double)
  | _ => Exec.throw .runtimeError

/-- The bitwise operators on two `int`s; a shift count outside `[0, 31]` is undefined. -/
inductive BitOp where
  | shl | shr | and | or | xor
  deriving DecidableEq, Repr

/-- The value of `a op b` for the built-in bitwise operators on `int`. -/
def BitOp.apply (op : BitOp) (a b : Int) : Except DxError Int :=
  match op with
  | .shl => if b < 0 ∨ 31 < b then .error .undefinedBehaviour else .ok (wrapI32 (a * 2 ^ b.toNat))
  | .shr => if b < 0 ∨ 31 < b then .error .undefinedBehaviour else .ok (a / 2 ^ b.toNat)
  | .and => .ok (Int.land a b)
  | .or => .ok (Int.lor a b)
  | .xor => .ok (Int.xor a b)

/-- Cases `bitls bitrs _bitand _bitor bitxor`. -/
def execBitop (env : Env) (op : BitOp) : Exec Unit := do
  let v2 ← pop
  let v1 ← pop
  let a ← Exec.lift (v1.safeGetInt env.fp)
  let b ← Exec.lift (v2.safeGetInt env.fp)
  let r ← Exec.lift (op.apply a b)
  push (DxValue.make (some (.int r)) .Integer)

/-- Case `bitneg`. -/
def execBitneg (env : Env) : Exec Unit := do
  let v ← pop
  let a ← Exec.lift (v.safeGetInt env.fp)
  push (DxValue.make (some (.int (Int.not a))) .Integer)

/-- Case `pow`: the result is a `double` payload under the tag `Integer`. -/
def execPow (env : Env) : Exec Unit := do
  let v2 ← pop
  let v1 ← pop
  let a ← Exec.lift (v1.safeGetDouble env.fp)
  let b ← Exec.lift (v2.safeGetDouble env.fp)
  push (DxValue.make (some (.double (env.fp.pow a b))) .Integer)

/-- Case `j`. -/
def execJ : Exec Unit := do
  let relAddr ← argI
  Exec.modify (fun m => { m with m_programCounter := wrapI32 (m.m_programCounter + relAddr) })

/-- Cases `jt` (`onTrue = true`) and `jf`. -/
def execJcond (env : Env) (onTrue : Bool) : Exec Unit := do
  let relAddr ← argI
  let v ← pop
  let i ← Exec.lift (v.safeGetInt env.fp)
  if (decide (i ≠ 0)) = onTrue then
    Exec.modify (fun m => { m with m_programCounter := wrapI32 (m.m_programCounter + relAddr) })
  else Exec.pure ()

/-- Case `exit`. -/
def execExit (env : Env) : Exec Unit := do
  let m ← Exec.get
  if m.m_state = .Eval then
    Exec.modify (fun m => { m with m_state := .Inactive })
  else
    match m.m_callStack with
    | [] => endScene env
    | lastFrame :: rest => do
      Exec.modify (fun m => { m with
        m_callStack := rest,
        m_programCounter := lastFrame.returnOffset,
        m_stack := lastFrame.stack,
        m_locals := lastFrame.locals,
        m_flagCount := lastFrame.flagCount })
      push DxValue.undefined

/-- Case `ret`. -/
def execRet (env : Env) : Exec Unit := do
  let m ← Exec.get
  match m.m_callStack with
  | [] => endScene env
  | lastFrame :: rest => do
    let returnValue ← pop
    Exec.modify (fun m => { m with
      m_callStack := rest,
      m_stack := lastFrame.stack,
      m_locals := lastFrame.locals })
    push returnValue

/-- Case `call`. -/
def execCall (env : Env) : Exec Unit := do
  let (funcIdx, count) ← argII
  let n ← vectorOfCount count
  let args ← popN n
  Exec.modify (fun m => { m with
    m_callStack :=
      { returnOffset := m.m_programCounter, stack := m.m_stack, locals := m.m_locals,
        flagCount := m.m_flagCount } :: m.m_callStack,
    m_stack := [],
    m_locals := [] })
  let m ← Exec.get
  let func ← Exec.lift (vectorIndex m.m_data.m_functions funcIdx)
  Exec.modify (fun m => { m with
    m_programCounter := func.codeOffset,
    m_flagCount := wrapI32 func.flagNames.length })
  loadFlags env func.flagNames
  Exec.modify (fun m => { m with m_locals := m.m_locals ++ args })

/-- Case `callext`. -/
def execCallext (env : Env) : Exec Unit := do
  let (funcNameIdx, argCount) ← argII
  let m ← Exec.get
  let funcName ← Exec.lift (m.m_data.string funcNameIdx)
  let n ← vectorOfCount argCount
  let args ← popN n
  match env.host.functionHandlers funcName with
  | some handler => do
    let r ← Exec.host (.function funcName args) (fun h => handler h args)
    push r
  | none => do
    Exec.host (.unregisteredFunction funcName) (fun h => env.host.unregisteredFunction h funcName)
    push DxValue.undefined

/-- Case `choicebeg`. -/
def execChoicebeg : Exec Unit := do
  let m ← Exec.get
  dx_assert (decide (m.m_state = .Running) && !m.m_startingChoice)
  Exec.modify (fun m => { m with m_startingChoice := true })

/-- Case `choiceadd`. -/
def execChoiceadd (env : Env) : Exec Unit := do
  let m ← Exec.get
  dx_assert m.m_startingChoice
  let rel ← argI
  let v ← pop
  let chance ← Exec.lift (v.safeGetDouble env.fp)
  let w ← pop
  let text ← Exec.lift (w.safeGetString env.fp)
  let shown ← Exec.host (.chance chance) (fun h => env.host.chance h chance)
  if shown then
    Exec.modify (fun m => { m with
      m_choiceOptions := m.m_choiceOptions ++ [⟨wrapI32 (m.m_programCounter + rel), text⟩] })
  else Exec.pure ()

/-- Case `choiceaddt`. -/
def execChoiceaddt (env : Env) : Exec Unit := do
  let m ← Exec.get
  dx_assert m.m_startingChoice
  let rel ← argI
  let u ← pop
  let c ← Exec.lift (u.safeGetInt env.fp)
  let condition := decide (c ≠ 0)
  let v ← pop
  let chance ← Exec.lift (v.safeGetDouble env.fp)
  let w ← pop
  let text ← Exec.lift (w.safeGetString env.fp)
  if condition then do
    let shown ← Exec.host (.chance chance) (fun h => env.host.chance h chance)
    if shown then
      Exec.modify (fun m => { m with
        m_choiceOptions := m.m_choiceOptions ++ [⟨wrapI32 (m.m_programCounter + rel), text⟩] })
    else Exec.pure ()
  else Exec.pure ()

/-- Case `choicesel`. -/
def execChoicesel (env : Env) : Exec Unit := do
  let m ← Exec.get
  dx_assert m.m_startingChoice
  dx_assert (!m.m_choiceOptions.isEmpty)
  Exec.modify (fun m => { m with m_startingChoice := false, m_state := .InChoice })
  let textChoices := m.m_choiceOptions.map (fun c => c.text)
  Exec.host (.choice textChoices) (fun h => env.host.choice h textChoices)

/-- Case `chooseadd`. -/
def execChooseadd (env : Env) : Exec Unit := do
  let rel ← argI
  let v ← pop
  let chance ← Exec.lift (v.safeGetDouble env.fp)
  Exec.modify (fun m => { m with
    m_chooseOptions := m.m_chooseOptions ++ [⟨wrapI32 (m.m_programCounter + rel), chance⟩] })

/-- Case `chooseaddt`. -/
def execChooseaddt (env : Env) : Exec Unit := do
  let rel ← argI
  let u ← pop
  let c ← Exec.lift (u.safeGetInt env.fp)
  let v ← pop
  let chance ← Exec.lift (v.safeGetDouble env.fp)
  if c ≠ 0 then
    Exec.modify (fun m => { m with
      m_chooseOptions := m.m_chooseOptions ++ [⟨wrapI32 (m.m_programCounter + rel), chance⟩] })
  else Exec.pure ()

/-- Case `choosesel`. -/
def execChoosesel (env : Env) : Exec Unit := do
  let m ← Exec.get
  dx_assert (!m.m_chooseOptions.isEmpty)
  let weights := m.m_chooseOptions.map (fun c => c.chance)
  let sel ← Exec.host (.weightedChance weights) (fun h => env.host.weightedChance h weights)
  let entry ← Exec.lift (vectorIndex m.m_chooseOptions sel)
  Exec.modify (fun m => { m with m_programCounter := entry.targetOffset, m_chooseOptions := [] })

/-- Case `textrun`. -/
def execTextrun (env : Env) : Exec Unit := do
  assert_state .Running
  Exec.modify (fun m => { m with m_state := .InText })
  let v ← pop
  let text ← Exec.lift (v.safeGetString env.fp)
  Exec.host (.text text) (fun h => env.host.text h text)

/-- The `switch (opcode)` of `interpret`. -/
def execOpcode (env : Env) (fuel : Nat) : DxOpcode → Exec Unit
  | .nop => Exec.pure ()
  | .freeloc => execFreeloc env
  | .save => execSave
  | .load => execLoad
  | .pushu => push DxValue.undefined
  | .pushi => execPushi
  | .pushd => execPushd
  | .pushs => execPushs true
  | .pushbs => execPushs false
  | .pushints => execPushints env true
  | .pushbints => execPushints env false
  | .makearr => execMakearr
  | .pusharrind => execPusharrind env
  | .setarrind => execSetarrind env
  | .setvarglb => execSetvarglb env
  | .setvarloc => execSetvarloc
  | .pushvarglb => execPushvarglb env
  | .pushvarloc => execPushvarloc
  | .pop => do
    let _ ← pop
    pure ()
  | .dup => execDup
  | .dup2 => execDup2
  | .add => execBinop env fuel .add
  | .sub => execBinop env fuel .sub
  | .mul => execBinop env fuel .mul
  | .div => execBinop env fuel .div
  | .mod => execBinop env fuel .mod
  | .neg => execNeg env
  | .inv => execInv env
  | .bitls => execBitop env .shl
  | .bitrs => execBitop env .shr
  | ._bitand => execBitop env .and
  | ._bitor => execBitop env .or
  | .bitxor => execBitop env .xor
  | .bitneg => execBitneg env
  | .pow => execPow env
  | .cmpeq => execBinop env fuel .eq
  | .cmpgt => execBinop env fuel .gt
  | .cmplt => execBinop env fuel .lt
  | .cmpgte => execBinop env fuel .ge
  | .cmplte => execBinop env fuel .le
  | .cmpneq => execBinop env fuel .ne
  | .j => execJ
  | .jt => execJcond env true
  | .jf => execJcond env false
  | .exit => execExit env
  | .ret => execRet env
  | .call => execCall env
  | .callext => execCallext env
  | .choicebeg => execChoicebeg
  | .choiceadd => execChoiceadd env
  | .choiceaddt => execChoiceaddt env
  | .choicesel => execChoicesel env
  | .chooseadd => execChooseadd env
  | .chooseaddt => execChooseaddt env
  | .choosesel => execChoosesel env
  | .textrun => execTextrun env

/-- The method `interpret(buff)` called on `buff.subspan(m_programCounter)`: read one
opcode byte and run its case; a byte that is no enumerator matches no case. The `fuel`
bounds the nested calls of the value operators. -/
def interpret (env : Env) (fuel : Nat) : Exec Unit := do
  let bs ← readBytes 1
  match bs with
  | [b] =>
    match DxOpcode.ofByte b with
    | some opcode => execOpcode env fuel opcode
    | none => Exec.pure ()
  | _ => Exec.pure ()

/-- The loop `while (m_state == s) interpret(buff.subspan(m_programCounter));`
with one unit of fuel per iteration. -/
def dispatchLoop (env : Env) (s : State) : Nat → Exec Unit
  | 0 => fun m => if m.m_state = s then (.error .fuelExhausted, m) else (.ok (), m)
  | fuel + 1 => fun m =>
    if m.m_state = s then (Exec.bind (interpret env fuel) (fun _ => dispatchLoop env s fuel)) m
    else (.ok (), m)

/-! ## The public methods (`DxInterpreter.cpp`) -/

/-- The method `runScene(name)`. -/
def runScene (env : Env) (fuel : Nat) (name : DxStr) : Exec Unit := do
  let m ← Exec.get
  let scene ← Exec.lift (m.m_data.scene name)
  Exec.modify (fun m => { m with m_currentScene := some scene, m_programCounter := scene.codeOffset })
  if scene.codeOffset = -1 then Exec.pure ()
  else do
    Exec.modify (fun m => { m with m_state := .Running })
    clearVMState
    loadFlags env scene.flagNames
    dispatchLoop env .Running fuel

/-- The method `pauseScene()`. -/
def pauseScene : Exec Unit :=
  Exec.modify (fun m => if m.m_state = .Running then { m with m_state := .Paused } else m)

/-- The method `resumeScene()`. -/
def resumeScene (env : Env) (fuel : Nat) : Exec Unit := do
  Exec.modify (fun m =>
    if m.m_state = .Paused ∨ m.m_state = .InText then { m with m_state := .Running } else m)
  dispatchLoop env .Running fuel

/-- The method `selectChoice(idx)`. -/
def selectChoice (env : Env) (fuel : Nat) (idx : Int) : Exec Unit := do
  assert_state .InChoice
  let m ← Exec.get
  let entry ← Exec.lift (vectorIndex m.m_choiceOptions idx)
  Exec.modify (fun m => { m with m_programCounter := entry.targetOffset, m_choiceOptions := [] })
  Exec.modify (fun m => { m with m_state := .Running })
  dispatchLoop env .Running fuel

/-- The method `executeEval(address)`. -/
def executeEval (env : Env) (fuel : Nat) (address : Int) : Exec DxValue := do
  assert_state .Inactive
  Exec.modify (fun m => { m with m_state := .Eval, m_programCounter := address })
  dispatchLoop env .Eval fuel
  pop

/-- The method `executeEvalMultiple(address)`. -/
def executeEvalMultiple (env : Env) (fuel : Nat) (address : Int) : Exec Unit := do
  assert_state .Inactive
  Exec.modify (fun m => { m with m_state := .Eval, m_programCounter := address })
  dispatchLoop env .Eval fuel

/-! ## Templates in which every dollar sign opens a valid placeholder -/

/-- One piece of a template in which every dollar sign opens a well-formed placeholder. -/
inductive Segment where
  /-- An ordinary character. -/
  | lit (c : Char)
  /-- The placeholder made of a dollar sign, an opening brace, `digits` and a closing brace. -/
  | placeholder (digits : List Char)

/-- The text of a segment inside the template. -/
def Segment.render : Segment → DxStr
  | .lit c => [c]
  | .placeholder ds => chDollar :: chOpen :: (ds ++ [chClose])

/-- The text the specification puts in place of a segment: the character itself, or the
argument whose index the digits denote. -/
def Segment.expand (args : List DxStr) : Segment → DxStr
  | .lit c => [c]
  | .placeholder ds => args.getD (decimalValue ds) []

/-- A literal is neither a backslash nor a dollar sign; the index of a placeholder is a
non-empty string of decimal digits that denotes a position of `args`. -/
def Segment.Valid (args : List DxStr) : Segment → Prop
  | .lit c => c ≠ chBackslash ∧ c ≠ chDollar
  | .placeholder ds => ds ≠ [] ∧ (∀ d ∈ ds, d.isDigit = true) ∧ decimalValue ds < args.length

instance (args : List DxStr) (s : Segment) : Decidable (s.Valid args) := by
  cases s <;> unfold Segment.Valid <;> infer_instance

/-- The template a list of segments spells. -/
def renderAll : List Segment → DxStr
  | [] => []
  | s :: t => s.render ++ renderAll t

/-- The template with every placeholder replaced by its argument. -/
def expandAll (args : List DxStr) : List Segment → DxStr
  | [] => []
  | s :: t => s.expand args ++ expandAll args t

/-- Total length of the placeholders of a template, the sum of `len("${N}")`. -/
def placeholderChars : List Segment → Nat
  | [] => 0
  | .lit _ :: t => placeholderChars t
  | .placeholder ds :: t => (ds.length + 3) + placeholderChars t

/-- Total length of the arguments the placeholders of a template select, the sum of
`len(A[N])`. -/
def argumentChars (args : List DxStr) : List Segment → Nat
  | [] => 0
  | .lit _ :: t => argumentChars args t
  | .placeholder ds :: t => (args.getD (decimalValue ds) []).length + argumentChars args t

/-! ## Vocabulary of the statements -/

instance instDecidableEqExcept {ε α : Type} [DecidableEq ε] [DecidableEq α] :
    DecidableEq (Except ε α)
  | .ok a, .ok b =>
    if h : a = b then isTrue (by rw [h]) else isFalse (by intro h1; cases h1; exact h rfl)
  | .error a, .error b =>
    if h : a = b then isTrue (by rw [h]) else isFalse (by intro h1; cases h1; exact h rfl)
  | .ok _, .error _ => isFalse (by intro h; cases h)
  | .error _, .ok _ => isFalse (by intro h; cases h)

/-- The property of being a value of type `int32_t`. -/
def IsI32 (v : Int) : Prop := -2147483648 ≤ v ∧ v ≤ 2147483647

instance (v : Int) : Decidable (IsI32 v) := by unfold IsI32; infer_instance

/-- The instruction buffer of the image holds the bytes `bs` at address `off`, and every
address up to the end of `bs` is a value of the `int` program counter. -/
def DxData.codeAt (d : DxData) (off : Int) (bs : List Byte) : Prop :=
  0 ≤ off ∧ off + bs.length ≤ 2147483647 ∧ off.toNat + bs.length ≤ d.m_instructions.length ∧
    (d.m_instructions.drop off.toNat).take bs.length = bs

instance (d : DxData) (off : Int) (bs : List Byte) : Decidable (d.codeAt off bs) := by
  unfold DxData.codeAt; infer_instance

/-- The encoding of an instruction with no immediate. -/
def enc0 (op : DxOpcode) : List Byte := [op.toByte]

/-- The encoding of an instruction with one `int32_t` immediate. -/
def enc1 (op : DxOpcode) (a : Int) : List Byte := op.toByte :: encodeI32 a

/-- The encoding of an instruction with two `int32_t` immediates. -/
def enc2 (op : DxOpcode) (a b : Int) : List Byte := op.toByte :: (encodeI32 a ++ encodeI32 b)

/-- The values the flag-get callback returns for `names`, asked in order after the
invocations `hist`. -/
def flagValues (fv : List HostCall → DxStr → DxValue) : List HostCall → List DxStr → List DxValue
  | _, [] => []
  | hist, n :: rest => fv hist n :: flagValues fv (hist ++ [.getFlag n]) rest

/-- The pending choices `after` a step are those `before` it, or those followed by one entry
whose target is `target`. -/
def AppendsAtMost (target : Int) (before after : List ChoiceEntry) : Prop :=
  after = before ∨ ∃ text, after = before ++ [⟨target, text⟩]

/-! ## Concrete inputs used by the examples -/

/-- A stand-in for the floating-point primitives, used only to run examples. -/
def sampleFloatOps : FloatOps where
  ofInt := fun _ => ⟨0⟩
  floorToInt := fun _ => .ok 0
  toStr := fun _ => []
  stod := fun _ => .error .invalidArgument
  add := fun a _ => a
  sub := fun a _ => a
  mul := fun a _ => a
  div := fun a _ => a
  neg := fun a => a
  pow := fun a _ => a
  eq := fun a b => decide (a.bits = b.bits)
  lt := fun a b => decide (a.bits < b.bits)
  le := fun a b => decide (a.bits ≤ b.bits)

/-- A host whose callbacks all return; `getPlayerName` is its only registered function. -/
def sampleHost : Host where
  text := fun _ _ => .ok ()
  choice := fun _ _ => .ok ()
  endScene := fun _ _ => .ok ()
  setVariable := fun _ _ _ => .ok ()
  getVariable := fun _ _ => .ok DxValue.undefined
  setFlag := fun _ _ _ => .ok ()
  getFlag := fun _ _ => .ok DxValue.undefined
  chance := fun _ _ => .ok true
  weightedChance := fun _ _ => .ok 0
  unregisteredFunction := fun _ _ => .ok ()
  functionHandlers := fun name =>
    if name = "getPlayerName".toList then
      some (fun _ _ => .ok (DxValue.make (some (.string "Player".toList)) .String))
    else none

/-- The environment of the examples. -/
def sampleEnv : Env := ⟨sampleFloatOps, sampleHost⟩

/-- An image around the instruction buffer `code`. -/
def sampleImage (code : List Byte) (strings : List DxStr) (functions : List DxFunction)
    (scenes : List (DxStr × DxScene)) : DxData where
  m_currentCacheID := 0
  m_strings := strings
  m_translations := []
  m_instructions := code
  m_functions := functions
  m_scenes := scenes
  m_definitions := []
  m_originalText := none

/-- Seed scenario 1: the scene `intro` with code `pushbs 0; textrun; exit`. -/
def helloImage : DxData :=
  sampleImage (enc1 .pushbs 0 ++ enc0 .textrun ++ enc0 .exit) ["Hello".toList] []
    [("intro".toList, ⟨"intro".toList, 0, [], []⟩)]

/-- An interpreter in state `Running` at address `pc` of `data` with operand stack `stack`. -/
def runningAt (data : DxData) (pc : Int) (stack : List DxValue) : DxInterpreter :=
  { DxInterpreter.fresh data with m_state := .Running, m_programCounter := pc, m_stack := stack }

/-- The Integer value `i`. -/
def DxValue.ofInt (i : Int) : DxValue := DxValue.make (some (.int i)) .Integer

/-- An image whose code is the single instruction `choicesel`. -/
def choiceselImage : DxData := sampleImage (enc0 .choicesel) [] [] []

/-- A state about to execute `choicesel` with the pending choices `Yes` (target 20) and
`No` (target 30). -/
def choiceselState : DxInterpreter :=
  { runningAt choiceselImage 0 [] with
    m_startingChoice := true,
    m_choiceOptions := [⟨20, "Yes".toList⟩, ⟨30, "No".toList⟩] }

/-- A state waiting in `InChoice` with the pending choices `Yes` (target 20) and `No`
(target 30). -/
def inChoiceState : DxInterpreter :=
  { runningAt choiceselImage 1 [] with
    m_state := .InChoice,
    m_choiceOptions := [⟨20, "Yes".toList⟩, ⟨30, "No".toList⟩] }

/-- The String value `s`. -/
def DxValue.ofString (s : DxStr) : DxValue := DxValue.make (some (.string s)) .String

/-- The Double value with bit pattern `bits`. -/
def DxValue.ofDoubleBits (bits : Nat) : DxValue := DxValue.make (some (.double ⟨bits⟩)) .Double

/-- A state about to execute `choiceadd 7` at address 0 with the chance `1.0` on top of the
text `Yes`. -/
def choiceaddState : DxInterpreter :=
  { runningAt (sampleImage (enc1 .choiceadd 7) [] [] []) 0
      [DxValue.ofDoubleBits 0x3FF0000000000000, DxValue.ofString "Yes".toList] with
    m_startingChoice := true }

/-- A state about to execute `choiceaddt 7` at address 0 with the condition `1` on top of
the chance `1.0` and the text `No`. -/
def choiceaddtState : DxInterpreter :=
  { runningAt (sampleImage (enc1 .choiceaddt 7) [] [] []) 0
      [DxValue.ofInt 1, DxValue.ofDoubleBits 0x3FF0000000000000, DxValue.ofString "No".toList] with
    m_startingChoice := true }

/-- An image whose code is `callext 0 2` and whose string 0 is `getPlayerName`. -/
def callextImage : DxData :=
  sampleImage (enc2 .callext 0 2) ["getPlayerName".toList] [] []

/-- An image with the code `call 0 1; exit` at address 0 and the function 0, whose body is
the single instruction `exit`, at address 10. -/
def callExitImage : DxData :=
  sampleImage (enc2 .call 0 1 ++ enc0 .exit ++ enc0 .exit) [] [⟨"f".toList, 10, [], []⟩] []

/-- An image with `call 0 0; exit` at address 0 and the function 0, which has one flag and
the body `pushi 5; ret; exit`, at address 10. -/
def callRetImage : DxData :=
  sampleImage (enc2 .call 0 0 ++ enc0 .exit ++ (enc1 .pushi 5 ++ enc0 .ret ++ enc0 .exit)) []
    [⟨"f".toList, 10, [0, 0], ["flag".toList]⟩] []

/-- The same image with `exit` in place of `ret`. -/
def callExitTwinImage : DxData :=
  sampleImage (enc2 .call 0 0 ++ enc0 .exit ++ (enc1 .pushi 5 ++ enc0 .exit ++ enc0 .exit)) []
    [⟨"f".toList, 10, [0, 0], ["flag".toList]⟩] []

/-- The interpreter state after `n` calls of `interpret` from `m` (exceptions ignored). -/
def stepN (env : Env) : Nat → DxInterpreter → DxInterpreter
  | 0, m => m
  | n + 1, m => stepN env n (interpret env 1 m).2

/-- The template of seed scenario 4, as segments. -/
def scenarioSegments : List Segment :=
  "Hello, ".toList.map .lit ++ [.placeholder "0".toList] ++ "! You have ".toList.map .lit ++
    [.placeholder "1".toList] ++ " points.".toList.map .lit

/-! ## Vocabulary and inputs for locals, flags and the value operators -/

/-- The names with which the flag-set callback was invoked, in call order. -/
def setFlagNames : List HostCall → List DxStr
  | [] => []
  | .setFlag n _ :: t => n :: setFlagNames t
  | _ :: t => setFlagNames t

/-- The operator that a binary opcode applies to the two values it pops. -/
def binopOf : DxOpcode → Option BinOp
  | .add => some .add
  | .sub => some .sub
  | .mul => some .mul
  | .div => some .div
  | .mod => some .mod
  | .cmpeq => some .eq
  | .cmpgt => some .gt
  | .cmplt => some .lt
  | .cmpgte => some .ge
  | .cmplte => some .le
  | .cmpneq => some .ne
  | _ => none

/-- Calls of `interpret` in sequence, `n` of them; an exception ends the sequence. -/
def interpretN (env : Env) (fuel : Nat) : Nat → Exec Unit
  | 0 => Exec.pure ()
  | n + 1 => Exec.bind (interpret env fuel) (fun _ => interpretN env fuel n)

/-- The `double` immediate with bit pattern `bits`, as the eight bytes the image stores. -/
def encodeF64 (bits : Nat) : List Byte :=
  [Fin.ofNat bits, Fin.ofNat (bits / 256), Fin.ofNat (bits / 65536), Fin.ofNat (bits / 16777216),
   Fin.ofNat (bits / 4294967296), Fin.ofNat (bits / 1099511627776),
   Fin.ofNat (bits / 281474976710656), Fin.ofNat (bits / 72057594037927936)]

/-- A fresh interpreter on `data` after a successful `initializeFlags()`. -/
def initialized (data : DxData) : DxInterpreter :=
  { DxInterpreter.fresh data with m_flagsInitialized := true }

/-- An image with the scene `main` (one flag, `sceneFlag`) whose code is `exit`. -/
def flaggedSceneImage : DxData :=
  sampleImage (enc0 .exit) [] []
    [("main".toList, ⟨"main".toList, 0, [0, 0], ["sceneFlag".toList]⟩)]

/-- The state in which `runScene` starts its dispatch loop for the scene `main` of
`flaggedSceneImage`, called on a fresh interpreter. -/
def flaggedSceneEntry : DxInterpreter :=
  { DxInterpreter.fresh flaggedSceneImage with
    m_currentScene := some ⟨"main".toList, 0, [0, 0], ["sceneFlag".toList]⟩
    m_programCounter := 0
    m_state := .Running
    m_locals := [DxValue.undefined]
    hostCalls := [.getFlag "sceneFlag".toList] }

/-- An image with the scene `main` (one flag, `sceneFlag`) whose code is `freeloc 0; exit`. -/
def sceneFreelocImage : DxData :=
  sampleImage (enc1 .freeloc 0 ++ enc0 .exit) [] []
    [("main".toList, ⟨"main".toList, 0, [0, 0], ["sceneFlag".toList]⟩)]

/-- An image with the scene `main` (one flag, `sceneFlag`) whose code is `call 0 0; exit`, and
the function 0 (one flag, `funcFlag`) whose code, at address 10, is `freeloc 0; exit`. -/
def functionFreelocImage : DxData :=
  sampleImage (enc2 .call 0 0 ++ enc0 .exit ++ (enc1 .freeloc 0 ++ enc0 .exit)) []
    [⟨"f".toList, 10, [0, 0], ["funcFlag".toList]⟩]
    [("main".toList, ⟨"main".toList, 0, [0, 0], ["sceneFlag".toList]⟩)]

/-- An image with the code `pushd 1.0; pushd 2.0; cmplt; jt 0`. -/
def compareDoublesImage : DxData :=
  sampleImage (DxOpcode.pushd.toByte :: encodeF64 0x3FF0000000000000 ++
    DxOpcode.pushd.toByte :: encodeF64 0x4000000000000000 ++ enc0 .cmplt ++ enc1 .jt 0) [] [] []

/-- An image with the code `pushi 1; pushi 2; cmplt; jt 0`. -/
def compareIntsImage : DxData :=
  sampleImage (enc1 .pushi 1 ++ enc1 .pushi 2 ++ enc0 .cmplt ++ enc1 .jt 0) [] [] []

/-- An image with the code `pushi 7; pushi 9; sub`. -/
def subtractImage : DxData :=
  sampleImage (enc1 .pushi 7 ++ enc1 .pushi 9 ++ enc0 .sub) [] [] []

/-- An image with the code `pushi 2; add`. -/
def appendIntImage : DxData :=
  sampleImage (enc1 .pushi 2 ++ enc0 .add) [] [] []

/-- An image with the code `setvarloc 3` followed by `pushvarloc 3`. -/
def setLocalImage : DxData :=
  sampleImage (enc1 .setvarloc 3 ++ enc1 .pushvarloc 3) [] [] []

/-- An image with the code `call 0 1; exit` and the function 0 (one flag, `funcFlag`) whose
code, at address 10, is `exit`. -/
def callFlaggedImage : DxData :=
  sampleImage (enc2 .call 0 1 ++ enc0 .exit ++ enc0 .exit) []
    [⟨"f".toList, 10, [0, 0], ["funcFlag".toList]⟩] []

/-- The payload of a value is the alternative its tag names, as after `DxValue(value)` and
`detect_type()`; a value without payload has the tag `Undefined`. -/
def DxValue.HoldsItsType : DxValue → Prop
  | ⟨some p, t⟩ => p.detect_type = t
  | ⟨none, t⟩ => t = .Undefined

/-- The table of the specification: the types on which an operator is defined when both
operands have that type. -/
def BinOp.definedOn : BinOp → DxValueType → Bool
  | .add, t => decide (t = .Integer) || decide (t = .Double) || decide (t = .String)
  | .mod, t => decide (t = .Integer)
  | .eq, t | .ne, t =>
    decide (t = .Integer) || decide (t = .Double) || decide (t = .String) ||
      decide (t = .Undefined)
  | _, t => decide (t = .Integer) || decide (t = .Double)

/-- The list of the specification: the pairs (type of the value, target type) for which
`convert` is defined, apart from the identity and the target `Undefined`. -/
def convertiblePair : DxValueType → DxValueType → Bool
  | .Integer, .Double | .Integer, .String | .Double, .Integer | .Double, .String
  | .Undefined, .String | .String, .Integer | .String, .Double => true
  | _, _ => false

/-- The Double value with payload `d`. -/
def DxValue.ofDouble (d : DxDouble) : DxValue := DxValue.make (some (.double d)) .Double

/-- The Array value with elements `a`. -/
def DxValue.ofArray (a : List DxValue) : DxValue := DxValue.make (some (.array a)) .Array

/-- An interpreter in state `Paused` in the scene `intro`, with one value on the operand stack,
one local, one pending choice, one pending choose entry, a saved value and one frame. -/
def busyState : DxInterpreter :=
  { DxInterpreter.fresh helloImage with
    m_state := .Paused
    m_programCounter := 3
    m_stack := [DxValue.ofInt 1]
    m_callStack := [⟨0, [], [], 0⟩]
    m_locals := [DxValue.ofInt 2]
    m_choiceOptions := [⟨0, "a".toList⟩]
    m_chooseOptions := [⟨0, ⟨0⟩⟩]
    m_saveRegister := some (DxValue.ofInt 3)
    m_currentScene := some ⟨"intro".toList, 0, [], []⟩ }

/-- The cast `(double)i` of an `int` under IEEE-754 binary64, as a bit pattern: sign bit,
biased exponent `floor(log2 |i|) + 1023` and the 52 fraction bits of `|i|`. The cast is
exact because `|i| <= 2^31 < 2^53`. -/
def binary64OfInt (i : Int) : DxDouble :=
  if i = 0 then ⟨0⟩
  else
    let n := i.natAbs
    let e := Nat.log2 n
    ⟨(if i < 0 then 2 ^ 63 else 0) + (e + 1023) * 2 ^ 52 + (n * 2 ^ (52 - e) - 2 ^ 52)⟩

/-- The expression `(int)floor(d)` under IEEE-754 binary64: the value of the pattern is
`mant * 2^(ex - 1075)`, negated when the sign bit is set; the conversion to `int` is
undefined for NaN, the infinities and a floor outside the range of `int`. -/
def binary64FloorToInt (d : DxDouble) : Except DxError Int :=
  let sign := d.bits / 2 ^ 63 % 2
  let expo := d.bits / 2 ^ 52 % 2048
  let frac := d.bits % 2 ^ 52
  if expo = 2047 then .error .undefinedBehaviour
  else
    let mant : Nat := if expo = 0 then frac else 2 ^ 52 + frac
    let ex : Nat := if expo = 0 then 1 else expo
    let fl : Int :=
      if sign = 0 then
        if 1075 ≤ ex then (mant * 2 ^ (ex - 1075) : Nat) else (mant / 2 ^ (1075 - ex) : Nat)
      else
        if 1075 ≤ ex then -((mant * 2 ^ (ex - 1075) : Nat) : Int)
        else -(((mant + 2 ^ (1075 - ex) - 1) / 2 ^ (1075 - ex) : Nat) : Int)
    if fl < -2147483648 ∨ 2147483647 < fl then .error .undefinedBehaviour else .ok fl

/-- The floating-point primitives of the examples with the two conversions between `int` and
`double` of IEEE-754 binary64. -/
def binary64FloatOps : FloatOps :=
  { sampleFloatOps with ofInt := binary64OfInt, floorToInt := binary64FloorToInt }

/-- The part of the interpreter that no instruction other than `choicesel` touches in a way
that matters to the embedder: the image, the flag-initialization mark and the definition
cache are unchanged, host calls are only added, and the state is unchanged or becomes
`Inactive` or `InText`. -/
def Quiet (m m1 : DxInterpreter) : Prop :=
  m1.m_data = m.m_data ∧ m1.m_flagsInitialized = m.m_flagsInitialized ∧
  m1.m_definitions = m.m_definitions ∧ (∃ calls, m1.hostCalls = m.hostCalls ++ calls) ∧
  (m1.m_state = m.m_state ∨ m1.m_state = .Inactive ∨ m1.m_state = .InText)

/-- Every run of the member function `x` is quiet. -/
def Exec.Keeps {α : Type} (x : Exec α) : Prop := ∀ m, Quiet m (x m).2

/-- The invariant of state `InChoice`: the pending choice list is not empty and
`m_startingChoice` is false. -/
def ChoiceInvariant (m : DxInterpreter) : Prop :=
  m.m_state = .InChoice → m.m_choiceOptions ≠ [] ∧ m.m_startingChoice = false

/-- The interpreter states reachable from a fresh interpreter through the public methods
`runScene`, `resumeScene`, `pauseScene`, `selectChoice`, `endScene`, `executeEval` and
`executeEvalMultiple`, whatever their outcome, and through single calls of `interpret` made,
as in the dispatch loops, in state `Running` or `Eval`. The callbacks of the host do not call
back into the interpreter (`Host`). -/
inductive Reachable (env : Env) : DxInterpreter → Prop where
  | fresh (data : DxData) : Reachable env (DxInterpreter.fresh data)
  | runScene (fuel : Nat) (name : DxStr) {m : DxInterpreter} :
    Reachable env m → Reachable env (runScene env fuel name m).2
  | resumeScene (fuel : Nat) {m : DxInterpreter} :
    Reachable env m → Reachable env (resumeScene env fuel m).2
  | pauseScene {m : DxInterpreter} : Reachable env m → Reachable env (pauseScene m).2
  | selectChoice (fuel : Nat) (idx : Int) {m : DxInterpreter} :
    Reachable env m → Reachable env (selectChoice env fuel idx m).2
  | endScene {m : DxInterpreter} : Reachable env m → Reachable env (endScene env m).2
  | executeEval (fuel : Nat) (address : Int) {m : DxInterpreter} :
    Reachable env m → Reachable env (executeEval env fuel address m).2
  | executeEvalMultiple (fuel : Nat) (address : Int) {m : DxInterpreter} :
    Reachable env m → Reachable env (executeEvalMultiple env fuel address m).2
  | step (fuel : Nat) {m : DxInterpreter} :
    Reachable env m → m.m_state = .Running ∨ m.m_state = .Eval →
    Reachable env (interpret env fuel m).2

/-- An image with the scene `main` whose code is
`choicebeg; pushbs 0; pushd 1.0; choiceadd 0; choicesel; exit`. -/
def choiceImage : DxData :=
  sampleImage (enc0 .choicebeg ++ enc1 .pushbs 0 ++
    DxOpcode.pushd.toByte :: encodeF64 0x3FF0000000000000 ++ enc1 .choiceadd 0 ++
    enc0 .choicesel ++ enc0 .exit) ["Yes".toList] []
    [("main".toList, ⟨"main".toList, 0, [], []⟩)]

/-- Every run of the member function `x` from a state other than `InChoice` ends in a state that
satisfies the invariant of `InChoice`. -/
def Exec.Settles {α : Type} (x : Exec α) : Prop :=
  ∀ m, m.m_state ≠ .InChoice → ChoiceInvariant (x m).2

/-- The image and the flag-initialization mark of `m1` are those of `m`. -/
def SameImage (m m1 : DxInterpreter) : Prop :=
  m1.m_data = m.m_data ∧ m1.m_flagsInitialized = m.m_flagsInitialized

/-! ## Flag initialization (`DxInterpreter::initializeFlags`, `DxInterpreter::resetFlags`) -/

/-- What the loop variable `scene` or `function` of the flag loops refers to: the `k`-th entry
of `m_scenes` in iteration order, or the `k`-th element of `m_functions`. -/
inductive FlagOwner where
  | scene (k : Nat)
  | function (k : Nat)
  deriving DecidableEq, Repr

/-- The member `flagOffsets` of the scene or function referred to. -/
def FlagOwner.flagOffsets (o : FlagOwner) (d : DxData) : Except DxError (List Int) :=
  match o with
  | .scene k =>
    match d.m_scenes.get? k with
    | some (_, s) => .ok s.flagOffsets
    | none => .error .undefinedBehaviour
  | .function k =>
    match d.m_functions.get? k with
    | some f => .ok f.flagOffsets
    | none => .error .undefinedBehaviour

/-- The member `flagNames` of the scene or function referred to. -/
def FlagOwner.flagNames (o : FlagOwner) (d : DxData) : Except DxError (List DxStr) :=
  match o with
  | .scene k =>
    match d.m_scenes.get? k with
    | some (_, s) => .ok s.flagNames
    | none => .error .undefinedBehaviour
  | .function k =>
    match d.m_functions.get? k with
    | some f => .ok f.flagNames
    | none => .error .undefinedBehaviour

/-- The flag offsets of all scenes and functions. -/
def DxData.allFlagOffsets (d : DxData) : List Int :=
  (d.m_scenes.map (fun e => e.2.flagOffsets)).flatten ++
    (d.m_functions.map (fun f => f.flagOffsets)).flatten

/-- Every scene and function has two flag offsets per flag name, and their number fits an
`int`. -/
def DxData.FlagTablesPaired (d : DxData) : Prop :=
  (∀ e ∈ d.m_scenes, e.2.flagOffsets.length = 2 * e.2.flagNames.length ∧
    e.2.flagOffsets.length ≤ 2147483647) ∧
  (∀ f ∈ d.m_functions, f.flagOffsets.length = 2 * f.flagNames.length ∧
    f.flagOffsets.length ≤ 2147483647)

/-- The image with every flag name of every scene and function replaced by the empty
string. -/
def DxData.eraseFlagNames (d : DxData) : DxData :=
  { d with
    m_scenes := d.m_scenes.map (fun e =>
      (e.1, { e.2 with flagNames := e.2.flagNames.map (fun _ => []) }))
    m_functions := d.m_functions.map (fun f =>
      { f with flagNames := f.flagNames.map (fun _ => []) }) }

/-- The image `d1` is the image `d` with other flag names: everything else, the number of flag
names of each scene and function included, is the same. -/
def DxData.SameButFlagNames (d d1 : DxData) : Prop :=
  d1.eraseFlagNames = d.eraseFlagNames

/-- The flag expressions of the image `d` can be evaluated: in every Inactive state over `d`
with other flag names, `executeEval` at a flag offset returns a value that converts to a
string, ends Inactive and invokes no flag-set callback. -/
def FlagsEvaluable (env : Env) (fuel : Nat) (d : DxData) : Prop :=
  ∀ (m : DxInterpreter) (o : Int), m.m_state = .Inactive → d.SameButFlagNames m.m_data →
    o ∈ d.allFlagOffsets →
    ∃ v m1, executeEval env fuel o m = (.ok v, m1) ∧ m1.m_state = .Inactive ∧
      setFlagNames m1.hostCalls = setFlagNames m.hostCalls ∧
      ∃ s, v.safeGetString env.fp = .ok s

/-- A read operation of `BinaryReader`: from the bytes ahead of the reader to its result and
the bytes that remain, or to an exception. -/
def BinaryReader (α : Type) : Type := List Byte → Except DxError (α × List Byte)

/-- Normal return of a read operation. -/
def BinaryReader.pure {α : Type} (a : α) : BinaryReader α := fun bs => .ok (a, bs)

/-- Sequencing of read operations. -/
def BinaryReader.bind {α β : Type} (x : BinaryReader α) (f : α → BinaryReader β) :
    BinaryReader β := fun bs =>
  match x bs with
  | .ok (a, rest) => f a rest
  | .error e => .error e

instance : Monad BinaryReader where
  pure := BinaryReader.pure
  bind := BinaryReader.bind

/-- The statement `throw` inside a loader. -/
def BinaryReader.throw {α : Type} (e : DxError) : BinaryReader α := fun _ => .error e

/-- The outcome of a computation that does not read. -/
def BinaryReader.lift {α : Type} (r : Except DxError α) : BinaryReader α := fun bs =>
  match r with
  | .ok a => .ok (a, bs)
  | .error e => .error e

/-- The method `read_n(count, val)` of the file reader (`file = true`,
`BinaryFileReader::read_n`) and of the span reader (`BinarySpanReader::read_n`);
`valIsNull` tells whether the destination `val` is the null pointer. The file reader throws
`std::invalid_argument` for a null destination, whatever `count` is; the span reader has no
such test and writes `count` bytes through `val`, which is undefined for a null destination
and a positive `count`. Beyond the end of the source the span reader takes
`m_span.first(count)` of a shorter span and the file reader leaves the destination
unwritten: both are undefined. -/
def BinaryReader.read_n (file : Bool) (valIsNull : Bool) (count : Nat) :
    BinaryReader (List Byte) := fun bs =>
  if file && valIsNull then .error .invalidArgument
  else if valIsNull && decide (0 < count) then .error .undefinedBehaviour
  else if count ≤ bs.length then .ok (bs.take count, bs.drop count)
  else .error .undefinedBehaviour

/-- The method `skip(count)`; beyond the end of the source as for `read_n`. -/
def BinaryReader.skip (count : Nat) : BinaryReader Unit := fun bs =>
  if count ≤ bs.length then .ok ((), bs.drop count) else .error .undefinedBehaviour

/-- The method `read<T>()` for an unsigned integer type (or `char`) of `size` bytes, on a
little-endian host: `T value; read_n(sizeof(T), &value)`, the destination being the address
of a local. -/
def BinaryReader.readUnsigned (file : Bool) (size : Nat) : BinaryReader Nat := do
  let bs ← BinaryReader.read_n file false size
  pure (leValue bs)

/-- The method `read<int32_t>()`. -/
def BinaryReader.readInt32 (file : Bool) : BinaryReader Int := do
  let bs ← BinaryReader.read_n file false 4
  pure (wrapI32 (leValue bs))

/-- The method `read<DxStr>()`: the characters up to the next NUL, which is consumed, each
read by `read<char>()` into a local (the same for both readers). -/
def BinaryReader.readString : BinaryReader DxStr
  | [] => .error .undefinedBehaviour
  | b :: rest =>
    if b.val = 0 then .ok ([], rest)
    else
      match BinaryReader.readString rest with
      | .ok (s, left) => .ok (Char.ofNat b.val :: s, left)
      | .error e => .error e

/-- The method `read_block()`: `auto size = read<uint32_t>(); DxByteBuf buff(size);
read_n(size, buff.data());`. The destination is the data pointer of the new vector, which
for a vector of size 0 is the null pointer (no storage is allocated). -/
def BinaryReader.read_block (file : Bool) : BinaryReader (List Byte) := do
  let size ← BinaryReader.readUnsigned file 4
  BinaryReader.read_n file (decide (size = 0)) size

/-- The results of `count` consecutive runs of `item`, in order. -/
def BinaryReader.times {α : Type} (item : BinaryReader α) : Nat → BinaryReader (List α)
  | 0 => BinaryReader.pure []
  | n + 1 => do
    let a ← item
    let rest ← BinaryReader.times item n
    pure (a :: rest)

/-- A loop `for (int i = 0; i < count; ++i) v.emplace_back(item)` with a `uint32_t` count:
above `INT_MAX` iterations `++i` overflows, which is undefined. -/
def BinaryReader.forCount {α : Type} (count : Nat) (item : BinaryReader α) :
    BinaryReader (List α) :=
  if 2147483647 < count then BinaryReader.throw .undefinedBehaviour
  else BinaryReader.times item count

/-- The call `map.emplace(std::make_pair(key, value))` on an `unordered_map`: nothing happens
when the key is present. -/
def mapEmplace {β : Type} (map : List (DxStr × β)) (key : DxStr) (value : β) :
    List (DxStr × β) :=
  if (map.lookup key).isSome then map else map ++ [(key, value)]

/-- The body of the loops over the scene block and the function block of `fromFile`, read
with a span reader over the block: name, code offset, flag offsets and flag names of one
entry. A raw flag count of 0 makes
`flagCount` negative and `reserve(flagCount)` throw `std::length_error`. -/
def readFlaggedEntry (strings : List DxStr) :
    BinaryReader (DxStr × Int × List Int × List DxStr) := do
  let nameIdx ← BinaryReader.readUnsigned false 4
  let name ← BinaryReader.lift (vectorAt strings (nameIdx : Int))
  let raw ← BinaryReader.readUnsigned false 2
  let flagCount : Int := (raw : Int) - 1
  let codeOffset ← BinaryReader.readInt32 false
  if flagCount ≠ 0 then
    if flagCount < 0 then BinaryReader.throw .lengthError
    else do
      let flagOffsets ← BinaryReader.times (BinaryReader.readInt32 false) flagCount.toNat
      pure (name, codeOffset, flagOffsets, List.replicate (flagCount.toNat / 2) [])
  else pure (name, codeOffset, [], [])

/-- The body of the loop over the definition block of `fromFile`, read with a span reader
over the block. -/
def readDefinitionEntry (strings : List DxStr) : BinaryReader (DxStr × DxDefinition) := do
  let nameIdx ← BinaryReader.readUnsigned false 4
  let defName ← BinaryReader.lift (vectorAt strings (nameIdx : Int))
  let valueStringIndex ← BinaryReader.readUnsigned false 4
  let codeOffset ← BinaryReader.readInt32 false
  if valueStringIndex / 2147483648 % 2 ≠ 0 then
    pure (defName, ⟨valueStringIndex % 2147483648, codeOffset, true⟩)
  else pure (defName, ⟨valueStringIndex, codeOffset, false⟩)

/-- The string table or translation table of `fromFile`: the size is skipped, then a count and
that many strings. -/
def readStringTable (file : Bool) : BinaryReader (List DxStr) := do
  BinaryReader.skip 4
  let count ← BinaryReader.readUnsigned file 4
  BinaryReader.forCount count BinaryReader.readString

/-- A span reader created over `block` and run to the end of `parse`. -/
def parseBlock {α : Type} (block : List Byte) (parse : BinaryReader α) : BinaryReader α :=
  fun bs =>
    match parse block with
    | .ok (a, _) => .ok (a, bs)
    | .error e => .error e

/-- The part of `fromFile` that follows the choice of the reader (the file reader when
`file = true`, else the span reader over the uncompressed data): the blocks, then the
scenes, functions and definitions parsed from their blocks with span readers, then
`m_currentCacheID++` on a `DxData` whose cache id was default-initialized to -1. -/
def readImageBody (file : Bool) (flagInternalTranslation : Bool) : BinaryReader DxData := do
  let sceneBlock ← BinaryReader.read_block file
  let funcBlock ← BinaryReader.read_block file
  let defBlock ← BinaryReader.read_block file
  let instructions ← BinaryReader.read_block file
  let strings ← readStringTable file
  let translations ← if flagInternalTranslation then readStringTable file else pure []
  let _ ← BinaryReader.read_block file
  let scenes ← parseBlock sceneBlock (do
    let sceneCount ← BinaryReader.readUnsigned false 4
    BinaryReader.forCount sceneCount (readFlaggedEntry strings))
  let functions ← parseBlock funcBlock (do
    let funcCount ← BinaryReader.readUnsigned false 4
    BinaryReader.forCount funcCount (readFlaggedEntry strings))
  let definitions ← parseBlock defBlock (do
    let defCount ← BinaryReader.readUnsigned false 4
    BinaryReader.forCount defCount (readDefinitionEntry strings))
  pure
    { m_currentCacheID := wrapI32 (-1 + 1)
      m_strings := strings
      m_translations := translations
      m_instructions := instructions
      m_functions := functions.map (fun e => ⟨e.1, e.2.1, e.2.2.1, e.2.2.2⟩)
      m_scenes := scenes.foldl (fun map e => mapEmplace map e.1 ⟨e.1, e.2.1, e.2.2.1, e.2.2.2⟩) []
      m_definitions := definitions.foldl (fun map e => mapEmplace map e.1 e.2) []
      m_originalText := none }

/-- The function `DxData::fromFile` on the bytes of the file. The header is read with the
file reader; a compressed image is read into `tempBuff(size)` by `read_n(size,
tempBuff.data())` and the rest is read with a span reader over the uncompressed data, an
uncompressed image is read with the file reader throughout. The function `uncompress` of
zlib is a parameter: from the announced size and the compressed bytes to the buffer it fills,
or nothing when it does not return `Z_OK`. -/
def DxData.fromFile (uncompress : Nat → List Byte → Option (List Byte)) (file : List Byte) :
    Except DxError DxData :=
  let loader : BinaryReader DxData := do
    let c1 ← BinaryReader.readUnsigned true 1
    if c1 ≠ 68 then BinaryReader.throw .dataProcessing
    else do
      let c2 ← BinaryReader.readUnsigned true 1
      if c2 ≠ 78 then BinaryReader.throw .dataProcessing
      else do
        let c3 ← BinaryReader.readUnsigned true 1
        if c3 ≠ 88 then BinaryReader.throw .dataProcessing
        else do
          let version ← BinaryReader.readUnsigned true 1
          if version ≠ 4 then BinaryReader.throw .dataProcessing
          else do
            let flags ← BinaryReader.readUnsigned true 1
            let flagCompressed := flags % 2 ≠ 0
            let flagInternalTranslation := flags / 2 % 2 ≠ 0
            if flagCompressed then do
              let uncompressedSize ← BinaryReader.readUnsigned true 4
              let size ← BinaryReader.readUnsigned true 4
              let tempBuff ← BinaryReader.read_n true (decide (size = 0)) size
              match uncompress uncompressedSize tempBuff with
              | none => BinaryReader.throw .dataProcessing
              | some uncompressedData =>
                parseBlock uncompressedData (readImageBody false flagInternalTranslation)
            else do
              BinaryReader.skip 4
              readImageBody true flagInternalTranslation
  match loader file with
  | .ok (data, _) => .ok data
  | .error e => .error e

/-! ## The binary image layout of the specification -/

/-- An unsigned integer of `size` bytes, little-endian. -/
def encodeLE : Nat → Nat → List Byte
  | 0, _ => []
  | size + 1, v => Fin.ofNat v :: encodeLE size (v / 256)

/-- A NUL-terminated string. -/
def encodeString (s : DxStr) : List Byte := s.map (fun c => Fin.ofNat c.toNat) ++ [0]

/-- A length-prefixed block `{ size:u32, bytes[size] }`. -/
def encodeBlock (bytes : List Byte) : List Byte := encodeLE 4 bytes.length ++ bytes

/-- A block `{ size:u32, count:u32, entries[count] }`. -/
def encodeTable (entries : List (List Byte)) : List Byte :=
  encodeBlock (encodeLE 4 entries.length ++ entries.flatten)

/-- A scene or function entry of the layout:
`name_idx:u32, raw_flag_count:u16, code_offset:i32, flag_offsets[raw_flag_count-1]:i32`. -/
structure FlaggedEntry where
  nameIdx : Nat
  rawFlagCount : Nat
  codeOffset : Int
  flagOffsets : List Int

/-- The bytes of a scene or function entry. -/
def FlaggedEntry.bytes (e : FlaggedEntry) : List Byte :=
  encodeLE 4 e.nameIdx ++ encodeLE 2 e.rawFlagCount ++ encodeI32 e.codeOffset ++
    (e.flagOffsets.map encodeI32).flatten

/-- A definition entry of the layout:
`name_idx:u32, value_string_index:u32 (hi bit = is_internal), code_offset:i32`. -/
structure DefinitionEntry where
  nameIdx : Nat
  persisted : Nat
  codeOffset : Int

/-- The bytes of a definition entry. -/
def DefinitionEntry.bytes (e : DefinitionEntry) : List Byte :=
  encodeLE 4 e.nameIdx ++ encodeLE 4 e.persisted ++ encodeI32 e.codeOffset

/-- The content of an uncompressed image file, field by field of the binary image layout. -/
structure ImageFile where
  flags : Nat
  unused : List Byte
  scenes : List FlaggedEntry
  functions : List FlaggedEntry
  definitions : List DefinitionEntry
  instructions : List Byte
  strings : List DxStr
  translations : List DxStr
  externalFunctions : List Byte

/-- The byte sequence of the binary image layout: magic `DNX`, version 4, flags, 4 unused
bytes, the scene, function and definition blocks, the instruction block, the string block, the
translation block if bit 1 of the flags is set, the external-function block. -/
def ImageFile.bytes (f : ImageFile) : List Byte :=
  [68, 78, 88, 4, Fin.ofNat f.flags] ++ f.unused ++
    encodeTable (f.scenes.map FlaggedEntry.bytes) ++
    encodeTable (f.functions.map FlaggedEntry.bytes) ++
    encodeTable (f.definitions.map DefinitionEntry.bytes) ++
    encodeBlock f.instructions ++
    encodeTable (f.strings.map encodeString) ++
    (if f.flags / 2 % 2 = 1 then encodeTable (f.translations.map encodeString) else []) ++
    encodeBlock f.externalFunctions

/-- The name a name index denotes. -/
def ImageFile.nameAt (f : ImageFile) (idx : Nat) : DxStr := f.strings.getD idx []

/-- The scene the specification reads from an entry: its `raw_flag_count - 1` flag offsets
and `floor((raw_flag_count - 1) / 2)` empty flag names. -/
def ImageFile.sceneOf (f : ImageFile) (e : FlaggedEntry) : DxScene :=
  ⟨f.nameAt e.nameIdx, e.codeOffset, e.flagOffsets, List.replicate ((e.rawFlagCount - 1) / 2) []⟩

/-- The function the specification reads from an entry. -/
def ImageFile.functionOf (f : ImageFile) (e : FlaggedEntry) : DxFunction :=
  ⟨f.nameAt e.nameIdx, e.codeOffset, e.flagOffsets, List.replicate ((e.rawFlagCount - 1) / 2) []⟩

/-- The definition the specification reads from an entry: the persisted `u32` `w` gives
`is_internal = (w >= 2^31)` and `value_string_index = w mod 2^31`. -/
def ImageFile.definitionOf (e : DefinitionEntry) : DxDefinition :=
  ⟨e.persisted % 2147483648, e.codeOffset, decide (2147483648 ≤ e.persisted)⟩

/-- The image of the file: its tables as they are, its entries read as above, and the cache id
of a new image, -1, incremented once. -/
def ImageFile.image (f : ImageFile) : DxData where
  m_currentCacheID := -1 + 1
  m_strings := f.strings
  m_translations := f.translations
  m_instructions := f.instructions
  m_functions := f.functions.map f.functionOf
  m_scenes := f.scenes.map (fun e => (f.nameAt e.nameIdx, f.sceneOf e))
  m_definitions := f.definitions.map (fun e => (f.nameAt e.nameIdx, ImageFile.definitionOf e))
  m_originalText := none

/-- A string that a NUL-terminated sequence of `char` can hold. -/
def IsCString (s : DxStr) : Prop := ∀ c ∈ s, 0 < c.toNat ∧ c.toNat < 256

/-- A scene or function entry whose fields fit their types, with `raw_flag_count - 1` offsets
and the name index of a string. -/
def FlaggedEntry.WellFormed (e : FlaggedEntry) (stringCount : Nat) : Prop :=
  e.nameIdx < stringCount ∧ e.nameIdx < 4294967296 ∧ 1 ≤ e.rawFlagCount ∧
  e.rawFlagCount < 65536 ∧ e.flagOffsets.length + 1 = e.rawFlagCount ∧ IsI32 e.codeOffset ∧
  ∀ o ∈ e.flagOffsets, IsI32 o

/-- A definition entry whose fields fit their types, with the name index of a string. -/
def DefinitionEntry.WellFormed (e : DefinitionEntry) (stringCount : Nat) : Prop :=
  e.nameIdx < stringCount ∧ e.nameIdx < 4294967296 ∧ e.persisted < 4294967296 ∧
  IsI32 e.codeOffset

/-- The fields of the file fit the layout: an uncompressed image, counts that fit an `int`,
blocks whose size fits a `u32`, strings without NUL, well-formed entries, a translation table
exactly when bit 1 of the flags is set, and no two scenes and no two definitions of the same
name. -/
def ImageFile.WellFormed (f : ImageFile) : Prop :=
  f.flags < 256 ∧ f.flags % 2 = 0 ∧ f.unused.length = 4 ∧
  (f.flags / 2 % 2 = 0 → f.translations = []) ∧
  (∀ s ∈ f.strings, IsCString s) ∧ (∀ s ∈ f.translations, IsCString s) ∧
  f.strings.length ≤ 2147483647 ∧ f.translations.length ≤ 2147483647 ∧
  f.scenes.length ≤ 2147483647 ∧ f.functions.length ≤ 2147483647 ∧
  f.definitions.length ≤ 2147483647 ∧
  4 + (f.scenes.map FlaggedEntry.bytes).flatten.length < 4294967296 ∧
  4 + (f.functions.map FlaggedEntry.bytes).flatten.length < 4294967296 ∧
  4 + (f.definitions.map DefinitionEntry.bytes).flatten.length < 4294967296 ∧
  f.instructions.length < 4294967296 ∧ f.externalFunctions.length < 4294967296 ∧
  (∀ e ∈ f.scenes, e.WellFormed f.strings.length) ∧
  (∀ e ∈ f.functions, e.WellFormed f.strings.length) ∧
  (∀ e ∈ f.definitions, e.WellFormed f.strings.length) ∧
  (f.scenes.map (fun e => f.nameAt e.nameIdx)).Nodup ∧
  (f.definitions.map (fun e => f.nameAt e.nameIdx)).Nodup

/-- The bytes of the layout that follow the header and the 4 unused bytes: the blocks. -/
def ImageFile.body (f : ImageFile) : List Byte :=
  encodeTable (f.scenes.map FlaggedEntry.bytes) ++
    (encodeTable (f.functions.map FlaggedEntry.bytes) ++
      (encodeTable (f.definitions.map DefinitionEntry.bytes) ++
        (encodeBlock f.instructions ++
          (encodeTable (f.strings.map encodeString) ++
            ((if f.flags / 2 % 2 = 1 then encodeTable (f.translations.map encodeString)
              else []) ++ encodeBlock f.externalFunctions)))))

/-- The byte sequence of the compressed form of the layout: bit 0 of the flags set, the size
of the blocks, the size of the compressed bytes `packed`, then `packed`. -/
def ImageFile.compressedBytes (f : ImageFile) (packed : List Byte) : List Byte :=
  [68, 78, 88, 4, Fin.ofNat (f.flags + 1)] ++ encodeLE 4 f.body.length ++
    encodeLE 4 packed.length ++ packed

/-- The image `d` is the one the specification reads from the layout `f`, said without the
iteration order of the two maps: the tables and the functions are those of `f`, every scene
and definition entry is found under its name, and no other name is found. -/
def ImageFile.LoadedAs (f : ImageFile) (d : DxData) : Prop :=
  d.m_currentCacheID = -1 + 1 ∧ d.m_strings = f.strings ∧ d.m_translations = f.translations ∧
  d.m_instructions = f.instructions ∧ d.m_originalText = none ∧
  d.m_functions = f.functions.map f.functionOf ∧
  (∀ e ∈ f.scenes, d.m_scenes.lookup (f.nameAt e.nameIdx) = some (f.sceneOf e)) ∧
  (∀ name, name ∉ f.scenes.map (fun e => f.nameAt e.nameIdx) →
    d.m_scenes.lookup name = none) ∧
  (∀ e ∈ f.definitions,
    d.m_definitions.lookup (f.nameAt e.nameIdx) = some (ImageFile.definitionOf e)) ∧
  (∀ name, name ∉ f.definitions.map (fun e => f.nameAt e.nameIdx) →
    d.m_definitions.lookup name = none)

/-- A small image file: one scene `main` with one flag (raw flag count 3), one function, one
internal definition, two strings and a translation table. -/
def sampleImageFile : ImageFile where
  flags := 2
  unused := [0, 0, 0, 0]
  scenes := [⟨0, 3, 12, [0, 6]⟩]
  functions := [⟨1, 1, 13, []⟩]
  definitions := [⟨1, 2147483648 + 1, -1⟩]
  instructions := enc1 .pushi 7 ++ enc0 .exit ++ enc1 .pushbs 0 ++ enc0 .exit ++ enc0 .exit ++
    enc0 .exit
  strings := ["main".toList, "f".toList]
  translations := ["Main".toList, "F".toList]
  externalFunctions := []

/-- The sample image file with an external-function block of four bytes. -/
def loadableImageFile : ImageFile := { sampleImageFile with externalFunctions := [0, 0, 0, 0] }

/-! ## Translation files (`DxData::loadTranslationFile`) -/

/-- The loop `for (int _ = 0; _ < stringCount; ++_) m_translations.emplace_back(read<std::string>())`
of `loadTranslationFile`; every string is appended as soon as it is read, so an exception
leaves the strings read so far in `m_translations`. -/
def readTranslations : Nat → List Byte → DxData → Except DxError Unit × DxData
  | 0, _, d => (.ok (), d)
  | n + 1, bs, d =>
    match BinaryReader.readString bs with
    | .ok (s, rest) =>
      readTranslations n rest { d with m_translations := d.m_translations ++ [s] }
    | .error e => (.error e, d)

/-- The reads of `loadTranslationFile` (with the file reader) up to the string count: the
magic `DXT`, the version `TranslationFormatVersion = 0` and the `uint32_t` count. -/
def readTranslationHeader : BinaryReader Nat := do
  let c1 ← BinaryReader.readUnsigned true 1
  if c1 ≠ 68 then BinaryReader.throw .dataProcessing
  else do
    let c2 ← BinaryReader.readUnsigned true 1
    if c2 ≠ 88 then BinaryReader.throw .dataProcessing
    else do
      let c3 ← BinaryReader.readUnsigned true 1
      if c3 ≠ 84 then BinaryReader.throw .dataProcessing
      else do
        let version ← BinaryReader.readUnsigned true 1
        if version ≠ 0 then BinaryReader.throw .dataProcessing
        else BinaryReader.readUnsigned true 4

/-- The method `DxData::loadTranslationFile` on the bytes of the file: its outcome and the
image it leaves behind. The count is compared only when the image holds translations;
`m_originalText` receives the translations (which are cleared) only while it is empty; a
count above `INT_MAX` overflows the `int` loop counter and `m_currentCacheID++` overflows at
`INT_MAX`, both undefined. -/
def DxData.loadTranslationFile (file : List Byte) (d : DxData) : Except DxError Unit × DxData :=
  match readTranslationHeader file with
  | .error e => (.error e, d)
  | .ok (stringCount, rest) =>
    if d.m_translations ≠ [] ∧ stringCount ≠ d.m_translations.length then
      (.error .dataProcessing, d)
    else
      let d1 : DxData :=
        match d.m_originalText with
        | none => { d with m_originalText := some d.m_translations, m_translations := [] }
        | some _ => d
      if 2147483647 < stringCount then (.error .undefinedBehaviour, d1)
      else
        match readTranslations stringCount rest d1 with
        | (.error e, d2) => (.error e, d2)
        | (.ok (), d2) =>
          if d2.m_currentCacheID = 2147483647 then (.error .undefinedBehaviour, d2)
          else (.ok (), { d2 with m_currentCacheID := d2.m_currentCacheID + 1 })

/-- The bytes of a translation file that announces `count` strings and continues with `rest`. -/
def translationHeaderBytes (count : Nat) (rest : List Byte) : List Byte :=
  [68, 88, 84, 0] ++ encodeLE 4 count ++ rest

/-- The bytes of the well-formed translation file that holds the strings `t`: the magic, the
version, the number of strings and the NUL-terminated strings. -/
def translationFileBytes (t : List DxStr) : List Byte :=
  translationHeaderBytes t.length (t.map encodeString).flatten

/-- An image that holds the given translations and nothing else, fresh from the loader. -/
def translatedImage (translations : List DxStr) : DxData where
  m_currentCacheID := 0
  m_strings := ["Hello".toList]
  m_translations := translations
  m_instructions := []
  m_functions := []
  m_scenes := []
  m_definitions := []
  m_originalText := none

/-! ## The default handlers (`DxInterpreter::DxInterpreter`) -/

/-- The struct `DefaultVariableStore`; its `container` is an association list in which the
first entry of a key is the one `at` finds. -/
structure DefaultVariableStore where
  container : List (DxStr × DxValue)

/-- The call operator `operator()(DxStrRef name)`: `container.at(name)`. -/
def DefaultVariableStore.get (s : DefaultVariableStore) (name : DxStr) : Except DxError DxValue :=
  match s.container.lookup name with
  | some v => .ok v
  | none => .error .outOfRange

/-- The call operator `operator()(DxStrRef name, const DxValue& value)`:
`container.emplace(std::make_pair(name, value))`. -/
def DefaultVariableStore.set (s : DefaultVariableStore) (name : DxStr) (value : DxValue) :
    DefaultVariableStore :=
  ⟨mapEmplace s.container name value⟩

/-- The global `defaultFlagStore`, default-constructed. -/
def defaultFlagStore : DefaultVariableStore := ⟨[]⟩

/-- The global `defaultVarStore`, default-constructed. -/
def defaultVarStore : DefaultVariableStore := ⟨[]⟩

/-- The four `std::function` members to which the constructor assigns the global stores. An
assignment such as `m_setVariableHandler = defaultVarStore` stores a copy of the store in
the `std::function`, so every member owns a store of its own. -/
structure DefaultHandlers where
  m_setVariableHandler : DefaultVariableStore
  m_getVariableHandler : DefaultVariableStore
  m_setFlagHandler : DefaultVariableStore
  m_getFlagHandler : DefaultVariableStore

/-- The four members right after the constructor. -/
def DefaultHandlers.fresh : DefaultHandlers where
  m_setVariableHandler := defaultVarStore
  m_getVariableHandler := defaultVarStore
  m_setFlagHandler := defaultFlagStore
  m_getFlagHandler := defaultFlagStore

/-- The effect of one callback invocation on the stores the members own: a set handler
calls `emplace` on its store, every other callback leaves the four stores alone. -/
def DefaultHandlers.record (h : DefaultHandlers) : HostCall → DefaultHandlers
  | .setVariable name value =>
    { h with m_setVariableHandler := h.m_setVariableHandler.set name value }
  | .setFlag name value => { h with m_setFlagHandler := h.m_setFlagHandler.set name value }
  | _ => h

/-- The four members after the given invocations, oldest first. -/
def DefaultHandlers.after (calls : List HostCall) : DefaultHandlers :=
  calls.foldl DefaultHandlers.record DefaultHandlers.fresh

/-- The literal `0.0`. -/
def DxDouble.zero : DxDouble := ⟨0⟩

/-- The literal `1.0`, pattern `0x3FF0000000000000`. -/
def DxDouble.one : DxDouble := ⟨4607182418800017408⟩

/-- The literal `-1.0`, pattern `0xBFF0000000000000`. -/
def DxDouble.minusOne : DxDouble := ⟨13830554455654793216⟩

/-- The first loop of the default weighted-chance handler,
`fixedWeights.push_back(sum); sum += chances[i];`: the values pushed and the final sum. -/
def pushedWeights (fp : FloatOps) : DxDouble → List DxDouble → List DxDouble × DxDouble
  | sum, [] => ([], sum)
  | sum, c :: rest =>
    let r := pushedWeights fp (fp.add sum c) rest
    (sum :: r.1, r.2)

/-- The second loop of the default weighted-chance handler over `fixedWeights[0 .. count)`,
from index `i` with the current `sel` and `prev`. -/
def selectWeight (fp : FloatOps) (r : DxDouble) : List DxDouble → Int → Int → DxDouble → Int
  | [], _, sel, _ => sel
  | curr :: rest, i, sel, prev =>
    if fp.le curr r && fp.lt prev curr then selectWeight fp r rest (i + 1) i curr
    else selectWeight fp r rest (i + 1) sel prev

/-- The lambda assigned to `m_weighedChanceHandler`. The vector `fixedWeights` is built with
`count` elements (all `0.0`) and the running sums are pushed behind them; `random_real` is
the draw of `random_real(min, max)`. -/
def defaultWeightedChance (fp : FloatOps) (random_real : DxDouble → DxDouble → DxDouble)
    (chances : List DxDouble) : Int :=
  let count := chances.length
  let pushed := pushedWeights fp DxDouble.zero chances
  let fixedWeights := List.replicate count DxDouble.zero ++ pushed.1
  let r := random_real DxDouble.zero pushed.2
  selectWeight fp r (fixedWeights.take count) 0 (-1) DxDouble.minusOne

/-- The lambda assigned to `m_chanceHandler`: `chance == 1 || random_real() < chance`. -/
def defaultChance (fp : FloatOps) (random_real : DxDouble → DxDouble → DxDouble)
    (chance : DxDouble) : Bool :=
  fp.eq chance DxDouble.one || fp.lt (random_real DxDouble.zero DxDouble.one) chance

/-- The callbacks of an interpreter on which the host has set none: the stubs of the text
and choice handlers and the unregistered-function handler throw, the end-scene handler does
nothing, the variable and flag handlers are the four stores, the only registered function
is `char`. The draws of `random_real` are a parameter: a function of the invocations made
so far and of the bounds. -/
def defaultHost (fp : FloatOps)
    (random_real : List HostCall → DxDouble → DxDouble → DxDouble) : Host where
  text := fun _ _ => .error .diannexException
  choice := fun _ _ => .error .diannexException
  endScene := fun _ _ => .ok ()
  setVariable := fun _ _ _ => .ok ()
  getVariable := fun calls name => (DefaultHandlers.after calls).m_getVariableHandler.get name
  setFlag := fun _ _ _ => .ok ()
  getFlag := fun calls name => (DefaultHandlers.after calls).m_getFlagHandler.get name
  chance := fun calls chance => .ok (defaultChance fp (random_real calls) chance)
  weightedChance := fun calls chances =>
    .ok (defaultWeightedChance fp (random_real calls) chances)
  unregisteredFunction := fun _ _ => .error .diannexException
  functionHandlers := fun name =>
    if name = "char".toList then some (fun _ _ => .ok DxValue.undefined) else none

/-- The comparison `a < b` of IEEE-754 binary64 on bit patterns: false when an operand is a
NaN, else the order of the signed magnitudes (the two zeros are equal). -/
def binary64Lt (a b : DxDouble) : Bool :=
  let nan (d : DxDouble) : Bool := d.bits / 2 ^ 52 % 2048 = 2047 && d.bits % 2 ^ 52 ≠ 0
  let key (d : DxDouble) : Int :=
    if d.bits / 2 ^ 63 % 2 = 1 then -((d.bits % 2 ^ 63 : Nat) : Int) else ((d.bits % 2 ^ 63 : Nat) : Int)
  !nan a && !nan b && decide (key a < key b)

/-- The comparison `a <= b` of IEEE-754 binary64 on bit patterns. -/
def binary64Le (a b : DxDouble) : Bool :=
  let nan (d : DxDouble) : Bool := d.bits / 2 ^ 52 % 2048 = 2047 && d.bits % 2 ^ 52 ≠ 0
  let key (d : DxDouble) : Int :=
    if d.bits / 2 ^ 63 % 2 = 1 then -((d.bits % 2 ^ 63 : Nat) : Int) else ((d.bits % 2 ^ 63 : Nat) : Int)
  !nan a && !nan b && decide (key a ≤ key b)

/-- The floating-point primitives of the examples with the comparisons `<` and `<=` of
IEEE-754 binary64. -/
def orderedFloatOps : FloatOps :=
  { binary64FloatOps with lt := binary64Lt, le := binary64Le }

/-- The literal `0.5`, pattern `0x3FE0000000000000`. -/
def DxDouble.half : DxDouble := ⟨4602678819172646912⟩

/-- An image whose scene `main` stores 5 in the variable `x` and reads `x` back:
`pushi 5; pushi 0; setvarglb; pushi 0; pushvarglb; exit`. -/
def variableImage : DxData :=
  sampleImage (enc1 .pushi 5 ++ enc1 .pushi 0 ++ enc0 .setvarglb ++ enc1 .pushi 0 ++
    enc0 .pushvarglb ++ enc0 .exit) ["x".toList] [] [("main".toList, ⟨"main".toList, 0, [], []⟩)]

/-- An image whose scene `main` opens a choice and ends without presenting it:
`choicebeg; exit`. -/
def abandonedChoiceImage : DxData :=
  sampleImage (enc0 .choicebeg ++ enc0 .exit) [] []
    [("main".toList, ⟨"main".toList, 0, [], []⟩)]

/-- An image whose code is `pushbints 0 2` over the string `${0} and ${1}`. -/
def interpolationImage : DxData :=
  sampleImage (enc2 .pushbints 0 2) ["$\x7b0\x7d and $\x7b1\x7d".toList] [] []

/-! ## Definition instances (`DxDefinitionInstance.cpp`) -/

/-- The method `DxDefinitionInstance::valueNoCache()`: its outcome, the instance and the
interpreter it leaves behind. With a code offset the code is run by `executeEvalMultiple`,
the whole operand stack is popped into `elems`, top first, each value converted to String,
and the string of the definition is interpolated with them. -/
def DxDefinitionInstance.valueNoCache (env : Env) (fuel : Nat) (inst : DxDefinitionInstance)
    (m : DxInterpreter) : Except DxError DxStr × DxDefinitionInstance × DxInterpreter :=
  if inst.m_target.codeOffset ≠ -1 then
    match executeEvalMultiple env fuel inst.m_target.codeOffset m with
    | (.error e, m1) => (.error e, inst, m1)
    | (.ok (), m1) =>
      match popStrings env m1.m_stack.length m1 with
      | (.error e, m2) => (.error e, inst, m2)
      | (.ok elems, m2) =>
        let text : Except DxError DxStr :=
          if inst.m_target.isInternal then m2.m_data.string inst.m_target.valueStringIndex
          else m2.m_data.translation inst.m_target.valueStringIndex
        match text.bind (fun t => interpolate t elems) with
        | .error e => (.error e, inst, m2)
        | .ok s => (.ok s, { inst with m_cachedValue := some s }, m2)
  else
    let text : Except DxError DxStr :=
      if inst.m_target.isInternal then m.m_data.string inst.m_target.valueStringIndex
      else m.m_data.translation inst.m_target.valueStringIndex
    match text with
    | .error e => (.error e, inst, m)
    | .ok s => (.ok s, { inst with m_cachedValue := some s }, m)

/-- The method `DxDefinitionInstance::value()`. Dereferencing an empty `m_cachedValue` is
undefined (the test before it excludes that). -/
def DxDefinitionInstance.value (env : Env) (fuel : Nat) (inst : DxDefinitionInstance)
    (m : DxInterpreter) : Except DxError DxStr × DxDefinitionInstance × DxInterpreter :=
  let currentCacheId := m.m_data.m_currentCacheID
  if currentCacheId ≠ inst.m_cachedId ∨ inst.m_cachedValue.isNone then
    DxDefinitionInstance.valueNoCache env fuel { inst with m_cachedId := currentCacheId } m
  else
    match inst.m_cachedValue with
    | some s => (.ok s, inst, m)
    | none => (.error .undefinedBehaviour, inst, m)

/-- An image with the string `Score: ${0}` and the code `pushi 7; exit` at address 0. -/
def definitionImage : DxData :=
  sampleImage (enc1 .pushi 7 ++ enc0 .exit) ["Score: $\x7b0\x7d".toList] [] []

/-- A new instance of the internal definition of `definitionImage`: string 0, code at 0. -/
def scoreDefinition : DxDefinitionInstance := ⟨⟨0, 0, true⟩, none, -1⟩

/-- Every run of the member function `x` leaves `m_state` as it was. -/
def Exec.Stays {α : Type} (x : Exec α) : Prop := ∀ m, (x m).2.m_state = m.m_state

/-- An image whose code at address 0 is `textrun`, which throws in state `Eval`. -/
def evalTextImage : DxData := sampleImage (enc0 .textrun) [] [] []

/-- The double `1e10`, pattern `0x4202A05F20000000`; its floor does not fit an `int`. -/
def DxDouble.tenBillion : DxDouble := ⟨4756540486875873280⟩

/-! # Theorems -/

theorem isDigit_toNat {c : Char} (h : c.isDigit = true) : 48 ≤ c.toNat ∧ c.toNat ≤ 57 := by
  simp only [Char.isDigit, Bool.and_eq_true, decide_eq_true_eq] at h
  exact ⟨h.1, h.2⟩

theorem strAt_append (pre : DxStr) (c : Char) (rest : DxStr) :
    strAt (pre ++ c :: rest) pre.length = .ok c := by
  have h : (pre ++ c :: rest).get? pre.length = some c := by
    induction pre with
    | nil => rfl
    | cons a t ih => simpa using ih
  simp only [strAt, h]

theorem takeWhile_all {α : Type} (p : α → Bool) (l : List α) (h : ∀ x ∈ l, p x = true) :
    l.takeWhile p = l := by
  induction l with
  | nil => rfl
  | cons a t ih =>
    have ha : p a = true := h a (List.mem_cons_self a t)
    simp [List.takeWhile, ha, ih (fun x hx => h x (List.mem_cons_of_mem a hx))]

theorem stoi_digits (d : Char) (ds : List Char) (hd : ∀ x ∈ d :: ds, x.isDigit = true)
    (hv : decimalValue (d :: ds) ≤ 2147483647) :
    stoi (d :: ds) = .ok (decimalValue (d :: ds) : Int) := by
  have h0 := isDigit_toNat (hd d (List.mem_cons_self d ds))
  have hsp : isSpace d = false := by
    simp only [isSpace, Bool.or_eq_false_iff, Bool.and_eq_false_iff, decide_eq_false_iff_not]
    omega
  have hm : d ≠ Char.ofNat 45 := by
    intro h; rw [h] at h0; revert h0; decide
  have hp : d ≠ Char.ofNat 43 := by
    intro h; rw [h] at h0; revert h0; decide
  have htw := takeWhile_all Char.isDigit (d :: ds) hd
  unfold stoi
  simp only [List.dropWhile, hsp, hm, hp, if_false, htw]
  simp
  omega

theorem scanPlaceholder_run (ds : List Char) (hds : ∀ x ∈ ds, x ≠ chClose) :
    ∀ (pre : DxStr) (c0 : Char) (rest build : DxStr) (fuel : Nat), ds.length < fuel →
      scanPlaceholder (pre ++ c0 :: (ds ++ chClose :: rest)) fuel pre.length c0 build
        = .ok (pre.length + 1 + ds.length, chClose, build ++ c0 :: ds) := by
  induction ds with
  | nil =>
    intro pre c0 rest build fuel hf
    obtain ⟨f, rfl⟩ : ∃ f, fuel = f + 1 := ⟨fuel - 1, by omega⟩
    have h := strAt_append (pre ++ [c0]) chClose rest
    simp only [List.append_assoc, List.singleton_append, List.length_append, List.length_singleton] at h
    simp [scanPlaceholder, h]
  | cons d t ih =>
    intro pre c0 rest build fuel hf
    obtain ⟨f, rfl⟩ : ∃ f, fuel = f + 1 := ⟨fuel - 1, by omega⟩
    have h := strAt_append (pre ++ [c0]) d (t ++ chClose :: rest)
    simp only [List.append_assoc, List.singleton_append, List.length_append, List.length_singleton] at h
    have hd : d ≠ chClose := hds d (List.mem_cons_self d t)
    have hrec := ih (fun x hx => hds x (List.mem_cons_of_mem d hx)) (pre ++ [c0]) d rest (build ++ [c0]) f
      (by simp at hf; omega)
    simp only [List.append_assoc, List.singleton_append, List.length_append, List.length_singleton] at hrec
    simp only [scanPlaceholder, List.cons_append, h, hd, ne_eq, not_false_eq_true, true_and]
    rw [if_pos (by simp), hrec]
    simp; omega

theorem interpolateLoop_segments (args : List DxStr) (hargs : args.length ≤ 2147483648)
    (segs : List Segment) (hv : ∀ s ∈ segs, s.Valid args) :
    ∀ (pre result : DxStr) (fuel : Nat), (renderAll segs).length < fuel →
      interpolateLoop (pre ++ renderAll segs) args fuel pre.length result
        = .ok (result ++ expandAll args segs) := by
  induction segs with
  | nil =>
    intro pre result fuel hf
    obtain ⟨f, rfl⟩ : ∃ f, fuel = f + 1 := ⟨fuel - 1, by omega⟩
    simp [interpolateLoop, renderAll, expandAll]
  | cons s t ih =>
    intro pre result fuel hf
    obtain ⟨f, rfl⟩ : ∃ f, fuel = f + 1 := ⟨fuel - 1, by omega⟩
    have hs := hv s (List.mem_cons_self s t)
    have iht := ih (fun x hx => hv x (List.mem_cons_of_mem s hx))
    cases s with
    | lit c =>
      obtain ⟨hb, hd⟩ := hs
      have hat := strAt_append pre c (renderAll t)
      have hrec := iht (pre ++ [c]) (result ++ [c]) f
        (by simp [renderAll, Segment.render] at hf; omega)
      simp only [List.append_assoc, List.singleton_append, List.length_append,
        List.length_singleton] at hrec
      simp only [renderAll, Segment.render, List.singleton_append, expandAll, Segment.expand]
      rw [interpolateLoop, if_pos (by simp), hat]
      simp only [hb, hd, false_and, if_false]
      exact hrec
    | placeholder ds =>
      obtain ⟨hne, hdig, hlt⟩ := hs
      obtain ⟨d, ds, rfl⟩ : ∃ d r, ds = d :: r := by
        cases ds with
        | nil => exact absurd rfl hne
        | cons d r => exact ⟨d, r, rfl⟩
      have hnc : ∀ x ∈ ds, x ≠ chClose := by
        intro x hx h
        have := isDigit_toNat (hdig x (List.mem_cons_of_mem d hx))
        rw [h] at this; revert this; decide
      have hstoi := stoi_digits d ds hdig (by omega)
      obtain ⟨S, hS⟩ : ∃ S, S = pre ++ chDollar :: chOpen :: d :: (ds ++ chClose :: renderAll t) :=
        ⟨_, rfl⟩
      have hlen : S.length = pre.length + (ds.length + 4 + (renderAll t).length) := by
        rw [hS]; simp; omega
      have hat0 : strAt S pre.length = .ok chDollar := by
        rw [hS]; exact strAt_append pre chDollar _
      have hat1 : strAt S (pre.length + 1) = .ok chOpen := by
        rw [hS]; simpa using strAt_append (pre ++ [chDollar]) chOpen (d :: (ds ++ chClose :: renderAll t))
      have hat2 : strAt S (pre.length + 2) = .ok d := by
        rw [hS]; simpa using strAt_append (pre ++ [chDollar, chOpen]) d (ds ++ chClose :: renderAll t)
      have hscan : scanPlaceholder S (S.length + 1) (pre.length + 2) d []
          = .ok (pre.length + 2 + 1 + ds.length, chClose, d :: ds) := by
        have h := scanPlaceholder_run ds hnc (pre ++ [chDollar, chOpen]) d (renderAll t) []
          (S.length + 1) (by omega)
        have e2 : (pre ++ [chDollar, chOpen]) ++ d :: (ds ++ chClose :: renderAll t) = S := by
          rw [hS]; simp
        have e3 : (pre ++ [chDollar, chOpen]).length = pre.length + 2 := by simp
        rw [e2, e3] at h
        exact h
      have hrec : interpolateLoop S args f (pre.length + 2 + 1 + ds.length + 1)
          (result ++ args.getD (decimalValue (d :: ds)) [])
          = .ok (result ++ (args.getD (decimalValue (d :: ds)) [] ++ expandAll args t)) := by
        have h := iht (pre ++ Segment.render (.placeholder (d :: ds)))
          (result ++ args.getD (decimalValue (d :: ds)) []) f
          (by simp [renderAll, Segment.render] at hf; omega)
        have e : pre.length + 2 + 1 + ds.length + 1
            = (pre ++ Segment.render (.placeholder (d :: ds))).length := by
          simp [Segment.render]; omega
        have e2 : (pre ++ Segment.render (.placeholder (d :: ds))) ++ renderAll t = S := by
          rw [hS]; simp [Segment.render]
        rw [e2] at h
        rw [e]
        simpa using h
      have hgoal : pre ++ renderAll (Segment.placeholder (d :: ds) :: t) = S := by
        rw [hS]; simp [renderAll, Segment.render]
      have hdb : chDollar ≠ chBackslash := by decide
      rw [hgoal]
      simp only [expandAll, Segment.expand]
      rw [interpolateLoop, if_pos (by omega), hat0]
      simp only [hdb, false_and, if_false, true_and]
      rw [if_pos (by omega)]
      simp only [hat1, hat2, if_true, hscan, ne_eq, not_true_eq_false, if_false, hstoi]
      rw [if_neg (by omega)]
      simp only [Int.toNat_ofNat]
      exact hrec

/-! ## Lemmas on the embedding -/

theorem Exec.bind_eq {α β : Type} (x : Exec α) (f : α → Exec β) : (x >>= f) = Exec.bind x f := rfl

theorem Exec.pure_eq {α : Type} (a : α) : (Pure.pure a : Exec α) = Exec.pure a := rfl

theorem wrapI32_of_isI32 {v : Int} (h : IsI32 v) : wrapI32 v = v := by
  unfold IsI32 at h
  unfold wrapI32
  omega

theorem decode_encodeI32 {v : Int} (h : IsI32 v) : wrapI32 (leValue (encodeI32 v)) = v := by
  unfold IsI32 at h
  simp only [encodeI32, leValue, Fin.ofNat, wrapI32]
  omega

theorem encodeI32_length (v : Int) : (encodeI32 v).length = 4 := rfl

theorem toSizeT_of_nonneg {v : Int} (h0 : 0 ≤ v) (h : IsI32 v) : toSizeT v = v.toNat := by
  unfold IsI32 at h
  unfold toSizeT
  omega

theorem DxData.codeAt_append {d : DxData} {off : Int} {a b : List Byte}
    (h : d.codeAt off (a ++ b)) : d.codeAt off a ∧ d.codeAt (off + a.length) b := by
  obtain ⟨h0, h1, h3, h2⟩ := h
  simp only [List.length_append, Nat.cast_add] at h1 h3
  refine ⟨⟨h0, by omega, by omega, ?_⟩, ⟨by omega, by omega, by omega, ?_⟩⟩
  · have := congrArg (List.take a.length) h2
    simpa [List.take_take] using this
  · have e : (off + (a.length : Int)).toNat = off.toNat + a.length := by omega
    have := congrArg (List.drop a.length) h2
    rw [e, ← List.drop_drop]
    simp only [List.length_append, List.drop_take, List.drop_left] at this
    simpa using this

theorem readBytes_codeAt {m : DxInterpreter} {bs : List Byte}
    (h : m.m_data.codeAt m.m_programCounter bs) :
    readBytes bs.length m
      = (.ok bs, { m with m_programCounter := m.m_programCounter + bs.length }) := by
  obtain ⟨h0, h1, h3, h2⟩ := h
  have hw : wrapI32 (m.m_programCounter + bs.length) = m.m_programCounter + bs.length :=
    wrapI32_of_isI32 ⟨by omega, by omega⟩
  unfold readBytes
  rw [if_pos ⟨h0, by omega⟩, h2, hw]

theorem DxOpcode.ofByte_toByte (op : DxOpcode) : DxOpcode.ofByte op.toByte = some op := by
  cases op <;> rfl

theorem argI_codeAt {m : DxInterpreter} {v : Int} (hv : IsI32 v)
    (h : m.m_data.codeAt m.m_programCounter (encodeI32 v)) :
    argI m = (.ok v, { m with m_programCounter := m.m_programCounter + 4 }) := by
  have hr := readBytes_codeAt h
  rw [encodeI32_length] at hr
  simp only [argI, Exec.bind_eq, Exec.bind, hr, Exec.pure_eq, Exec.pure, decode_encodeI32 hv]
  rfl

theorem argII_codeAt {m : DxInterpreter} {a b : Int} (ha : IsI32 a) (hb : IsI32 b)
    (h : m.m_data.codeAt m.m_programCounter (encodeI32 a ++ encodeI32 b)) :
    argII m = (.ok (a, b), { m with m_programCounter := m.m_programCounter + 8 }) := by
  obtain ⟨h1, h2⟩ := DxData.codeAt_append h
  have e1 := argI_codeAt ha h1
  have e2 : argI { m with m_programCounter := m.m_programCounter + 4 }
      = (.ok b, { m with m_programCounter := m.m_programCounter + 4 + 4 }) :=
    argI_codeAt (m := { m with m_programCounter := m.m_programCounter + 4 }) hb h2
  simp only [argII, Exec.bind_eq, Exec.bind, e1, e2, Exec.pure_eq, Exec.pure]
  have e : m.m_programCounter + 4 + 4 = m.m_programCounter + 8 := by omega
  rw [e]

theorem interpret_codeAt (env : Env) (fuel : Nat) {m : DxInterpreter} {o : DxOpcode}
    {rest : List Byte} (h : m.m_data.codeAt m.m_programCounter (o.toByte :: rest)) :
    interpret env fuel m
      = execOpcode env fuel o { m with m_programCounter := m.m_programCounter + 1 } := by
  have h1 : m.m_data.codeAt m.m_programCounter [o.toByte] :=
    (DxData.codeAt_append (a := [o.toByte]) (b := rest) h).1
  have hr := readBytes_codeAt h1
  simp only [List.length_singleton, Nat.cast_one] at hr
  simp only [interpret, Exec.bind_eq, Exec.bind, hr, DxOpcode.ofByte_toByte]

theorem DxData.codeAt_tail {d : DxData} {off : Int} {b : Byte} {rest : List Byte}
    (h : d.codeAt off (b :: rest)) : d.codeAt (off + 1) rest := by
  have := (DxData.codeAt_append (a := [b]) (b := rest) h).2
  simpa using this

theorem popN_append (args rest : List DxValue) :
    ∀ (m : DxInterpreter), m.m_stack = args ++ rest →
      popN args.length m = (.ok args, { m with m_stack := rest }) := by
  induction args with
  | nil =>
    intro m h
    simp only [List.nil_append] at h
    simp only [List.length_nil, popN, Exec.pure, ← h]
  | cons a t ih =>
    intro m h
    have h1 : pop m = (.ok a, { m with m_stack := t ++ rest }) := by
      simp only [pop, h, List.cons_append]
    have h2 := ih { m with m_stack := t ++ rest } rfl
    simp only [List.length_cons, popN, Exec.bind_eq, Exec.bind, h1, h2, Exec.pure_eq, Exec.pure]

theorem loadFlags_ok (env : Env) (fv : List HostCall → DxStr → DxValue)
    (hfv : ∀ h n, env.host.getFlag h n = .ok (fv h n)) (names : List DxStr) :
    ∀ (m : DxInterpreter), loadFlags env names m
      = (.ok (), { m with
          m_locals := m.m_locals ++ flagValues fv m.hostCalls names,
          hostCalls := m.hostCalls ++ names.map HostCall.getFlag }) := by
  induction names with
  | nil =>
    intro m
    simp [loadFlags, Exec.pure, flagValues]
  | cons n t ih =>
    intro m
    simp only [loadFlags, Exec.bind_eq, Exec.bind, Exec.host, hfv, Exec.modify, ih, flagValues,
      List.map_cons, List.append_assoc, List.singleton_append]

theorem execCall_spec (env : Env) (fv : List HostCall → DxStr → DxValue)
    (hfv : ∀ h n, env.host.getFlag h n = .ok (fv h n))
    (m : DxInterpreter) (funcId argc : Int) (func : DxFunction) (args rest : List DxValue)
    (hI : IsI32 funcId) (hargc : IsI32 argc)
    (hcode : m.m_data.codeAt m.m_programCounter (encodeI32 funcId ++ encodeI32 argc))
    (hfunc : vectorIndex m.m_data.m_functions funcId = .ok func)
    (hstack : m.m_stack = args ++ rest) (hlen : (args.length : Int) = argc) :
    execCall env m = (.ok (), { m with
      m_programCounter := func.codeOffset,
      m_stack := [],
      m_callStack :=
        { returnOffset := m.m_programCounter + 8, stack := rest, locals := m.m_locals,
          flagCount := m.m_flagCount } :: m.m_callStack,
      m_locals := flagValues fv m.hostCalls func.flagNames ++ args,
      m_flagCount := wrapI32 func.flagNames.length,
      hostCalls := m.hostCalls ++ func.flagNames.map HostCall.getFlag }) := by
  have e1 := argII_codeAt hI hargc hcode
  subst hlen
  have e2 : vectorOfCount (args.length : Int) = Exec.pure args.length := by
    simp [vectorOfCount]
  have e3 := popN_append args rest { m with m_programCounter := m.m_programCounter + 8 } hstack
  simp only [execCall, Exec.bind_eq, Exec.bind, e1, e2, Exec.pure, e3, Exec.modify, Exec.get,
    Exec.lift, hfunc, loadFlags_ok env fv hfv, List.nil_append]

theorem execExit_frame (env : Env) (m : DxInterpreter) (f : StackFrame) (rest : List StackFrame)
    (hs : m.m_state ≠ .Eval) (hc : m.m_callStack = f :: rest) :
    execExit env m = (.ok (), { m with
      m_callStack := rest,
      m_programCounter := f.returnOffset,
      m_stack := DxValue.undefined :: f.stack,
      m_locals := f.locals,
      m_flagCount := f.flagCount }) := by
  simp only [execExit, Exec.bind_eq, Exec.bind, Exec.get, hs, if_false, hc, Exec.modify, push]

theorem execRet_frame (env : Env) (m : DxInterpreter) (f : StackFrame) (rest : List StackFrame)
    (v : DxValue) (st : List DxValue) (hc : m.m_callStack = f :: rest) (hs : m.m_stack = v :: st) :
    execRet env m = (.ok (), { m with
      m_callStack := rest, m_stack := v :: f.stack, m_locals := f.locals }) := by
  simp only [execRet, Exec.bind_eq, Exec.bind, Exec.get, hc, pop, hs, Exec.modify, push]

/-- C10 (amended). For every state whose operand stack holds `argc >= 0` values on top
(`args`, the rest being `rest`) and whose image holds `call funcId argc` at the program
counter `p`, with `funcId` a valid function index and a flag-get callback that returns:
the call returns normally, and when afterwards `exit` executes in any state `m2` other
than `Eval` whose call stack is the one the call left (the frame of the call on top), the
result has `program_counter = p + 9`, operand stack `rest` with one `Undefined` pushed,
the call stack, the locals and `flag_count` of the state before the call. -/
theorem call_then_exit_restores_caller (env : Env) (fuel fuel2 : Nat) (m m2 : DxInterpreter)
    (funcId argc : Int) (func : DxFunction) (args rest : List DxValue)
    (hI : IsI32 funcId) (hargc : IsI32 argc)
    (hcode : m.m_data.codeAt m.m_programCounter (enc2 .call funcId argc))
    (hfunc : vectorIndex m.m_data.m_functions funcId = .ok func)
    (hstack : m.m_stack = args ++ rest) (hlen : (args.length : Int) = argc)
    (hflag : ∀ h n, ∃ v, env.host.getFlag h n = .ok v)
    (hstate : m2.m_state ≠ .Eval)
    (hframe : m2.m_callStack = (interpret env fuel m).2.m_callStack)
    (hexit : m2.m_data.codeAt m2.m_programCounter (enc0 .exit)) :
    (interpret env fuel m).1 = .ok () ∧
    (interpret env fuel2 m2).1 = .ok () ∧
    (interpret env fuel2 m2).2.m_programCounter = m.m_programCounter + 9 ∧
    (interpret env fuel2 m2).2.m_stack = DxValue.undefined :: rest ∧
    (interpret env fuel2 m2).2.m_callStack = m.m_callStack ∧
    (interpret env fuel2 m2).2.m_locals = m.m_locals ∧
    (interpret env fuel2 m2).2.m_flagCount = m.m_flagCount := by
  obtain ⟨fv, hfv⟩ : ∃ fv : List HostCall → DxStr → DxValue,
      ∀ h n, env.host.getFlag h n = .ok (fv h n) :=
    ⟨fun h n => (hflag h n).choose, fun h n => (hflag h n).choose_spec⟩
  have hcall : interpret env fuel m = _ := interpret_codeAt env fuel hcode
  have hspec := execCall_spec env fv hfv { m with m_programCounter := m.m_programCounter + 1 }
    funcId argc func args rest hI hargc (DxData.codeAt_tail hcode) hfunc hstack hlen
  rw [execOpcode, hspec] at hcall
  rw [hcall] at hframe
  have hex : interpret env fuel2 m2 = _ := interpret_codeAt env fuel2 hexit
  rw [execOpcode, execExit_frame env { m2 with m_programCounter := m2.m_programCounter + 1 }
    _ _ hstate hframe] at hex
  rw [hcall, hex]
  refine ⟨rfl, rfl, ?_, rfl, rfl, rfl, rfl⟩
  show m.m_programCounter + 1 + 8 = m.m_programCounter + 9
  omega

theorem execChoiceadd_spec (env : Env) (m : DxInterpreter) (rel : Int) (v w : DxValue)
    (rest : List DxValue) (chance : DxDouble) (text : DxStr) (shown : Bool)
    (hI : IsI32 rel) (hcode : m.m_data.codeAt m.m_programCounter (encodeI32 rel))
    (hstart : m.m_startingChoice = true) (hstack : m.m_stack = v :: w :: rest)
    (hv : v.safeGetDouble env.fp = .ok chance) (hw : w.safeGetString env.fp = .ok text)
    (hchance : env.host.chance m.hostCalls chance = .ok shown) :
    execChoiceadd env m = (.ok (), { m with
      m_programCounter := m.m_programCounter + 4,
      m_stack := rest,
      m_choiceOptions :=
        if shown then m.m_choiceOptions ++ [⟨wrapI32 (m.m_programCounter + 4 + rel), text⟩]
        else m.m_choiceOptions,
      hostCalls := m.hostCalls ++ [.chance chance] }) := by
  have e1 := argI_codeAt hI hcode
  cases shown <;>
    simp [execChoiceadd, Exec.bind_eq, Exec.bind, Exec.get, dx_assert, hstart, Exec.pure, e1,
      pop, hstack, Exec.lift, hv, hw, Exec.host, hchance, Exec.modify, Exec.pure_eq]

theorem execChoiceaddt_spec (env : Env) (m : DxInterpreter) (rel : Int) (u v w : DxValue)
    (rest : List DxValue) (c : Int) (chance : DxDouble) (text : DxStr) (shown : Bool)
    (hI : IsI32 rel) (hcode : m.m_data.codeAt m.m_programCounter (encodeI32 rel))
    (hstart : m.m_startingChoice = true) (hstack : m.m_stack = u :: v :: w :: rest)
    (hu : u.safeGetInt env.fp = .ok c) (hc : c ≠ 0)
    (hv : v.safeGetDouble env.fp = .ok chance) (hw : w.safeGetString env.fp = .ok text)
    (hchance : env.host.chance m.hostCalls chance = .ok shown) :
    execChoiceaddt env m = (.ok (), { m with
      m_programCounter := m.m_programCounter + 4,
      m_stack := rest,
      m_choiceOptions :=
        if shown then m.m_choiceOptions ++ [⟨wrapI32 (m.m_programCounter + 4 + rel), text⟩]
        else m.m_choiceOptions,
      hostCalls := m.hostCalls ++ [.chance chance] }) := by
  have e1 := argI_codeAt hI hcode
  cases shown <;>
    simp [execChoiceaddt, Exec.bind_eq, Exec.bind, Exec.get, dx_assert, hstart, Exec.pure, e1,
      pop, hstack, Exec.lift, hu, hc, hv, hw, Exec.host, hchance, Exec.modify, Exec.pure_eq]

theorem execChoiceadd_appends (env : Env) (m : DxInterpreter) (rel : Int)
    (hI : IsI32 rel) (hcode : m.m_data.codeAt m.m_programCounter (encodeI32 rel)) :
    AppendsAtMost (wrapI32 (m.m_programCounter + 4 + rel)) m.m_choiceOptions
      (execChoiceadd env m).2.m_choiceOptions := by
  have e1 := argI_codeAt hI hcode
  unfold AppendsAtMost
  simp only [execChoiceadd, Exec.bind_eq, Exec.bind, Exec.get, dx_assert]
  cases hstart : m.m_startingChoice
  · left; simp [Exec.throw]
  · simp only [if_true, Exec.pure, e1, pop]
    cases hst : m.m_stack with
    | nil => left; rfl
    | cons v t =>
      simp only [Exec.lift]
      cases hv : v.safeGetDouble env.fp with
      | error e => left; rfl
      | ok chance =>
        cases t with
        | nil => left; rfl
        | cons w rest =>
          simp only []
          cases hw : w.safeGetString env.fp with
          | error e => left; rfl
          | ok text =>
            simp only [Exec.host]
            cases hch : env.host.chance m.hostCalls chance with
            | error e => left; rfl
            | ok shown =>
              cases shown
              · left; rfl
              · right; exact ⟨text, rfl⟩

theorem execChoiceaddt_appends (env : Env) (m : DxInterpreter) (rel : Int)
    (hI : IsI32 rel) (hcode : m.m_data.codeAt m.m_programCounter (encodeI32 rel)) :
    AppendsAtMost (wrapI32 (m.m_programCounter + 4 + rel)) m.m_choiceOptions
      (execChoiceaddt env m).2.m_choiceOptions := by
  have e1 := argI_codeAt hI hcode
  unfold AppendsAtMost
  simp only [execChoiceaddt, Exec.bind_eq, Exec.bind, Exec.get, dx_assert]
  cases hstart : m.m_startingChoice
  · left; simp [Exec.throw]
  · simp only [if_true, Exec.pure, e1, pop]
    cases hst : m.m_stack with
    | nil => left; rfl
    | cons u t =>
      simp only [Exec.lift]
      cases hu : u.safeGetInt env.fp with
      | error e => left; rfl
      | ok c =>
        cases t with
        | nil => left; rfl
        | cons v t2 =>
          simp only []
          cases hv : v.safeGetDouble env.fp with
          | error e => left; rfl
          | ok chance =>
            cases t2 with
            | nil => left; rfl
            | cons w rest =>
              simp only []
              cases hw : w.safeGetString env.fp with
              | error e => left; rfl
              | ok text =>
                by_cases hc : c = 0
                · left; simp [hc, Exec.pure_eq, Exec.pure]
                · simp only [ne_eq, hc, not_false_eq_true, decide_True, if_true, Exec.bind_eq,
                    Exec.bind, Exec.host]
                  cases hch : env.host.chance m.hostCalls chance with
                  | error e => left; rfl
                  | ok shown =>
                    cases shown
                    · left; rfl
                    · right; exact ⟨text, rfl⟩

theorem dispatchLoop_stop (env : Env) (s : State) (fuel : Nat) (m : DxInterpreter)
    (h : m.m_state ≠ s) : dispatchLoop env s fuel m = (.ok (), m) := by
  cases fuel <;> simp [dispatchLoop, h]

theorem execChoicesel_spec (env : Env) (m : DxInterpreter)
    (hstart : m.m_startingChoice = true) (hne : m.m_choiceOptions ≠ []) :
    execChoicesel env m
      = (env.host.choice m.hostCalls (m.m_choiceOptions.map (fun c => c.text)),
          { m with
            m_startingChoice := false, m_state := .InChoice,
            hostCalls := m.hostCalls ++ [.choice (m.m_choiceOptions.map (fun c => c.text))] }) := by
  have hemp : m.m_choiceOptions.isEmpty = false := by
    cases h : m.m_choiceOptions with
    | nil => exact absurd h hne
    | cons a t => rfl
  simp only [execChoicesel, Exec.bind_eq, Exec.bind, Exec.get, dx_assert, hstart, hemp,
    Bool.not_false, if_true, Exec.pure, Exec.modify, Exec.host]

/-- C2. When `choicesel` executes (the image holds it at the program counter) with
`starting_choice` set and a non-empty pending choice list: the step clears
`starting_choice`, sets the state to `InChoice`, and makes exactly one host call, the
choice callback on the texts of the pending choices in list order (its outcome is the
outcome of the step); the dispatch loop then stops and `resume_scene` runs no opcode.
The list order is the order of insertion: every `choiceadd`/`choiceaddt` leaves the pending
list as it was or with one entry added at its end. -/
theorem choicesel_presents_pending_choices (env : Env) (fuel : Nat) (m : DxInterpreter)
    (hcode : m.m_data.codeAt m.m_programCounter (enc0 .choicesel))
    (hstart : m.m_startingChoice = true) (hne : m.m_choiceOptions ≠ []) :
    interpret env fuel m
      = (env.host.choice m.hostCalls (m.m_choiceOptions.map (fun c => c.text)),
          { m with
            m_programCounter := m.m_programCounter + 1,
            m_startingChoice := false, m_state := .InChoice,
            hostCalls := m.hostCalls ++ [.choice (m.m_choiceOptions.map (fun c => c.text))] }) ∧
    (m.m_choiceOptions.map (fun c => c.text)).length = m.m_choiceOptions.length ∧
    (∀ fuel2, dispatchLoop env .Running fuel2 (interpret env fuel m).2
        = (.ok (), (interpret env fuel m).2)) ∧
    (∀ fuel2, resumeScene env fuel2 (interpret env fuel m).2
        = (.ok (), (interpret env fuel m).2)) ∧
    (∀ (m0 : DxInterpreter) (rel : Int) (op : DxOpcode), op = .choiceadd ∨ op = .choiceaddt →
      IsI32 rel → m0.m_data.codeAt m0.m_programCounter (enc1 op rel) →
      (interpret env fuel m0).2.m_choiceOptions = m0.m_choiceOptions ∨
      ∃ e, (interpret env fuel m0).2.m_choiceOptions = m0.m_choiceOptions ++ [e]) := by
  have hstep : interpret env fuel m = _ := interpret_codeAt env fuel hcode
  rw [execOpcode, execChoicesel_spec env { m with m_programCounter := m.m_programCounter + 1 }
    hstart hne] at hstep
  have hst : (interpret env fuel m).2.m_state = .InChoice := by rw [hstep]
  refine ⟨hstep, by simp, ?_, ?_, ?_⟩
  · intro fuel2
    exact dispatchLoop_stop env .Running fuel2 _ (by rw [hst]; decide)
  · intro fuel2
    have hloop := dispatchLoop_stop env .Running fuel2 (interpret env fuel m).2
      (by rw [hst]; decide)
    simp only [resumeScene, Exec.bind_eq, Exec.bind, Exec.modify, hst]
    simpa using hloop
  · intro m0 rel op hop hI hc0
    have hs0 : interpret env fuel m0 = _ := interpret_codeAt env fuel hc0
    have htail := DxData.codeAt_tail hc0
    rcases hop with rfl | rfl
    · rw [hs0, execOpcode]
      rcases execChoiceadd_appends env { m0 with m_programCounter := m0.m_programCounter + 1 }
        rel hI htail with h | ⟨t, h⟩
      · exact Or.inl h
      · exact Or.inr ⟨_, h⟩
    · rw [hs0, execOpcode]
      rcases execChoiceaddt_appends env { m0 with m_programCounter := m0.m_programCounter + 1 }
        rel hI htail with h | ⟨t, h⟩
      · exact Or.inl h
      · exact Or.inr ⟨_, h⟩

theorem vectorIndex_of_lt {α : Type} (v : List α) (idx : Int) (h0 : 0 ≤ idx) (hI : IsI32 idx)
    (hlt : idx < v.length) : ∃ a, v.get? idx.toNat = some a ∧ vectorIndex v idx = .ok a := by
  have hl : idx.toNat < v.length := by omega
  refine ⟨v.get ⟨idx.toNat, hl⟩, List.get?_eq_get hl, ?_⟩
  simp only [vectorIndex, toSizeT_of_nonneg h0 hI, List.get?_eq_get hl]

/-- C3. In state `InChoice`, for every `idx` with `0 <= idx <` number of pending choices,
`select_choice(idx)` is the dispatch loop started in state `Running` with
`program_counter = pending_choices[idx].target_offset` and an empty pending list, so the
next opcode interpreted is the one at that address. The target of an entry is the address
of its `choiceadd`/`choiceaddt` plus 5 plus the `rel` immediate: a `choiceadd` (or a
`choiceaddt` with a true condition) at address `p` that returns normally appends, when the
chance callback says so, the entry `{p + 5 + rel, text}` and otherwise nothing. -/
theorem select_choice_jumps_to_target (env : Env) (fuel : Nat) (m : DxInterpreter) (idx : Int)
    (hstate : m.m_state = .InChoice) (h0 : 0 ≤ idx) (hI : IsI32 idx)
    (hlt : idx < m.m_choiceOptions.length) :
    (∃ entry, m.m_choiceOptions.get? idx.toNat = some entry ∧
      selectChoice env fuel idx m
        = dispatchLoop env .Running fuel { m with
            m_programCounter := entry.targetOffset, m_choiceOptions := [], m_state := .Running } ∧
      selectChoice env (fuel + 1) idx m
        = (Exec.bind (interpret env fuel) (fun _ => dispatchLoop env .Running fuel)) { m with
            m_programCounter := entry.targetOffset, m_choiceOptions := [], m_state := .Running }) ∧
    (∀ (m0 : DxInterpreter) (rel : Int) (v w : DxValue) (rest : List DxValue)
      (chance : DxDouble) (text : DxStr) (shown : Bool),
      IsI32 rel → IsI32 (m0.m_programCounter + 5 + rel) →
      m0.m_data.codeAt m0.m_programCounter (enc1 .choiceadd rel) →
      m0.m_startingChoice = true → m0.m_stack = v :: w :: rest →
      v.safeGetDouble env.fp = .ok chance → w.safeGetString env.fp = .ok text →
      env.host.chance m0.hostCalls chance = .ok shown →
      (interpret env fuel m0).1 = .ok () ∧
      (interpret env fuel m0).2.m_choiceOptions
        = if shown then m0.m_choiceOptions ++ [⟨m0.m_programCounter + 5 + rel, text⟩]
          else m0.m_choiceOptions) ∧
    (∀ (m0 : DxInterpreter) (rel : Int) (u v w : DxValue) (rest : List DxValue) (c : Int)
      (chance : DxDouble) (text : DxStr) (shown : Bool),
      IsI32 rel → IsI32 (m0.m_programCounter + 5 + rel) →
      m0.m_data.codeAt m0.m_programCounter (enc1 .choiceaddt rel) →
      m0.m_startingChoice = true → m0.m_stack = u :: v :: w :: rest →
      u.safeGetInt env.fp = .ok c → c ≠ 0 →
      v.safeGetDouble env.fp = .ok chance → w.safeGetString env.fp = .ok text →
      env.host.chance m0.hostCalls chance = .ok shown →
      (interpret env fuel m0).1 = .ok () ∧
      (interpret env fuel m0).2.m_choiceOptions
        = if shown then m0.m_choiceOptions ++ [⟨m0.m_programCounter + 5 + rel, text⟩]
          else m0.m_choiceOptions) := by
  refine ⟨?_, ?_, ?_⟩
  · obtain ⟨entry, hget, hidx⟩ := vectorIndex_of_lt m.m_choiceOptions idx h0 hI hlt
    have hsel : ∀ f, selectChoice env f idx m
        = dispatchLoop env .Running f { m with
            m_programCounter := entry.targetOffset, m_choiceOptions := [], m_state := .Running } := by
      intro f
      simp only [selectChoice, Exec.bind_eq, Exec.bind, assert_state, hstate, ne_eq,
        not_true_eq_false, if_false, Exec.get, Exec.lift, hidx, Exec.modify]
    refine ⟨entry, hget, hsel fuel, ?_⟩
    rw [hsel (fuel + 1)]
    simp only [dispatchLoop, if_true]
  · intro m0 rel v w rest chance text shown hI1 hI2 hc0 hstart hstack hv hw hch
    have hs0 : interpret env fuel m0 = _ := interpret_codeAt env fuel hc0
    rw [execOpcode, execChoiceadd_spec env { m0 with m_programCounter := m0.m_programCounter + 1 }
      rel v w rest chance text shown hI1 (DxData.codeAt_tail hc0) hstart hstack hv hw hch] at hs0
    have e : m0.m_programCounter + 1 + 4 + rel = m0.m_programCounter + 5 + rel := by omega
    rw [hs0]
    simp only [e, wrapI32_of_isI32 hI2, and_self]
  · intro m0 rel u v w rest c chance text shown hI1 hI2 hc0 hstart hstack hu hc hv hw hch
    have hs0 : interpret env fuel m0 = _ := interpret_codeAt env fuel hc0
    rw [execOpcode, execChoiceaddt_spec env { m0 with m_programCounter := m0.m_programCounter + 1 }
      rel u v w rest c chance text shown hI1 (DxData.codeAt_tail hc0) hstart hstack hu hc hv hw
      hch] at hs0
    have e : m0.m_programCounter + 1 + 4 + rel = m0.m_programCounter + 5 + rel := by omega
    rw [hs0]
    simp only [e, wrapI32_of_isI32 hI2, and_self]

theorem execCallext_unregistered (env : Env) (m : DxInterpreter) (nameIdx argc : Int)
    (name : DxStr) (args rest : List DxValue)
    (hI : IsI32 nameIdx) (hargc : IsI32 argc)
    (hcode : m.m_data.codeAt m.m_programCounter (encodeI32 nameIdx ++ encodeI32 argc))
    (hname : m.m_data.string nameIdx = .ok name)
    (hstack : m.m_stack = args ++ rest) (hlen : (args.length : Int) = argc)
    (hreg : env.host.functionHandlers name = none) :
    execCallext env m =
      match env.host.unregisteredFunction m.hostCalls name with
      | .ok _ => (.ok (), { m with
          m_programCounter := m.m_programCounter + 8,
          m_stack := DxValue.undefined :: rest,
          hostCalls := m.hostCalls ++ [.unregisteredFunction name] })
      | .error e => (.error e, { m with
          m_programCounter := m.m_programCounter + 8,
          m_stack := rest,
          hostCalls := m.hostCalls ++ [.unregisteredFunction name] }) := by
  have e1 := argII_codeAt hI hargc hcode
  subst hlen
  have e2 : vectorOfCount (args.length : Int) = Exec.pure args.length := by
    simp [vectorOfCount]
  have e3 := popN_append args rest { m with m_programCounter := m.m_programCounter + 8 } hstack
  simp only [execCallext, Exec.bind_eq, Exec.bind, e1, Exec.get, Exec.lift, hname, e2, Exec.pure,
    e3, hreg, Exec.host, push, Exec.modify]
  cases env.host.unregisteredFunction m.hostCalls name <;> rfl

theorem execCallext_registered_outcome (env : Env) (m : DxInterpreter) (nameIdx argc : Int)
    (name : DxStr) (args rest : List DxValue)
    (handler : List HostCall → List DxValue → Except DxError DxValue)
    (hI : IsI32 nameIdx) (hargc : IsI32 argc)
    (hcode : m.m_data.codeAt m.m_programCounter (encodeI32 nameIdx ++ encodeI32 argc))
    (hname : m.m_data.string nameIdx = .ok name)
    (hstack : m.m_stack = args ++ rest) (hlen : (args.length : Int) = argc)
    (hreg : env.host.functionHandlers name = some handler) :
    execCallext env m =
      match handler m.hostCalls args with
      | .ok r => (.ok (), { m with
          m_programCounter := m.m_programCounter + 8,
          m_stack := r :: rest,
          hostCalls := m.hostCalls ++ [.function name args] })
      | .error e => (.error e, { m with
          m_programCounter := m.m_programCounter + 8,
          m_stack := rest,
          hostCalls := m.hostCalls ++ [.function name args] }) := by
  have e1 := argII_codeAt hI hargc hcode
  subst hlen
  have e2 : vectorOfCount (args.length : Int) = Exec.pure args.length := by
    simp [vectorOfCount]
  have e3 := popN_append args rest { m with m_programCounter := m.m_programCounter + 8 } hstack
  simp only [execCallext, Exec.bind_eq, Exec.bind, e1, Exec.get, Exec.lift, hname, e2, Exec.pure,
    e3, hreg, Exec.host, push, Exec.modify]
  cases handler m.hostCalls args <;> rfl

/-- C4. Let the image hold `callext nameIdx argc` at the program counter `p`, with
`strings[nameIdx] = name`, and let the operand stack be `args ++ rest` with `argc` values in
`args` (`args[0]` is the top of the stack). If `name` is registered, the step invokes that
handler once on `args` and, when it returns `r`, leaves the stack `r :: rest`; otherwise
it invokes the unregistered-function fallback once with `name` and, when that returns,
leaves `Undefined :: rest`. In both cases a step that returns has changed the depth of the
stack by `1 - argc`. -/
theorem callext_pops_args_pushes_result (env : Env) (fuel : Nat) (m : DxInterpreter)
    (nameIdx argc : Int) (name : DxStr) (args rest : List DxValue)
    (hI : IsI32 nameIdx) (hargc : IsI32 argc)
    (hcode : m.m_data.codeAt m.m_programCounter (enc2 .callext nameIdx argc))
    (hname : m.m_data.string nameIdx = .ok name)
    (hstack : m.m_stack = args ++ rest) (hlen : (args.length : Int) = argc) :
    (∀ handler, env.host.functionHandlers name = some handler →
      interpret env fuel m =
        match handler m.hostCalls args with
        | .ok r => (.ok (), { m with
            m_programCounter := m.m_programCounter + 9,
            m_stack := r :: rest,
            hostCalls := m.hostCalls ++ [.function name args] })
        | .error e => (.error e, { m with
            m_programCounter := m.m_programCounter + 9,
            m_stack := rest,
            hostCalls := m.hostCalls ++ [.function name args] })) ∧
    (env.host.functionHandlers name = none →
      interpret env fuel m =
        match env.host.unregisteredFunction m.hostCalls name with
        | .ok _ => (.ok (), { m with
            m_programCounter := m.m_programCounter + 9,
            m_stack := DxValue.undefined :: rest,
            hostCalls := m.hostCalls ++ [.unregisteredFunction name] })
        | .error e => (.error e, { m with
            m_programCounter := m.m_programCounter + 9,
            m_stack := rest,
            hostCalls := m.hostCalls ++ [.unregisteredFunction name] })) ∧
    ((interpret env fuel m).1 = .ok () →
      ((interpret env fuel m).2.m_stack.length : Int) = m.m_stack.length + 1 - argc) := by
  have hstep : interpret env fuel m = _ := interpret_codeAt env fuel hcode
  rw [execOpcode] at hstep
  have htail := DxData.codeAt_tail hcode
  have e9 : m.m_programCounter + 1 + 8 = m.m_programCounter + 9 := by omega
  have hreg : ∀ handler, env.host.functionHandlers name = some handler → interpret env fuel m = _ :=
    fun handler hh => by
      rw [hstep, execCallext_registered_outcome env
        { m with m_programCounter := m.m_programCounter + 1 } nameIdx argc name args rest handler
        hI hargc htail hname hstack hlen hh]
  have hunreg : env.host.functionHandlers name = none → interpret env fuel m = _ :=
    fun hh => by
      rw [hstep, execCallext_unregistered env
        { m with m_programCounter := m.m_programCounter + 1 } nameIdx argc name args rest
        hI hargc htail hname hstack hlen hh]
  simp only [e9] at hreg hunreg
  refine ⟨hreg, hunreg, ?_⟩
  have hlen2 : (m.m_stack.length : Int) = argc + rest.length := by
    rw [hstack, List.length_append, ← hlen]; push_cast; ring
  cases hh : env.host.functionHandlers name with
  | some handler =>
    rw [hreg handler hh]
    cases handler m.hostCalls args with
    | ok r => intro _; simp only [List.length_cons]; push_cast; omega
    | error e => intro h; cases h
  | none =>
    rw [hunreg hh]
    cases env.host.unregisteredFunction m.hostCalls name with
    | ok r => intro _; simp only [List.length_cons]; push_cast; omega
    | error e => intro h; cases h

theorem safeGetString_string (fp : FloatOps) (s : DxStr) :
    DxValue.safeGetString fp (DxValue.make (some (.string s)) .String) = .ok s := by
  simp [DxValue.safeGetString, DxValue.convert, DxValue.make, DxValue.type, Except.bind,
    DxValue.getString, DxValue.m_value]

theorem execPushbs_spec (m : DxInterpreter) (idx : Int) (s : DxStr) (hI : IsI32 idx)
    (hcode : m.m_data.codeAt m.m_programCounter (encodeI32 idx))
    (hstr : m.m_data.string idx = .ok s) :
    execPushs false m = (.ok (), { m with
      m_programCounter := m.m_programCounter + 4,
      m_stack := DxValue.make (some (.string s)) .String :: m.m_stack }) := by
  have e1 := argI_codeAt hI hcode
  simp [execPushs, Exec.bind_eq, Exec.bind, e1, Exec.get, Exec.lift, hstr, push, Exec.modify]

theorem execTextrun_spec (env : Env) (m : DxInterpreter) (v : DxValue) (rest : List DxValue)
    (text : DxStr) (hstate : m.m_state = .Running) (hstack : m.m_stack = v :: rest)
    (hv : v.safeGetString env.fp = .ok text) :
    execTextrun env m = (env.host.text m.hostCalls text, { m with
      m_state := .InText, m_stack := rest, hostCalls := m.hostCalls ++ [.text text] }) := by
  simp only [execTextrun, Exec.bind_eq, Exec.bind, assert_state, hstate, ne_eq, not_true_eq_false,
    if_false, Exec.modify, pop, hstack, Exec.lift, hv, Exec.host]

theorem endScene_spec (env : Env) (m : DxInterpreter) (scene : DxScene)
    (hscene : m.m_currentScene = some scene) :
    endScene env m = (env.host.endScene m.hostCalls scene.name, { m with
      m_state := .Inactive, m_currentScene := none, m_stack := [], m_callStack := [],
      m_locals := [], m_choiceOptions := [], m_chooseOptions := [], m_saveRegister := none,
      hostCalls := m.hostCalls ++ [.endScene scene.name] }) := by
  simp only [endScene, Exec.bind_eq, Exec.bind, Exec.modify, Exec.get, hscene, clearVMState,
    Exec.host]

theorem execExit_ends_scene (env : Env) (m : DxInterpreter) (hs : m.m_state ≠ .Eval)
    (hc : m.m_callStack = []) : execExit env m = endScene env m := by
  simp only [execExit, Exec.bind_eq, Exec.bind, Exec.get, hs, if_false, hc]

theorem dispatchLoop_step (env : Env) (s : State) (fuel : Nat) (m : DxInterpreter)
    (h : m.m_state = s) :
    dispatchLoop env s (fuel + 1) m
      = Exec.bind (interpret env fuel) (fun _ => dispatchLoop env s fuel) m := by
  simp only [dispatchLoop, h, if_true]

/-- C1. For every interpreter state `st` whose image has a scene `name` without flags whose
code is `pushbs 0; textrun; exit`, with `s = strings[0]`, and a host whose text callback
and end-scene callback return: `run_scene(name)` returns in state `InText` having made one
host call, the text callback with `s`; the following `resume_scene` returns in state
`Inactive` having made one more host call, the end-scene callback with the name of the
scene. -/
theorem minimal_scene_text_then_end (env : Env) (fuel1 fuel2 : Nat) (st : DxInterpreter)
    (name : DxStr) (scene : DxScene) (s : DxStr)
    (hscene : st.m_data.scene name = .ok scene)
    (hflags : scene.flagNames = [])
    (hcode : st.m_data.codeAt scene.codeOffset (enc1 .pushbs 0 ++ enc0 .textrun ++ enc0 .exit))
    (hstr : st.m_data.string 0 = .ok s)
    (htext : env.host.text st.hostCalls s = .ok ())
    (hend : env.host.endScene (st.hostCalls ++ [.text s]) scene.name = .ok ())
    (hf1 : 2 ≤ fuel1) (hf2 : 1 ≤ fuel2) :
    (runScene env fuel1 name st).1 = .ok () ∧
    (runScene env fuel1 name st).2.m_state = .InText ∧
    (runScene env fuel1 name st).2.hostCalls = st.hostCalls ++ [.text s] ∧
    (resumeScene env fuel2 (runScene env fuel1 name st).2).1 = .ok () ∧
    (resumeScene env fuel2 (runScene env fuel1 name st).2).2.m_state = .Inactive ∧
    (resumeScene env fuel2 (runScene env fuel1 name st).2).2.hostCalls
      = st.hostCalls ++ [.text s, .endScene scene.name] := by
  obtain ⟨f1, rfl⟩ : ∃ f, fuel1 = f + 2 := ⟨fuel1 - 2, by omega⟩
  obtain ⟨f2, rfl⟩ : ∃ f, fuel2 = f + 1 := ⟨fuel2 - 1, by omega⟩
  -- the three instructions
  obtain ⟨hc12, hc3⟩ := DxData.codeAt_append hcode
  obtain ⟨hc1, hc2⟩ := DxData.codeAt_append hc12
  have hoff : scene.codeOffset ≠ -1 := by
    have := hcode.1
    omega
  simp only [enc1, enc0, List.length_cons, encodeI32_length, List.length_append,
    List.length_singleton, List.length_nil] at hc2 hc3
  -- the state in which the dispatch loop starts
  let m0 : DxInterpreter := { st with
    m_currentScene := some scene, m_programCounter := scene.codeOffset, m_state := .Running,
    m_stack := [], m_callStack := [], m_locals := [], m_choiceOptions := [],
    m_chooseOptions := [], m_saveRegister := none }
  have hrun : runScene env (f1 + 2) name st = dispatchLoop env .Running (f1 + 2) m0 := by
    simp only [runScene, Exec.bind_eq, Exec.bind, Exec.get, Exec.lift, hscene, Exec.modify, hoff,
      if_false, clearVMState, hflags, loadFlags, Exec.pure, m0]
  -- step 1: pushbs 0
  let m1 : DxInterpreter := { m0 with
    m_programCounter := scene.codeOffset + 1 + 4,
    m_stack := [DxValue.make (some (.string s)) .String] }
  have hs1 : interpret env (f1 + 1) m0 = (.ok (), m1) := by
    have h := interpret_codeAt env (f1 + 1) (m := m0) (o := .pushbs) hc1
    rw [execOpcode, execPushbs_spec { m0 with m_programCounter := m0.m_programCounter + 1 } 0 s
      (by decide) (DxData.codeAt_tail hc1) hstr] at h
    exact h
  -- step 2: textrun
  let m2 : DxInterpreter := { m1 with
    m_programCounter := scene.codeOffset + 1 + 4 + 1, m_state := .InText, m_stack := [],
    hostCalls := st.hostCalls ++ [.text s] }
  have hs2 : interpret env f1 m1 = (.ok (), m2) := by
    have hc : m1.m_data.codeAt m1.m_programCounter (DxOpcode.textrun.toByte :: []) := by
      have e : scene.codeOffset + 1 + 4 = scene.codeOffset + ((0 + 1 + 1 + 1 + 1 + 1 : Nat) : Int) := by
        push_cast; omega
      show st.m_data.codeAt (scene.codeOffset + 1 + 4) _
      rw [e]; exact hc2
    have h := interpret_codeAt env f1 (m := m1) (o := .textrun) hc
    rw [execOpcode, execTextrun_spec env { m1 with m_programCounter := m1.m_programCounter + 1 }
      _ [] s rfl rfl (safeGetString_string env.fp s)] at h
    rw [h]
    show (env.host.text st.hostCalls s, _) = _
    rw [htext]
  have hloop1 : dispatchLoop env .Running (f1 + 2) m0 = (.ok (), m2) := by
    have hrunning0 : m0.m_state = .Running := rfl
    have hrunning1 : m1.m_state = .Running := rfl
    have hstop : dispatchLoop env .Running f1 m2 = (.ok (), m2) :=
      dispatchLoop_stop env .Running f1 m2 (by show State.InText ≠ State.Running; decide)
    rw [dispatchLoop_step env .Running (f1 + 1) m0 hrunning0, Exec.bind, hs1]
    simp only []
    rw [dispatchLoop_step env .Running f1 m1 hrunning1, Exec.bind, hs2]
    exact hstop
  -- resume: exit
  let m3 : DxInterpreter := { m2 with m_state := .Running }
  let m4 : DxInterpreter := { m3 with
    m_programCounter := scene.codeOffset + 1 + 4 + 1 + 1,
    m_state := .Inactive, m_currentScene := none, m_stack := [], m_callStack := [],
    m_locals := [], m_choiceOptions := [], m_chooseOptions := [], m_saveRegister := none,
    hostCalls := st.hostCalls ++ [.text s] ++ [.endScene scene.name] }
  have hs3 : interpret env f2 m3 = (.ok (), m4) := by
    have hc : m3.m_data.codeAt m3.m_programCounter (DxOpcode.exit.toByte :: []) := by
      have e : scene.codeOffset + 1 + 4 + 1
          = scene.codeOffset + ((0 + 1 + 1 + 1 + 1 + 1 + 1 : Nat) : Int) := by
        push_cast; omega
      show st.m_data.codeAt (scene.codeOffset + 1 + 4 + 1) _
      rw [e]; exact hc3
    have h := interpret_codeAt env f2 (m := m3) (o := .exit) hc
    rw [execOpcode, execExit_ends_scene env _ (by show State.Running ≠ State.Eval; decide) rfl,
      endScene_spec env { m3 with m_programCounter := m3.m_programCounter + 1 } scene rfl] at h
    rw [h]
    show (env.host.endScene (st.hostCalls ++ [.text s]) scene.name, _) = _
    rw [hend]
  have hres : resumeScene env (f2 + 1) m2 = (.ok (), m4) := by
    have hmod : resumeScene env (f2 + 1) m2 = dispatchLoop env .Running (f2 + 1) m3 := by
      simp only [resumeScene, Exec.bind_eq, Exec.bind, Exec.modify]
      rfl
    have hstop : dispatchLoop env .Running f2 m4 = (.ok (), m4) :=
      dispatchLoop_stop env .Running f2 m4 (by show State.Inactive ≠ State.Running; decide)
    rw [hmod, dispatchLoop_step env .Running f2 m3 rfl, Exec.bind, hs3]
    exact hstop
  rw [hrun, hloop1, hres]
  refine ⟨rfl, rfl, rfl, rfl, rfl, ?_⟩
  show st.hostCalls ++ [.text s] ++ [.endScene scene.name] = _
  simp

/-- Witness of C1: seed scenario 1 on a fresh interpreter, strings = [`Hello`]. -/
theorem minimal_scene_text_then_end_witness :
    (runScene sampleEnv 2 "intro".toList (DxInterpreter.fresh helloImage)).1 = .ok () ∧
    (runScene sampleEnv 2 "intro".toList (DxInterpreter.fresh helloImage)).2.m_state = .InText ∧
    (runScene sampleEnv 2 "intro".toList (DxInterpreter.fresh helloImage)).2.hostCalls
      = [] ++ [.text "Hello".toList] ∧
    (resumeScene sampleEnv 1
      (runScene sampleEnv 2 "intro".toList (DxInterpreter.fresh helloImage)).2).1 = .ok () ∧
    (resumeScene sampleEnv 1
      (runScene sampleEnv 2 "intro".toList (DxInterpreter.fresh helloImage)).2).2.m_state
      = .Inactive ∧
    (resumeScene sampleEnv 1
      (runScene sampleEnv 2 "intro".toList (DxInterpreter.fresh helloImage)).2).2.hostCalls
      = [] ++ [.text "Hello".toList, .endScene "intro".toList] :=
  minimal_scene_text_then_end sampleEnv 2 1 (DxInterpreter.fresh helloImage) "intro".toList
    ⟨"intro".toList, 0, [], []⟩ "Hello".toList (by decide) (by decide) (by decide) (by decide)
    (by decide) (by decide) (by decide) (by decide)

/-- Witness of C2: `choicesel` with the pending choices `Yes` and `No`. -/
theorem choicesel_presents_pending_choices_witness :
    (interpret sampleEnv 1 choiceselState).2.m_state = .InChoice ∧
    (interpret sampleEnv 1 choiceselState).2.m_startingChoice = false ∧
    (interpret sampleEnv 1 choiceselState).2.hostCalls
      = [.choice ["Yes".toList, "No".toList]] := by
  have h := (choicesel_presents_pending_choices sampleEnv 1 choiceselState (by decide) (by decide)
    (by decide)).1
  rw [h]
  exact ⟨rfl, rfl, rfl⟩

/-- Witness of C3: selecting choice 1 of `Yes` (target 20) and `No` (target 30); a
`choiceadd 7` and a `choiceaddt 7` at address 0 append the target `0 + 5 + 7`. -/
theorem select_choice_jumps_to_target_witness :
    (∃ entry, inChoiceState.m_choiceOptions.get? (1 : Int).toNat = some entry ∧
      selectChoice sampleEnv 3 1 inChoiceState
        = dispatchLoop sampleEnv .Running 3 { inChoiceState with
            m_programCounter := entry.targetOffset, m_choiceOptions := [], m_state := .Running } ∧
      selectChoice sampleEnv (3 + 1) 1 inChoiceState
        = (Exec.bind (interpret sampleEnv 3) (fun _ => dispatchLoop sampleEnv .Running 3))
          { inChoiceState with
            m_programCounter := entry.targetOffset, m_choiceOptions := [], m_state := .Running }) ∧
    ((interpret sampleEnv 3 choiceaddState).1 = .ok () ∧
      (interpret sampleEnv 3 choiceaddState).2.m_choiceOptions
        = if true then choiceaddState.m_choiceOptions
            ++ [⟨choiceaddState.m_programCounter + 5 + 7, "Yes".toList⟩]
          else choiceaddState.m_choiceOptions) ∧
    ((interpret sampleEnv 3 choiceaddtState).1 = .ok () ∧
      (interpret sampleEnv 3 choiceaddtState).2.m_choiceOptions
        = if true then choiceaddtState.m_choiceOptions
            ++ [⟨choiceaddtState.m_programCounter + 5 + 7, "No".toList⟩]
          else choiceaddtState.m_choiceOptions) :=
  have h := select_choice_jumps_to_target sampleEnv 3 inChoiceState 1 (by decide) (by decide)
    (by decide) (by decide)
  ⟨h.1,
    h.2.1 choiceaddState 7 (DxValue.ofDoubleBits 0x3FF0000000000000)
      (DxValue.ofString "Yes".toList) [] ⟨0x3FF0000000000000⟩ "Yes".toList true
      (by decide) (by decide) (by decide) rfl rfl (by decide) (by decide) rfl,
    h.2.2 choiceaddtState 7 (DxValue.ofInt 1) (DxValue.ofDoubleBits 0x3FF0000000000000)
      (DxValue.ofString "No".toList) [] 1 ⟨0x3FF0000000000000⟩ "No".toList true
      (by decide) (by decide) (by decide) rfl rfl (by decide) (by decide) (by decide) (by decide)
      rfl⟩

/-- Witness of C4: `callext getPlayerName 2` on the stack `[1, 2, 3]` (top first) calls the
registered handler on `[1, 2]`, leaves its result `Player` on top of `3`, and so leaves a
stack of depth `3 + 1 - 2`. -/
theorem callext_pops_args_pushes_result_witness :
    (interpret sampleEnv 1 (runningAt callextImage 0
        [DxValue.ofInt 1, DxValue.ofInt 2, DxValue.ofInt 3])).2.m_stack
      = [DxValue.ofString "Player".toList, DxValue.ofInt 3] ∧
    (interpret sampleEnv 1 (runningAt callextImage 0
        [DxValue.ofInt 1, DxValue.ofInt 2, DxValue.ofInt 3])).2.hostCalls
      = [.function "getPlayerName".toList [DxValue.ofInt 1, DxValue.ofInt 2]] ∧
    (((interpret sampleEnv 1 (runningAt callextImage 0
        [DxValue.ofInt 1, DxValue.ofInt 2, DxValue.ofInt 3])).2.m_stack.length : Nat) : Int)
      = ((runningAt callextImage 0
          [DxValue.ofInt 1, DxValue.ofInt 2, DxValue.ofInt 3]).m_stack.length : Nat) + 1 - 2 := by
  have h := callext_pops_args_pushes_result sampleEnv 1
    (runningAt callextImage 0 [DxValue.ofInt 1, DxValue.ofInt 2, DxValue.ofInt 3]) 0 2
    "getPlayerName".toList [DxValue.ofInt 1, DxValue.ofInt 2] [DxValue.ofInt 3]
    (by decide) (by decide) (by decide) (by decide) rfl (by decide)
  have h1 := h.1 (fun _ _ => .ok (DxValue.make (some (.string "Player".toList)) .String)) rfl
  refine ⟨?_, ?_, h.2.2 (by decide!)⟩
  · rw [h1]; rfl
  · rw [h1]; rfl

/-- C9 (code at the failing input). Run `call 0 0` and the body `pushi 5; ret` of function
0 from address 0: the frame of the call holds `return_offset = 9` and `flag_count = 0`,
but after `ret` the program counter is 16, the address after the `ret`, and `flag_count`
is still the 1 of the function. With `exit` in place of `ret` both are restored (9, 0). -/
theorem ret_keeps_program_counter_and_flag_count :
    (stepN sampleEnv 2 (runningAt callRetImage 0 [])).m_callStack.map
      (fun f => (f.returnOffset, f.flagCount)) = [(9, 0)] ∧
    (stepN sampleEnv 3 (runningAt callRetImage 0 [])).m_programCounter = 16 ∧
    (stepN sampleEnv 3 (runningAt callRetImage 0 [])).m_flagCount = 1 ∧
    (stepN sampleEnv 3 (runningAt callExitTwinImage 0 [])).m_programCounter = 9 ∧
    (stepN sampleEnv 3 (runningAt callExitTwinImage 0 [])).m_flagCount = 0 := by
  decide!

/-- C10 (counterexample). In state `Eval`, `call 0 1` at address 0 followed by the `exit`
of the called function (frame of the call on top) does not return to the caller: the state
becomes `Inactive`, the program counter is 11 instead of `0 + 9`, the frame stays on the
call stack and no `Undefined` is pushed. -/
theorem call_then_exit_in_eval_does_not_return :
    (stepN sampleEnv 1
      { runningAt callExitImage 0 [DxValue.ofInt 7, DxValue.ofInt 8] with m_state := .Eval }
      ).m_callStack.length = 1 ∧
    (stepN sampleEnv 2
      { runningAt callExitImage 0 [DxValue.ofInt 7, DxValue.ofInt 8] with m_state := .Eval }
      ).m_state = .Inactive ∧
    (stepN sampleEnv 2
      { runningAt callExitImage 0 [DxValue.ofInt 7, DxValue.ofInt 8] with m_state := .Eval }
      ).m_programCounter ≠ 0 + 9 ∧
    (stepN sampleEnv 2
      { runningAt callExitImage 0 [DxValue.ofInt 7, DxValue.ofInt 8] with m_state := .Eval }
      ).m_callStack.length = 1 ∧
    (stepN sampleEnv 2
      { runningAt callExitImage 0 [DxValue.ofInt 7, DxValue.ofInt 8] with m_state := .Eval }
      ).m_stack.length = 0 := by
  decide!

/-- Witness of C10 (amended): `call 0 1` at address 0 on the stack `[7, 8]`, then the
`exit` that is the body of function 0. -/
theorem call_then_exit_restores_caller_witness :
    (interpret sampleEnv 1
      (interpret sampleEnv 1 (runningAt callExitImage 0 [DxValue.ofInt 7, DxValue.ofInt 8])).2
      ).2.m_programCounter = 0 + 9 ∧
    (interpret sampleEnv 1
      (interpret sampleEnv 1 (runningAt callExitImage 0 [DxValue.ofInt 7, DxValue.ofInt 8])).2
      ).2.m_stack = [DxValue.undefined, DxValue.ofInt 8] :=
  have h := call_then_exit_restores_caller sampleEnv 1 1
    (runningAt callExitImage 0 [DxValue.ofInt 7, DxValue.ofInt 8])
    (interpret sampleEnv 1 (runningAt callExitImage 0 [DxValue.ofInt 7, DxValue.ofInt 8])).2
    0 1 ⟨"f".toList, 10, [], []⟩ [DxValue.ofInt 7] [DxValue.ofInt 8]
    (by decide) (by decide) (by decide) (by decide) rfl (by decide)
    (fun _ _ => ⟨DxValue.undefined, rfl⟩) (by decide!) rfl (by decide!)
  ⟨h.2.2.1, h.2.2.2.1⟩

theorem expandAll_length (args : List DxStr) (segs : List Segment) :
    (expandAll args segs).length + placeholderChars segs
        = (renderAll segs).length + argumentChars args segs ∧
      placeholderChars segs ≤ (renderAll segs).length := by
  induction segs with
  | nil => simp [expandAll, renderAll, placeholderChars, argumentChars]
  | cons s t ih =>
    cases s with
    | lit c =>
      simp only [expandAll, renderAll, placeholderChars, argumentChars, Segment.expand,
        Segment.render, List.length_append, List.length_singleton]
      omega
    | placeholder ds =>
      simp only [expandAll, renderAll, placeholderChars, argumentChars, Segment.expand,
        Segment.render, List.length_append, List.length_cons, List.length_singleton,
        List.length_nil]
      omega

/-- C5. For every argument list `A` (of at most `2^31` strings, so that every index fits
the `int` that `std::stoi` returns) and every template `S` that has no backslash and in
which every dollar sign opens a placeholder `${N}`, `N` a non-empty string of decimal
digits denoting an index below `len(A)`: `interpolate(S, A)` returns `S` with every
placeholder replaced by `A[N]` and all other characters kept in order, and the length of
the result is `len(S)` minus the lengths of the placeholders plus the lengths of the
`A[N]`. -/
theorem interpolate_valid_placeholders (args : List DxStr) (segs : List Segment)
    (hargs : args.length ≤ 2147483648) (hvalid : ∀ s ∈ segs, s.Valid args) :
    interpolate (renderAll segs) args = .ok (expandAll args segs) ∧
    (expandAll args segs).length
      = (renderAll segs).length - placeholderChars segs + argumentChars args segs := by
  constructor
  · have h := interpolateLoop_segments args hargs segs hvalid [] []
      ((renderAll segs).length + 1) (by omega)
    simpa [interpolate] using h
  · have h := expandAll_length args segs
    omega

/-- Witness of C5: seed scenario 4, the template `Hello, ${0}! You have ${1} points.` with
the arguments `Player` and `3`. -/
theorem interpolate_valid_placeholders_witness :
    interpolate "Hello, $\x7b0\x7d! You have $\x7b1\x7d points.".toList
        ["Player".toList, "3".toList]
      = .ok "Hello, Player! You have 3 points.".toList :=
  (interpolate_valid_placeholders ["Player".toList, "3".toList] scenarioSegments
    (by decide) (by decide)).1

/-- C6 (code at the failing input). With one argument the placeholder `${1}` is out of
range; `interpolate` emits the dollar sign but resumes after the opening brace, so the
brace is lost: the result is `You have $1} points.`, not `You have ${1} points.`. -/
theorem interpolate_out_of_range_drops_brace :
    interpolate "You have $\x7b1\x7d points.".toList ["Player".toList]
        = .ok "You have $1\x7d points.".toList ∧
    interpolate "You have $\x7b1\x7d points.".toList ["Player".toList]
        ≠ .ok "You have $\x7b1\x7d points.".toList := by
  decide

/-- C7 (code at the failing inputs). On a template whose `${` is never closed, `a${0`
or `a${`, `interpolate` does not return: `str.at(pos)` throws `std::out_of_range` when
the scan for the closing brace reaches the end of the string. -/
theorem interpolate_unterminated_throws :
    interpolate "a$\x7b0".toList ["x".toList] = .error .outOfRange ∧
    interpolate "a$\x7b".toList ["x".toList] = .error .outOfRange := by
  decide

/-- C8 (code at the failing inputs). A backslash and the character after it are both
skipped, so neither reaches the output: `a\$b` gives `ab` and `\n` gives the empty
string, where the claim says `a$b` and `n`. -/
theorem interpolate_escape_drops_character :
    interpolate "a\\$b".toList [] = .ok "ab".toList ∧
    interpolate "\\n".toList [] = .ok [] := by
  decide

theorem get?_append_length {α : Type} (l r : List α) : (l ++ r).get? l.length = r.head? := by
  induction l with
  | nil => cases r <;> rfl
  | cons a t ih => simpa using ih

/-- C11. Let the image hold `call funcId argc` at the program counter, `F = functions[funcId]`
(with at most `2^31 - 1` flag names), the operand stack be `args ++ rest` with `argc` values in
`args` (top first), and the flag-get callback return. Then the step returns with
`program_counter = F.code_offset`, an empty operand stack, exactly one more frame on the
call stack, `flag_count = len(F.flag_names)` and
`locals = [flag-get(n) for n in F.flag_names] ++ args`, the flag-get calls being made in
order; so `len(locals) = flag_count + argc` and `locals[flag_count]` is `args[0]`, the former
top of the stack (when `argc > 0`). -/
theorem call_enters_function (env : Env) (fuel : Nat) (m : DxInterpreter)
    (fv : List HostCall → DxStr → DxValue) (funcId argc : Int) (func : DxFunction)
    (args rest : List DxValue)
    (hI : IsI32 funcId) (hargc : IsI32 argc)
    (hcode : m.m_data.codeAt m.m_programCounter (enc2 .call funcId argc))
    (hfunc : vectorIndex m.m_data.m_functions funcId = .ok func)
    (hsize : func.flagNames.length ≤ 2147483647)
    (hstack : m.m_stack = args ++ rest) (hlen : (args.length : Int) = argc)
    (hfv : ∀ h n, env.host.getFlag h n = .ok (fv h n)) :
    (interpret env fuel m).1 = .ok () ∧
    (interpret env fuel m).2.m_programCounter = func.codeOffset ∧
    (interpret env fuel m).2.m_stack = [] ∧
    (∃ frame, (interpret env fuel m).2.m_callStack = frame :: m.m_callStack) ∧
    (interpret env fuel m).2.m_flagCount = func.flagNames.length ∧
    (interpret env fuel m).2.m_locals = flagValues fv m.hostCalls func.flagNames ++ args ∧
    (interpret env fuel m).2.hostCalls = m.hostCalls ++ func.flagNames.map HostCall.getFlag ∧
    ((interpret env fuel m).2.m_locals.length : Int)
      = (interpret env fuel m).2.m_flagCount + argc ∧
    (interpret env fuel m).2.m_locals.get? func.flagNames.length = args.head? := by
  have hcall : interpret env fuel m = _ := interpret_codeAt env fuel hcode
  have hspec := execCall_spec env fv hfv { m with m_programCounter := m.m_programCounter + 1 }
    funcId argc func args rest hI hargc (DxData.codeAt_tail hcode) hfunc hstack hlen
  rw [execOpcode, hspec] at hcall
  have hfl : ∀ (h : List HostCall) (names : List DxStr),
      (flagValues fv h names).length = names.length := by
    intro h names
    induction names generalizing h with
    | nil => rfl
    | cons n t ih => simp [flagValues, ih]
  have hw : wrapI32 (func.flagNames.length : Int) = func.flagNames.length :=
    wrapI32_of_isI32 ⟨by omega, by omega⟩
  rw [hcall]
  refine ⟨rfl, rfl, rfl, ⟨_, rfl⟩, hw, rfl, rfl, ?_, ?_⟩
  · show (((flagValues fv m.hostCalls func.flagNames ++ args).length : Nat) : Int)
      = wrapI32 (func.flagNames.length : Int) + argc
    rw [hw, List.length_append, hfl, ← hlen]
    push_cast
    rfl
  · show (flagValues fv m.hostCalls func.flagNames ++ args).get? func.flagNames.length = _
    have e : func.flagNames.length = (flagValues fv m.hostCalls func.flagNames).length :=
      (hfl _ _).symm
    rw [e]
    exact get?_append_length _ args

theorem runScene_begins_dispatch (env : Env) (fuel : Nat) (st : DxInterpreter) (name : DxStr)
    (scene : DxScene) (fv : List HostCall → DxStr → DxValue)
    (hscene : st.m_data.scene name = .ok scene) (hoff : scene.codeOffset ≠ -1)
    (hfv : ∀ h n, env.host.getFlag h n = .ok (fv h n)) :
    runScene env fuel name st = dispatchLoop env .Running fuel { st with
      m_currentScene := some scene, m_programCounter := scene.codeOffset, m_state := .Running,
      m_stack := [], m_callStack := [], m_choiceOptions := [], m_chooseOptions := [],
      m_saveRegister := none,
      m_locals := flagValues fv st.hostCalls scene.flagNames,
      hostCalls := st.hostCalls ++ scene.flagNames.map HostCall.getFlag } := by
  simp only [runScene, Exec.bind_eq, Exec.bind, Exec.get, Exec.lift, hscene, Exec.modify, hoff,
    if_false, clearVMState, loadFlags_ok env fv hfv, List.nil_append]

/-- C12 (code at the failing input). The call `run_scene("main")` on a fresh interpreter, for
a scene with the one flag name `sceneFlag`, starts its dispatch loop in the state
`flaggedSceneEntry`: state `Running`, program counter at the code offset, empty operand and
call stacks, the one flag value in `locals` after one flag-get call, but `flag_count = 0`.
The function `runScene` never assigns `m_flagCount`, where the claim says
`flag_count = len(scene.flag_names) = 1`. -/
theorem run_scene_leaves_flag_count_unset :
    (∀ fuel, runScene sampleEnv fuel "main".toList (DxInterpreter.fresh flaggedSceneImage)
      = dispatchLoop sampleEnv .Running fuel flaggedSceneEntry) ∧
    flaggedSceneEntry.m_state = .Running ∧
    flaggedSceneEntry.m_programCounter = 0 ∧
    flaggedSceneEntry.m_stack.length = 0 ∧
    flaggedSceneEntry.m_callStack.length = 0 ∧
    flaggedSceneEntry.m_currentScene.map (fun s => s.flagNames) = some ["sceneFlag".toList] ∧
    flaggedSceneEntry.m_locals = [DxValue.undefined] ∧
    flaggedSceneEntry.hostCalls = [.getFlag "sceneFlag".toList] ∧
    flaggedSceneEntry.m_flagCount = 0 :=
  ⟨fun fuel => (runScene_begins_dispatch sampleEnv fuel (DxInterpreter.fresh flaggedSceneImage)
      "main".toList ⟨"main".toList, 0, [0, 0], ["sceneFlag".toList]⟩
      (fun _ _ => DxValue.undefined) (by decide) (by decide) (fun _ _ => rfl)).trans rfl,
    rfl, rfl, rfl, rfl, rfl, rfl, rfl, rfl⟩

/-- C13 (code at the failing inputs). In the function entered by `call 0 0`, whose local 0
was loaded from the flag `funcFlag`, `freeloc 0` invokes flag-set with the name `sceneFlag`
of the current scene, not `funcFlag`. In the scene itself, whose local 0 was loaded from
`sceneFlag`, `freeloc 0` does not invoke flag-set at all, because `flag_count` is 0. -/
theorem freeloc_writes_back_under_scene_name_or_not_at_all :
    setFlagNames
        (runScene sampleEnv 5 "main".toList (initialized functionFreelocImage)).2.hostCalls
      = ["sceneFlag".toList] ∧
    (runScene sampleEnv 5 "main".toList (initialized functionFreelocImage)).1 = .ok () ∧
    setFlagNames
        (runScene sampleEnv 5 "main".toList (initialized sceneFreelocImage)).2.hostCalls = [] ∧
    (runScene sampleEnv 5 "main".toList (initialized sceneFreelocImage)).1 = .ok () := by
  decide!

/-- The locals `L` after `setvarloc id` stored `v`: padded with Undefined up to `id` when
`id` is beyond the end. -/
theorem setLocal_facts (L : List DxValue) (n : Nat) (v : DxValue) :
    let L1 := if L.length ≤ n then L ++ List.replicate (n - L.length) DxValue.undefined ++ [v]
      else L.set n v
    L1.length = max L.length (n + 1) ∧
    L1.get? n = some v ∧
    (∀ j, j < L.length → j ≠ n → L1.get? j = L.get? j) ∧
    (∀ j, L.length ≤ j → j < n → L1.get? j = some DxValue.undefined) := by
  intro L1
  by_cases h : L.length ≤ n
  · have hL1 : L1 = L ++ List.replicate (n - L.length) DxValue.undefined ++ [v] := if_pos h
    rw [hL1]
    refine ⟨?_, ?_, ?_, ?_⟩
    · simp only [List.length_append, List.length_replicate, List.length_singleton]
      omega
    · have h2 := get?_append_length (L ++ List.replicate (n - L.length) DxValue.undefined) [v]
      have e : (L ++ List.replicate (n - L.length) DxValue.undefined).length = n := by
        simp only [List.length_append, List.length_replicate]
        omega
      rw [e] at h2
      exact h2
    · intro j hj _
      simp only [List.get?_eq_getElem?, List.append_assoc]
      rw [List.getElem?_append_left hj]
    · intro j h1 h2
      simp only [List.get?_eq_getElem?, List.append_assoc]
      rw [List.getElem?_append_right h1, List.getElem?_append_left (by simp; omega)]
      simp [List.getElem?_replicate]
      omega
  · have hL1 : L1 = L.set n v := if_neg h
    rw [hL1]
    refine ⟨?_, ?_, ?_, ?_⟩
    · simp only [List.length_set]
      omega
    · simp only [List.get?_eq_getElem?]
      rw [List.getElem?_set_self (by omega)]
    · intro j _ hjn
      simp only [List.get?_eq_getElem?]
      rw [List.getElem?_set_ne (Ne.symm hjn)]
    · intro j h1 h2
      omega

theorem execSetvarloc_spec (m : DxInterpreter) (id : Int) (v : DxValue) (rest : List DxValue)
    (hI : IsI32 id) (h0 : 0 ≤ id)
    (hcode : m.m_data.codeAt m.m_programCounter (encodeI32 id))
    (hstack : m.m_stack = v :: rest) :
    execSetvarloc m = (.ok (), { m with
      m_programCounter := m.m_programCounter + 4,
      m_stack := rest,
      m_locals :=
        if m.m_locals.length ≤ id.toNat then
          m.m_locals ++ List.replicate (id.toNat - m.m_locals.length) DxValue.undefined ++ [v]
        else m.m_locals.set id.toNat v }) := by
  have e1 := argI_codeAt (m := { m with m_stack := rest }) hI hcode
  have hid : toSizeT id = id.toNat := toSizeT_of_nonneg h0 hI
  by_cases h : m.m_locals.length ≤ id.toNat
  · simp only [execSetvarloc, Exec.bind_eq, Exec.bind, pop, hstack, Exec.get, e1, hid, h, if_true,
      not_lt.mpr h0, if_false, Exec.modify]
  · simp only [execSetvarloc, Exec.bind_eq, Exec.bind, pop, hstack, Exec.get, e1, hid, h,
      if_false, Exec.modify]

theorem execPushvarloc_spec (m : DxInterpreter) (j : Int) (hI : IsI32 j) (h0 : 0 ≤ j)
    (hcode : m.m_data.codeAt m.m_programCounter (encodeI32 j)) :
    execPushvarloc m = (.ok (), { m with
      m_programCounter := m.m_programCounter + 4,
      m_stack := (m.m_locals.get? j.toNat).getD DxValue.undefined :: m.m_stack }) := by
  have e1 := argI_codeAt hI hcode
  have hid : toSizeT j = j.toNat := toSizeT_of_nonneg h0 hI
  by_cases h : m.m_locals.length ≤ j.toNat
  · have hnone : m.m_locals.get? j.toNat = none := List.get?_eq_none.mpr h
    simp only [execPushvarloc, Exec.bind_eq, Exec.bind, e1, Exec.get, hid, h, if_true, push,
      Exec.modify, hnone, Option.getD_none]
  · have hlt : j.toNat < m.m_locals.length := by omega
    have hsome : m.m_locals.get? j.toNat = some (m.m_locals.get ⟨j.toNat, hlt⟩) :=
      List.get?_eq_get hlt
    simp only [execPushvarloc, Exec.bind_eq, Exec.bind, e1, Exec.get, hid, h, if_false,
      vectorIndex, Exec.lift, hsome, push, Exec.modify, Option.getD_some]

/-- C15. Let the image hold `setvarloc id` with `id >= 0` at the program counter and `v` be
on top of the operand stack, `L` being the locals. The step pops `v` and leaves locals of
length `max(len(L), id + 1)` with `locals[id] = v`, every slot `j < len(L)`, `j != id`,
unchanged, and every slot `j` with `len(L) <= j < id` Undefined. In any later state with
these locals, `pushvarloc id` pushes `v`, and `pushvarloc j` with `j` at least the new length
pushes Undefined and returns normally. -/
theorem setvarloc_grows_locals_and_pushvarloc_reads (env : Env) (fuel : Nat) (m : DxInterpreter)
    (id : Int) (v : DxValue) (rest : List DxValue)
    (hI : IsI32 id) (h0 : 0 ≤ id)
    (hcode : m.m_data.codeAt m.m_programCounter (enc1 .setvarloc id))
    (hstack : m.m_stack = v :: rest) :
    (interpret env fuel m).1 = .ok () ∧
    (interpret env fuel m).2.m_stack = rest ∧
    (interpret env fuel m).2.m_locals.length = max m.m_locals.length (id.toNat + 1) ∧
    (interpret env fuel m).2.m_locals.get? id.toNat = some v ∧
    (∀ j, j < m.m_locals.length → j ≠ id.toNat →
      (interpret env fuel m).2.m_locals.get? j = m.m_locals.get? j) ∧
    (∀ j, m.m_locals.length ≤ j → j < id.toNat →
      (interpret env fuel m).2.m_locals.get? j = some DxValue.undefined) ∧
    (∀ (fuel2 : Nat) (m2 : DxInterpreter), m2.m_locals = (interpret env fuel m).2.m_locals →
      m2.m_data.codeAt m2.m_programCounter (enc1 .pushvarloc id) →
      interpret env fuel2 m2 = (.ok (), { m2 with
        m_programCounter := m2.m_programCounter + 5, m_stack := v :: m2.m_stack })) ∧
    (∀ (fuel2 : Nat) (m2 : DxInterpreter) (j : Int), IsI32 j →
      ((interpret env fuel m).2.m_locals.length : Int) ≤ j →
      m2.m_locals = (interpret env fuel m).2.m_locals →
      m2.m_data.codeAt m2.m_programCounter (enc1 .pushvarloc j) →
      interpret env fuel2 m2 = (.ok (), { m2 with
        m_programCounter := m2.m_programCounter + 5,
        m_stack := DxValue.undefined :: m2.m_stack })) := by
  have hstep : interpret env fuel m = _ := interpret_codeAt env fuel hcode
  rw [execOpcode, execSetvarloc_spec { m with m_programCounter := m.m_programCounter + 1 } id v
    rest hI h0 (DxData.codeAt_tail hcode) hstack] at hstep
  obtain ⟨f1, f2, f3, f4⟩ := setLocal_facts m.m_locals id.toNat v
  have e5 : ∀ p : Int, p + 1 + 4 = p + 5 := fun p => by omega
  have hpush : ∀ (fuel2 : Nat) (m2 : DxInterpreter) (j : Int), IsI32 j → 0 ≤ j →
      m2.m_data.codeAt m2.m_programCounter (enc1 .pushvarloc j) →
      interpret env fuel2 m2 = (.ok (), { m2 with
        m_programCounter := m2.m_programCounter + 5,
        m_stack := (m2.m_locals.get? j.toNat).getD DxValue.undefined :: m2.m_stack }) := by
    intro fuel2 m2 j hj hj0 hc2
    have h2 : interpret env fuel2 m2 = _ := interpret_codeAt env fuel2 hc2
    rw [execOpcode, execPushvarloc_spec { m2 with m_programCounter := m2.m_programCounter + 1 } j
      hj hj0 (DxData.codeAt_tail hc2)] at h2
    rw [h2]
    simp only [e5]
  rw [hstep]
  refine ⟨rfl, rfl, f1, f2, f3, f4, ?_, ?_⟩
  · intro fuel2 m2 hl hc2
    rw [hpush fuel2 m2 id hI h0 hc2, hl]
    simp only []
    rw [f2]
    rfl
  · intro fuel2 m2 j hj hle hl hc2
    simp only [] at hle
    have hj0 : 0 ≤ j := by omega
    rw [hpush fuel2 m2 j hj hj0 hc2, hl]
    simp only []
    have hnone : (if m.m_locals.length ≤ id.toNat then
          m.m_locals ++ List.replicate (id.toNat - m.m_locals.length) DxValue.undefined ++ [v]
        else m.m_locals.set id.toNat v).get? j.toNat = none :=
      List.get?_eq_none.mpr (by omega)
    rw [hnone]
    rfl

theorem DxValue.ofInt_eq (i : Int) : DxValue.ofInt i = ⟨some (.int i), .Integer⟩ := rfl

theorem DxValue.ofString_eq (s : DxStr) : DxValue.ofString s = ⟨some (.string s), .String⟩ := rfl

theorem DxValue.binop_same_type (fp : FloatOps) (op : BinOp) (fuel : Nat) (l r : DxValue)
    (h : l.type = r.type) :
    DxValue.binop fp op (fuel + 1) l r = DxValue.sameTypeOp fp op l r := by
  unfold DxValue.binop
  cases hn : op.nullcheck <;> simp [h]

theorem execOpcode_binop (env : Env) (fuel : Nat) (opc : DxOpcode) (op : BinOp)
    (h : binopOf opc = some op) : execOpcode env fuel opc = execBinop env fuel op := by
  cases opc <;> first | (cases h; rfl) | cases h

theorem execBinop_spec (env : Env) (fuel : Nat) (op : BinOp) (m : DxInterpreter)
    (v1 v2 : DxValue) (rest : List DxValue) (hstack : m.m_stack = v2 :: v1 :: rest) :
    execBinop env fuel op m =
      match DxValue.binop env.fp op fuel v1 v2 with
      | .ok r => (.ok (), { m with m_stack := r :: rest })
      | .error e => (.error e, { m with m_stack := rest }) := by
  simp only [execBinop, Exec.bind_eq, Exec.bind, pop, hstack, Exec.lift, push, Exec.modify]
  cases DxValue.binop env.fp op fuel v1 v2 <;> rfl

theorem execPushi_spec (m : DxInterpreter) (a : Int) (hI : IsI32 a)
    (hcode : m.m_data.codeAt m.m_programCounter (encodeI32 a)) :
    execPushi m = (.ok (), { m with
      m_programCounter := m.m_programCounter + 4,
      m_stack := DxValue.ofInt a :: m.m_stack }) := by
  have e1 := argI_codeAt hI hcode
  simp only [execPushi, Exec.bind_eq, Exec.bind, e1, push, Exec.modify, DxValue.ofInt]

theorem interpret_pushi (env : Env) (fuel : Nat) (m : DxInterpreter) (a : Int) (hI : IsI32 a)
    (hcode : m.m_data.codeAt m.m_programCounter (enc1 .pushi a)) :
    interpret env fuel m = (.ok (), { m with
      m_programCounter := m.m_programCounter + 5,
      m_stack := DxValue.ofInt a :: m.m_stack }) := by
  have hstep : interpret env fuel m = _ := interpret_codeAt env fuel hcode
  rw [execOpcode, execPushi_spec { m with m_programCounter := m.m_programCounter + 1 } a hI
    (DxData.codeAt_tail hcode)] at hstep
  rw [hstep]
  have e5 : m.m_programCounter + 1 + 4 = m.m_programCounter + 5 := by omega
  simp only [e5]

theorem interpret_binop (env : Env) (fuel : Nat) (m : DxInterpreter) (opc : DxOpcode)
    (op : BinOp) (v1 v2 : DxValue) (rest : List DxValue) (hop : binopOf opc = some op)
    (hcode : m.m_data.codeAt m.m_programCounter (enc0 opc))
    (hstack : m.m_stack = v2 :: v1 :: rest) :
    interpret env fuel m =
      match DxValue.binop env.fp op fuel v1 v2 with
      | .ok r => (.ok (), { m with
          m_programCounter := m.m_programCounter + 1, m_stack := r :: rest })
      | .error e => (.error e, { m with
          m_programCounter := m.m_programCounter + 1, m_stack := rest }) := by
  have hstep : interpret env fuel m = _ := interpret_codeAt env fuel hcode
  rw [execOpcode_binop env fuel opc op hop,
    execBinop_spec env fuel op { m with m_programCounter := m.m_programCounter + 1 } v1 v2 rest
      hstack] at hstep
  exact hstep

theorem binop_sub_int (fp : FloatOps) (fuel : Nat) (a b : Int) :
    DxValue.binop fp .sub (fuel + 1) (DxValue.ofInt a) (DxValue.ofInt b)
      = .ok (DxValue.ofInt (wrapI32 (a - b))) := by
  rw [DxValue.binop_same_type fp .sub fuel (DxValue.ofInt a) (DxValue.ofInt b) rfl]
  rfl

/-- C16. For each of the opcodes `add sub mul div mod cmpeq cmpgt cmplt cmpgte cmplte
cmpneq`, with `v2` on top of the operand stack and `v1` below it, the step applies the
operator to `v1` as left and `v2` as right operand, and when the operator returns `r` it
leaves `r` in place of the two operands. For all Integers `a`, `b`, the sequence
`pushi a; pushi b; sub` returns normally and leaves Integer `a - b` (wrapped to 32 bits) on
top of the stack it started from: the depth after `sub` is one less than before it. -/
theorem binary_opcodes_operand_order (env : Env) (fuel : Nat) (m : DxInterpreter) (a b : Int)
    (ha : IsI32 a) (hb : IsI32 b)
    (hcode : m.m_data.codeAt m.m_programCounter (enc1 .pushi a ++ enc1 .pushi b ++ enc0 .sub)) :
    (∀ (m1 : DxInterpreter) (opc : DxOpcode) (op : BinOp) (v1 v2 : DxValue)
      (rest : List DxValue), binopOf opc = some op →
      m1.m_data.codeAt m1.m_programCounter (enc0 opc) → m1.m_stack = v2 :: v1 :: rest →
      interpret env fuel m1 =
        match DxValue.binop env.fp op fuel v1 v2 with
        | .ok r => (.ok (), { m1 with
            m_programCounter := m1.m_programCounter + 1, m_stack := r :: rest })
        | .error e => (.error e, { m1 with
            m_programCounter := m1.m_programCounter + 1, m_stack := rest })) ∧
    interpretN env (fuel + 1) 3 m = (.ok (), { m with
      m_programCounter := m.m_programCounter + 11,
      m_stack := DxValue.ofInt (wrapI32 (a - b)) :: m.m_stack }) ∧
    (interpretN env (fuel + 1) 3 m).2.m_stack.length + 1
      = (interpretN env (fuel + 1) 2 m).2.m_stack.length := by
  obtain ⟨hc12, hc3⟩ := DxData.codeAt_append hcode
  obtain ⟨hc1, hc2⟩ := DxData.codeAt_append hc12
  simp only [enc1, List.length_cons, encodeI32_length, List.length_append] at hc2 hc3
  have s1 := interpret_pushi env (fuel + 1) m a ha hc1
  have s2 := interpret_pushi env (fuel + 1)
    { m with m_programCounter := m.m_programCounter + 5, m_stack := DxValue.ofInt a :: m.m_stack }
    b hb (by
      have e : m.m_programCounter + 5 = m.m_programCounter + ((4 + 1 : Nat) : Int) := by
        push_cast; omega
      show m.m_data.codeAt (m.m_programCounter + 5) _
      rw [e]; exact hc2)
  have s3 := interpret_binop env (fuel + 1)
    { m with m_programCounter := m.m_programCounter + 5 + 5,
             m_stack := DxValue.ofInt b :: DxValue.ofInt a :: m.m_stack }
    .sub .sub (DxValue.ofInt a) (DxValue.ofInt b) m.m_stack rfl (by
      have e : m.m_programCounter + 5 + 5
          = m.m_programCounter + ((4 + 1 + (4 + 1) : Nat) : Int) := by
        push_cast; omega
      show m.m_data.codeAt (m.m_programCounter + 5 + 5) _
      rw [e]; exact hc3) rfl
  rw [binop_sub_int] at s3
  have e11 : m.m_programCounter + 5 + 5 + 1 = m.m_programCounter + 11 := by omega
  simp only [e11] at s3
  have h2 : interpretN env (fuel + 1) 2 m = (.ok (), { m with
      m_programCounter := m.m_programCounter + 5 + 5,
      m_stack := DxValue.ofInt b :: DxValue.ofInt a :: m.m_stack }) := by
    simp only [interpretN, Exec.bind, s1, s2, Exec.pure]
  have h3 : interpretN env (fuel + 1) 3 m = (.ok (), { m with
      m_programCounter := m.m_programCounter + 11,
      m_stack := DxValue.ofInt (wrapI32 (a - b)) :: m.m_stack }) := by
    simp only [interpretN, Exec.bind, s1, s2, s3, Exec.pure]
  refine ⟨?_, h3, ?_⟩
  · intro m1 opc op v1 v2 rest hop hc hst
    exact interpret_binop env fuel m1 opc op v1 v2 rest hop hc hst
  · rw [h3, h2]
    simp

theorem binop_add_string_int (fp : FloatOps) (fuel : Nat) (s : DxStr) (i : Int) :
    DxValue.binop fp .add (fuel + 2) (DxValue.ofString s) (DxValue.ofInt i)
      = .ok (DxValue.ofString (s ++ intToStr i)) := rfl

theorem binop_add_int_string (fp : FloatOps) (fuel : Nat) (s : DxStr) (i : Int) :
    DxValue.binop fp .add (fuel + 2) (DxValue.ofInt i) (DxValue.ofString s)
      = .ok (DxValue.ofString (intToStr i ++ s)) := rfl

/-- C17. For every String `s` and Integer `i`, `s + i` is the String `s` followed by
`std::to_string(i)` and `i + s` is the String `std::to_string(i)` followed by `s`. With the
String `s` on top of the operand stack, the bytecode `pushi i; add` returns normally and
leaves the String `s` followed by the decimal representation of `i` in its place. -/
theorem string_plus_integer_concatenates (env : Env) (fuel : Nat) (m : DxInterpreter)
    (s : DxStr) (i : Int) (rest : List DxValue) (hi : IsI32 i)
    (hcode : m.m_data.codeAt m.m_programCounter (enc1 .pushi i ++ enc0 .add))
    (hstack : m.m_stack = DxValue.ofString s :: rest) :
    DxValue.binop env.fp .add (fuel + 2) (DxValue.ofString s) (DxValue.ofInt i)
      = .ok (DxValue.ofString (s ++ intToStr i)) ∧
    DxValue.binop env.fp .add (fuel + 2) (DxValue.ofInt i) (DxValue.ofString s)
      = .ok (DxValue.ofString (intToStr i ++ s)) ∧
    interpretN env (fuel + 2) 2 m = (.ok (), { m with
      m_programCounter := m.m_programCounter + 6,
      m_stack := DxValue.ofString (s ++ intToStr i) :: rest }) := by
  obtain ⟨hc1, hc2⟩ := DxData.codeAt_append hcode
  simp only [enc1, List.length_cons, encodeI32_length] at hc2
  have s1 := interpret_pushi env (fuel + 2) m i hi hc1
  have s2 := interpret_binop env (fuel + 2)
    { m with m_programCounter := m.m_programCounter + 5, m_stack := DxValue.ofInt i :: m.m_stack }
    .add .add (DxValue.ofString s) (DxValue.ofInt i) rest rfl (by
      have e : m.m_programCounter + 5 = m.m_programCounter + ((4 + 1 : Nat) : Int) := by
        push_cast; omega
      show m.m_data.codeAt (m.m_programCounter + 5) _
      rw [e]; exact hc2) (by show DxValue.ofInt i :: m.m_stack = _; rw [hstack])
  rw [binop_add_string_int] at s2
  have e6 : m.m_programCounter + 5 + 1 = m.m_programCounter + 6 := by omega
  simp only [e6] at s2
  refine ⟨binop_add_string_int env.fp fuel s i, binop_add_int_string env.fp fuel s i, ?_⟩
  simp only [interpretN, Exec.bind, s1, s2, Exec.pure]

/-- C19. For all Values `a`, `b` of which at least one has the tag Undefined: `a == b` returns
Integer 1 when both have it and Integer 0 when exactly one has it, and `a != b` returns the
opposite, whatever the other operand is. -/
theorem equality_with_undefined (fp : FloatOps) (fuel : Nat) (a b : DxValue)
    (h : a.type = .Undefined ∨ b.type = .Undefined) :
    DxValue.binop fp .eq (fuel + 1) a b
      = .ok (DxValue.ofInt
          (if a.type = .Undefined ∧ b.type = .Undefined then 1 else 0)) ∧
    DxValue.binop fp .ne (fuel + 1) a b
      = .ok (DxValue.ofInt
          (if a.type = .Undefined ∧ b.type = .Undefined then 0 else 1)) := by
  by_cases ha : a.type = .Undefined <;> by_cases hb : b.type = .Undefined
  · constructor <;>
      simp [DxValue.binop, BinOp.nullcheck, ha, hb, DxValue.sameTypeOp, DxValue.ofBool,
        DxValue.ofInt_eq]
  · constructor <;>
      simp [DxValue.binop, BinOp.nullcheck, ha, hb, DxValue.ofBool, DxValue.ofInt_eq]
  · constructor <;>
      simp [DxValue.binop, BinOp.nullcheck, ha, hb, DxValue.ofBool, DxValue.ofInt_eq]
  · rcases h with h | h
    · exact absurd h ha
    · exact absurd h hb

/-- C18 (code at the failing input). Each comparison operator tags its result with the type of
its operands, not with Integer: on two Doubles, and on an Integer and a Double in either
order, the result has the tag Double, and `==`/`!=` on two Strings give the tag String. In the
image `pushd 1.0; pushd 2.0; cmplt; jt 0` the value that `cmplt` pushes has the tag Double
over an `int` payload, and the `jt` that follows throws `std::bad_variant_access`; with
`pushi 1; pushi 2` in place of the two `pushd` the value has the tag Integer and `jt` returns. -/
theorem comparison_result_carries_operand_tag :
    (∀ (fp : FloatOps) (fuel x y : Nat),
      [BinOp.eq, .ne, .gt, .lt, .ge, .le].map (fun op =>
        (DxValue.binop fp op (fuel + 1) (DxValue.ofDoubleBits x) (DxValue.ofDoubleBits y)).map
          DxValue.type)
        = List.replicate 6 (Except.ok DxValueType.Double)) ∧
    (∀ (fp : FloatOps) (fuel : Nat) (i : Int) (y : Nat),
      [BinOp.eq, .ne, .gt, .lt, .ge, .le].map (fun op =>
        (DxValue.binop fp op (fuel + 2) (DxValue.ofInt i) (DxValue.ofDoubleBits y)).map
          DxValue.type)
        = List.replicate 6 (Except.ok DxValueType.Double)) ∧
    (∀ (fp : FloatOps) (fuel : Nat) (i : Int) (x : Nat),
      [BinOp.eq, .ne, .gt, .lt, .ge, .le].map (fun op =>
        (DxValue.binop fp op (fuel + 2) (DxValue.ofDoubleBits x) (DxValue.ofInt i)).map
          DxValue.type)
        = List.replicate 6 (Except.ok DxValueType.Double)) ∧
    (∀ (fp : FloatOps) (fuel : Nat) (s t : DxStr),
      [BinOp.eq, .ne].map (fun op =>
        (DxValue.binop fp op (fuel + 1) (DxValue.ofString s) (DxValue.ofString t)).map
          DxValue.type)
        = List.replicate 2 (Except.ok DxValueType.String)) ∧
    (stepN sampleEnv 3 (runningAt compareDoublesImage 0 [])).m_stack.map
      (fun v => (v.type, v.getInt)) = [(.Double, .ok 1)] ∧
    (stepN sampleEnv 3 (runningAt compareDoublesImage 0 [])).m_programCounter = 19 ∧
    (interpret sampleEnv 1 (stepN sampleEnv 3 (runningAt compareDoublesImage 0 []))).1
      = .error .badVariantAccess ∧
    (stepN sampleEnv 3 (runningAt compareIntsImage 0 [])).m_stack.map
      (fun v => (v.type, v.getInt)) = [(.Integer, .ok 1)] ∧
    (interpret sampleEnv 1 (stepN sampleEnv 3 (runningAt compareIntsImage 0 []))).1
      = .ok () := by
  refine ⟨fun _ _ _ _ => rfl, fun _ _ _ _ => rfl, fun _ _ _ _ => rfl, fun _ _ _ _ => rfl,
    ?_, ?_, ?_, ?_, ?_⟩
  · decide!
  · decide!
  · decide!
  · decide!
  · decide!

/-- C20 (counterexample). The operator `+` on the String `x` and Undefined returns the String
`xundefined`, and `Undefined + Integer 1` fails with the value-conversion error: neither fails
with InvalidOperator. -/
theorem string_plus_undefined_returns_a_value :
    DxValue.binop sampleFloatOps .add 2 (DxValue.ofString "x".toList) DxValue.undefined
      = .ok (DxValue.ofString "xundefined".toList) ∧
    DxValue.binop sampleFloatOps .add 2 DxValue.undefined (DxValue.ofInt 1)
      = .error .valueConversion :=
  ⟨rfl, rfl⟩

/-- C20 (amended). For every operator among `+ - * / % > < >= <=`: on two Undefined operands
it fails with InvalidOperator; on a left Undefined operand and a right operand whose tag is
neither Undefined nor String it fails with the value-conversion error; on a left Undefined
operand and the String `s`, `+` returns the String `undefined` followed by `s` and every other
operator fails with InvalidOperator; and the String `s` `+` Undefined returns `s` followed by
`undefined`. -/
theorem arithmetic_on_undefined (fp : FloatOps) (fuel : Nat) (op : BinOp)
    (hop : op.nullcheck = none) :
    (∀ a b : DxValue, a.type = .Undefined → b.type = .Undefined →
      DxValue.binop fp op (fuel + 1) a b = .error .invalidOperator) ∧
    (∀ a b : DxValue, a.type = .Undefined → b.type ≠ .Undefined → b.type ≠ .String →
      DxValue.binop fp op (fuel + 1) a b = .error .valueConversion) ∧
    (∀ (a : DxValue) (s : DxStr), a.type = .Undefined →
      DxValue.binop fp op (fuel + 2) a (DxValue.ofString s)
        = if op = .add then .ok (DxValue.ofString ("undefined".toList ++ s))
          else .error .invalidOperator) ∧
    (∀ (s : DxStr) (b : DxValue), b.type = .Undefined →
      DxValue.binop fp .add (fuel + 2) (DxValue.ofString s) b
        = .ok (DxValue.ofString (s ++ "undefined".toList))) := by
  refine ⟨?_, ?_, ?_, ?_⟩
  · rintro ⟨va, ta⟩ ⟨vb, tb⟩ ha hb
    simp only [DxValue.type] at ha hb
    subst ha; subst hb
    cases op <;> first | (cases hop; done) | rfl
  · rintro ⟨va, ta⟩ ⟨vb, tb⟩ ha hb hs
    simp only [DxValue.type] at ha hb hs
    subst ha
    cases op <;> first | (cases hop; done) | (cases tb <;> first | exact absurd rfl hb | exact absurd rfl hs | rfl)
  · rintro ⟨va, ta⟩ s ha
    simp only [DxValue.type] at ha
    subst ha
    cases op <;> first | (cases hop; done) | rfl
  · rintro s ⟨vb, tb⟩ hb
    simp only [DxValue.type] at hb
    subst hb
    rfl

/-- Witness of C11: `call 0 1` on the stack `[7, 8]` (top first) enters function 0 at address
10 with an empty stack, `flag_count = 1` and the locals `[flag-get(funcFlag), 7]`. -/
theorem call_enters_function_witness :
    (interpret sampleEnv 1 (runningAt callFlaggedImage 0 [DxValue.ofInt 7, DxValue.ofInt 8])
      ).2.m_programCounter = 10 ∧
    (interpret sampleEnv 1 (runningAt callFlaggedImage 0 [DxValue.ofInt 7, DxValue.ofInt 8])
      ).2.m_stack = [] ∧
    (interpret sampleEnv 1 (runningAt callFlaggedImage 0 [DxValue.ofInt 7, DxValue.ofInt 8])
      ).2.m_flagCount = 1 ∧
    (interpret sampleEnv 1 (runningAt callFlaggedImage 0 [DxValue.ofInt 7, DxValue.ofInt 8])
      ).2.m_locals = [DxValue.undefined, DxValue.ofInt 7] :=
  have h := call_enters_function sampleEnv 1
    (runningAt callFlaggedImage 0 [DxValue.ofInt 7, DxValue.ofInt 8])
    (fun _ _ => DxValue.undefined) 0 1 ⟨"f".toList, 10, [0, 0], ["funcFlag".toList]⟩
    [DxValue.ofInt 7] [DxValue.ofInt 8]
    (by decide) (by decide) (by decide) (by decide) (by decide) rfl (by decide)
    (fun _ _ => rfl)
  ⟨h.2.1, h.2.2.1, h.2.2.2.2.1, h.2.2.2.2.2.1⟩

/-- Witness of C15: with no locals and Integer 9 on the stack, `setvarloc 3` leaves four
locals, the last of them Integer 9 and slot 1 Undefined. -/
theorem setvarloc_grows_locals_and_pushvarloc_reads_witness :
    (interpret sampleEnv 1 (runningAt setLocalImage 0 [DxValue.ofInt 9])).2.m_locals.length
      = max 0 4 ∧
    (interpret sampleEnv 1 (runningAt setLocalImage 0 [DxValue.ofInt 9])).2.m_locals.get? 3
      = some (DxValue.ofInt 9) ∧
    (interpret sampleEnv 1 (runningAt setLocalImage 0 [DxValue.ofInt 9])).2.m_locals.get? 1
      = some DxValue.undefined :=
  have h := setvarloc_grows_locals_and_pushvarloc_reads sampleEnv 1
    (runningAt setLocalImage 0 [DxValue.ofInt 9]) 3 (DxValue.ofInt 9) []
    (by decide) (by decide) (by decide) rfl
  ⟨h.2.2.1, h.2.2.2.1, h.2.2.2.2.2.1 1 (by decide) (by decide)⟩

/-- Witness of C16: `pushi 7; pushi 9; sub` on an empty stack leaves Integer `7 - 9`. -/
theorem binary_opcodes_operand_order_witness :
    (interpretN sampleEnv 1 3 (runningAt subtractImage 0 [])).2.m_stack
      = [DxValue.ofInt (wrapI32 (7 - 9))] := by
  have h := (binary_opcodes_operand_order sampleEnv 0 (runningAt subtractImage 0 []) 7 9
    (by decide) (by decide) (by decide)).2.1
  rw [h]
  rfl

/-- Witness of C17: with the String `x` on the stack, `pushi 2; add` leaves the String `x2`. -/
theorem string_plus_integer_concatenates_witness :
    (interpretN sampleEnv 2 2 (runningAt appendIntImage 0 [DxValue.ofString "x".toList])
      ).2.m_stack = [DxValue.ofString "x2".toList] := by
  have h := (string_plus_integer_concatenates sampleEnv 0
    (runningAt appendIntImage 0 [DxValue.ofString "x".toList]) "x".toList 2 []
    (by decide) (by decide) rfl).2.2
  rw [h]
  rfl

/-- Witness of C19: Undefined and Integer 3 are not equal, in either order of the test. -/
theorem equality_with_undefined_witness :
    DxValue.binop sampleFloatOps .eq 1 DxValue.undefined (DxValue.ofInt 3)
      = .ok (DxValue.ofInt 0) ∧
    DxValue.binop sampleFloatOps .ne 1 DxValue.undefined (DxValue.ofInt 3)
      = .ok (DxValue.ofInt 1) :=
  equality_with_undefined sampleFloatOps 0 DxValue.undefined (DxValue.ofInt 3) (Or.inl rfl)

/-- Witness of C20 (amended): `Undefined - Undefined` fails with InvalidOperator,
`Undefined - Integer 1` with the value-conversion error. -/
theorem arithmetic_on_undefined_witness :
    DxValue.binop sampleFloatOps .sub 1 DxValue.undefined DxValue.undefined
      = .error .invalidOperator ∧
    DxValue.binop sampleFloatOps .sub 1 DxValue.undefined (DxValue.ofInt 1)
      = .error .valueConversion :=
  have h := arithmetic_on_undefined sampleFloatOps 0 .sub rfl
  ⟨h.1 _ _ rfl rfl, h.2.1 _ _ rfl (by decide) (by decide)⟩

/-- For two operands of the same type `T`, each holding a payload of that type, and no
Integer division by zero (nor `INT_MIN / -1`): the operator returns a value when the table of
the specification defines it on `T` (`+` on Integer, Double, String; `- * / > < >= <=` on
Integer, Double; `%` on Integer; `==`, `!=` on Integer, Double, String, Undefined), and fails
with InvalidOperator in every other case. -/
theorem operator_table_of_tagged (fp : FloatOps) (fuel : Nat) (op : BinOp) (l r : DxValue)
    (hl : l.HoldsItsType) (hr : r.HoldsItsType) (ht : l.type = r.type)
    (hdiv : ∀ a b, l.getInt = .ok a → r.getInt = .ok b → op = .div ∨ op = .mod →
      b ≠ 0 ∧ ¬ (a = -2147483648 ∧ b = -1)) :
    (op.definedOn l.type = true → ∃ v, DxValue.binop fp op (fuel + 1) l r = .ok v) ∧
    (op.definedOn l.type = false →
      DxValue.binop fp op (fuel + 1) l r = .error .invalidOperator) := by
  rw [DxValue.binop_same_type fp op fuel l r ht]
  obtain ⟨vl, tl⟩ := l
  obtain ⟨vr, tr⟩ := r
  simp only [DxValue.type] at ht
  subst ht
  cases vl with
  | none =>
    simp only [DxValue.HoldsItsType] at hl
    subst hl
    cases op <;> simp [BinOp.definedOn, DxValue.sameTypeOp, DxValue.type, BinOp.nullcheck]
  | some pl =>
    cases vr with
    | none =>
      simp only [DxValue.HoldsItsType] at hl hr
      subst hr
      cases op <;> simp [BinOp.definedOn, DxValue.sameTypeOp, DxValue.type, BinOp.nullcheck]
    | some pr =>
      simp only [DxValue.HoldsItsType] at hl hr
      cases pl <;> cases pr <;> simp only [DxVariant.detect_type] at hl hr <;>
        first
        | (subst hl; exact absurd hr (by decide))
        | skip
      · -- Integer
        subst hl
        rename_i a b
        have hd := hdiv a b rfl rfl
        cases op <;>
          simp [BinOp.definedOn, DxValue.sameTypeOp, DxValue.type, DxValue.getInt,
            DxValue.m_value, BinOp.onInt, bind, Except.bind, pure, Except.pure] <;>
          simp [hd]
      · -- Double
        subst hl
        cases op <;>
          simp [BinOp.definedOn, DxValue.sameTypeOp, DxValue.type, DxValue.getDouble,
            DxValue.m_value, BinOp.onDouble, bind, Except.bind, pure, Except.pure]
      · -- String
        subst hl
        cases op <;>
          simp [BinOp.definedOn, DxValue.sameTypeOp, DxValue.type, DxValue.getString,
            DxValue.m_value, BinOp.onString, bind, Except.bind, pure, Except.pure]
      · -- Array
        subst hl
        cases op <;> simp [BinOp.definedOn, DxValue.sameTypeOp, DxValue.type]
      · -- Reference
        subst hl
        cases op <;> simp [BinOp.definedOn, DxValue.sameTypeOp, DxValue.type]

/-- C22 (code at the failing input). The operator `/` on two Integers evaluates the built-in
`a / b` of C++ with no test of the divisor: for every Integer `a`, `a / Integer 0` has
undefined behaviour (a crash on the usual platforms) and raises no InvalidOperator; the
same holds for `%`. For every other divisor (and not `INT_MIN / -1`) the result is the
quotient truncated toward zero. -/
theorem integer_division_by_zero_is_unchecked :
    (∀ (fp : FloatOps) (fuel : Nat) (a : Int),
      DxValue.binop fp .div (fuel + 1) (DxValue.ofInt a) (DxValue.ofInt 0)
        = .error .undefinedBehaviour) ∧
    (∀ (fp : FloatOps) (fuel : Nat) (a : Int),
      DxValue.binop fp .mod (fuel + 1) (DxValue.ofInt a) (DxValue.ofInt 0)
        = .error .undefinedBehaviour) ∧
    (∀ (fp : FloatOps) (fuel : Nat) (a b : Int),
      DxValue.binop fp .div (fuel + 1) (DxValue.ofInt a) (DxValue.ofInt b)
        = if b = 0 ∨ (a = -2147483648 ∧ b = -1) then .error .undefinedBehaviour
          else .ok (DxValue.ofInt (Int.tdiv a b))) ∧
    DxValue.binop sampleFloatOps .div 1 (DxValue.ofInt 1) (DxValue.ofInt 0)
      ≠ .error .invalidOperator ∧
    DxValue.binop sampleFloatOps .div 1 (DxValue.ofInt (-7)) (DxValue.ofInt 2)
      = .ok (DxValue.ofInt (-3)) := by
  have h3 : ∀ (fp : FloatOps) (fuel : Nat) (a b : Int),
      DxValue.binop fp .div (fuel + 1) (DxValue.ofInt a) (DxValue.ofInt b)
        = if b = 0 ∨ (a = -2147483648 ∧ b = -1) then .error .undefinedBehaviour
          else .ok (DxValue.ofInt (Int.tdiv a b)) := by
    intro fp fuel a b
    rw [DxValue.binop_same_type fp .div fuel (DxValue.ofInt a) (DxValue.ofInt b) rfl]
    simp only [DxValue.sameTypeOp, DxValue.ofInt_eq, DxValue.type, DxValue.getInt,
      DxValue.m_value, BinOp.onInt, bind, Except.bind, pure, Except.pure]
    by_cases hb : b = 0 ∨ (a = -2147483648 ∧ b = -1)
    · simp only [hb, if_true]
    · simp only [hb, if_false]
      rfl
  refine ⟨?_, ?_, h3, ?_, ?_⟩
  · intro fp fuel a
    rw [h3]; simp
  · intro fp fuel a
    rw [DxValue.binop_same_type fp .mod fuel (DxValue.ofInt a) (DxValue.ofInt 0) rfl]
    simp [DxValue.sameTypeOp, DxValue.ofInt_eq, DxValue.type, DxValue.getInt,
      DxValue.m_value, BinOp.onInt, bind, Except.bind]
  · rw [h3]; simp
  · rw [h3]; rfl

/-- For every value `v` holding a payload of its type and every target type `t` (a Double
being converted to Integer having a floor that fits an `int`): `convert(v, t)` returns `v`
when `t = type(v)` or `t = Undefined`; Undefined converts to the String `undefined`; for a
pair of types outside the list of the specification it fails with ValueConversion; for a
pair in the list it returns a value of type `t`, except that a String must be parsable by
`std::stoi` (target Integer) or `std::stod` (target Double). -/
theorem convert_table_of_tagged (fp : FloatOps) (v : DxValue) (t : DxValueType)
    (hv : v.HoldsItsType)
    (hfloor : ∀ d, v.getDouble = .ok d → ∃ i, fp.floorToInt d = .ok i) :
    (t = v.type ∨ t = .Undefined → v.convert fp t = .ok v) ∧
    (v.type = .Undefined → t = .String →
      v.convert fp t = .ok (DxValue.ofString "undefined".toList)) ∧
    (t ≠ v.type → t ≠ .Undefined → convertiblePair v.type t = false →
      v.convert fp t = .error .valueConversion) ∧
    (t ≠ v.type → t ≠ .Undefined → convertiblePair v.type t = true →
      ((∃ w, v.convert fp t = .ok w) ↔
        (v.type = .String →
          (t = .Integer → ∃ i, v.getString.bind stoi = .ok i) ∧
          (t = .Double → ∃ d, v.getString.bind fp.stod = .ok d)))) ∧
    (∀ w, t ≠ .Undefined → v.convert fp t = .ok w → w.type = t) := by
  obtain ⟨p, tv⟩ := v
  cases p with
  | none =>
    simp only [DxValue.HoldsItsType] at hv
    subst hv
    cases t <;>
      simp [DxValue.convert, DxValue.type, convertiblePair, DxValue.ofString, DxValue.make]
  | some p =>
    simp only [DxValue.HoldsItsType] at hv
    subst hv
    cases p with
    | int i =>
      cases t <;>
        simp [DxValue.convert, DxValue.type, convertiblePair, DxVariant.detect_type,
          DxValue.getInt, DxValue.m_value, DxValue.make, bind, Except.bind, pure, Except.pure]
    | double d =>
      obtain ⟨i, hi⟩ := hfloor d rfl
      cases t <;>
        simp [DxValue.convert, DxValue.type, convertiblePair, DxVariant.detect_type,
          DxValue.getDouble, DxValue.m_value, DxValue.make, bind, Except.bind, pure,
          Except.pure, hi]
    | string s =>
      cases t <;>
        simp [DxValue.convert, DxValue.type, convertiblePair, DxVariant.detect_type,
          DxValue.getString, DxValue.m_value, DxValue.make, bind, Except.bind, pure,
          Except.pure]
      · cases hs : stoi s <;> simp
      · cases hs : fp.stod s <;> simp
    | array a =>
      cases t <;>
        simp [DxValue.convert, DxValue.type, convertiblePair, DxVariant.detect_type]
    | any r =>
      cases t <;>
        simp [DxValue.convert, DxValue.type, convertiblePair, DxVariant.detect_type]

/-- C24 (code at the failing input). Converting the String `x` or the empty String to Integer
fails with `std::invalid_argument`, the exception of `std::stoi`, and a String of digits too
large for an `int` fails with `std::out_of_range`; `safe_get<Integer>` fails the same way.
Converting a String to Double fails with whatever `std::stod` throws. None of these is the
ValueConversion error that an illegal pair of types such as Integer to Array raises. -/
theorem unparsable_string_throws_standard_exception :
    (∀ fp : FloatOps,
      (DxValue.ofString "x".toList).convert fp .Integer = .error .invalidArgument) ∧
    (∀ fp : FloatOps, (DxValue.ofString []).convert fp .Integer = .error .invalidArgument) ∧
    (∀ fp : FloatOps,
      (DxValue.ofString "99999999999".toList).convert fp .Integer = .error .outOfRange) ∧
    (∀ fp : FloatOps,
      (DxValue.ofString "x".toList).safeGetInt fp = .error .invalidArgument) ∧
    (∀ (fp : FloatOps) (s : DxStr),
      (DxValue.ofString s).convert fp .Double
        = match fp.stod s with
          | .ok d => .ok (DxValue.ofDouble d)
          | .error e => .error e) ∧
    (∀ (fp : FloatOps) (s : DxStr),
      (DxValue.ofString s).safeGetDouble fp = fp.stod s) ∧
    (∀ fp : FloatOps, (DxValue.ofInt 1).convert fp .Array = .error .valueConversion) := by
  refine ⟨fun _ => rfl, fun _ => rfl, fun _ => rfl, fun _ => rfl,
    ?_, ?_, fun _ => rfl⟩
  · intro fp s
    simp only [DxValue.convert, DxValue.ofString_eq, DxValue.type, DxValue.getString,
      DxValue.m_value, bind, Except.bind, pure, Except.pure]
    cases fp.stod s <;> rfl
  · intro fp s
    simp only [DxValue.safeGetDouble, DxValue.convert, DxValue.ofString_eq, DxValue.type,
      DxValue.getString, DxValue.m_value, bind, Except.bind, pure, Except.pure]
    cases fp.stod s <;> rfl

/-- C28. In a state `m` other than Inactive, `execute_eval` and `execute_eval_multiple` fail
with a `diannex_exception` and leave the interpreter exactly as it was; in a state `m2`
other than InChoice so does `select_choice`. No opcode is executed and no callback invoked:
state, program counter, operand stack, locals, pending choices and every other member are
unchanged. -/
theorem state_guards_are_atomic (env : Env) (fuel : Nat) (address idx : Int)
    (m m2 : DxInterpreter) (hm : m.m_state ≠ .Inactive) (hm2 : m2.m_state ≠ .InChoice) :
    executeEval env fuel address m = (.error .diannexException, m) ∧
    executeEvalMultiple env fuel address m = (.error .diannexException, m) ∧
    selectChoice env fuel idx m2 = (.error .diannexException, m2) := by
  have h1 : assert_state .Inactive m = (.error .diannexException, m) := by
    simp only [assert_state, ne_eq]
    rw [if_pos (fun h => hm h.symm)]
  have h2 : assert_state .InChoice m2 = (.error .diannexException, m2) := by
    simp only [assert_state, ne_eq]
    rw [if_pos (fun h => hm2 h.symm)]
  refine ⟨?_, ?_, ?_⟩
  · simp only [executeEval, Exec.bind_eq, Exec.bind, h1]
  · simp only [executeEvalMultiple, Exec.bind_eq, Exec.bind, h1]
  · simp only [selectChoice, Exec.bind_eq, Exec.bind, h2]

/-- Witness of C28: in the state `Paused`, `execute_eval(0)`, `execute_eval_multiple(0)` and
`select_choice(0)` all fail and change nothing. -/
theorem state_guards_are_atomic_witness :
    executeEval sampleEnv 5 0 busyState = (.error .diannexException, busyState) ∧
    executeEvalMultiple sampleEnv 5 0 busyState = (.error .diannexException, busyState) ∧
    selectChoice sampleEnv 5 0 busyState = (.error .diannexException, busyState) :=
  state_guards_are_atomic sampleEnv 5 0 0 busyState busyState (by decide) (by decide)

theorem digitChar_isDigit (k : Nat) (h : k < 10) :
    (Nat.digitChar k).isDigit = true ∧ (Nat.digitChar k).toNat - 48 = k := by
  interval_cases k <;> decide

theorem toDigitsCore_value (fuel : Nat) :
    ∀ (n : Nat) (ds : List Char), n < fuel → (∀ c ∈ ds, c.isDigit = true) →
      (∀ c ∈ Nat.toDigitsCore 10 fuel n ds, c.isDigit = true) ∧
      Nat.toDigitsCore 10 fuel n ds ≠ [] ∧
      (Nat.toDigitsCore 10 fuel n ds).foldl (fun acc c => 10 * acc + (c.toNat - 48)) 0
        = ds.foldl (fun acc c => 10 * acc + (c.toNat - 48)) n := by
  induction fuel with
  | zero => intro n ds h; omega
  | succ fuel ih =>
    intro n ds hn hds
    have hd := digitChar_isDigit (n % 10) (Nat.mod_lt n (by decide))
    have hds1 : ∀ c ∈ Nat.digitChar (n % 10) :: ds, c.isDigit = true := by
      intro c hc
      rcases List.mem_cons.mp hc with h | h
      · rw [h]; exact hd.1
      · exact hds c h
    unfold Nat.toDigitsCore
    by_cases h0 : n / 10 = 0
    · simp only [h0, if_true]
      refine ⟨hds1, by simp, ?_⟩
      simp only [List.foldl_cons, hd.2, Nat.mul_zero, Nat.zero_add]
      have : n % 10 = n := by omega
      rw [this]
    · simp only [h0, if_false]
      obtain ⟨i1, i2, i3⟩ := ih (n / 10) (Nat.digitChar (n % 10) :: ds) (by omega) hds1
      refine ⟨i1, i2, ?_⟩
      rw [i3]
      simp only [List.foldl_cons, hd.2]
      have : 10 * (n / 10) + n % 10 = n := by omega
      rw [this]

theorem toDigits_value (n : Nat) :
    (∀ c ∈ Nat.toDigits 10 n, c.isDigit = true) ∧ Nat.toDigits 10 n ≠ [] ∧
      decimalValue (Nat.toDigits 10 n) = n := by
  obtain ⟨h1, h2, h3⟩ := toDigitsCore_value (n + 1) n [] (by omega) (by simp)
  exact ⟨h1, h2, h3⟩

theorem stoi_intToStr (i : Int) (hi : IsI32 i) : stoi (intToStr i) = .ok i := by
  unfold IsI32 at hi
  by_cases hneg : i < 0
  · obtain ⟨h1, h2, h3⟩ := toDigits_value i.natAbs
    have htw := takeWhile_all Char.isDigit (Nat.toDigits 10 i.natAbs) h1
    have hsp : isSpace (Char.ofNat 45) = false := by decide
    unfold stoi intToStr
    simp only [hneg, if_true, List.dropWhile, hsp, htw, h2, if_false, h3]
    have e : -((i.natAbs : Nat) : Int) = i := by omega
    rw [e]
    have hr : ¬ (i < -2147483648 ∨ 2147483647 < i) := by omega
    simp only [hr, if_false]
  · obtain ⟨h1, h2, h3⟩ := toDigits_value i.toNat
    have e : intToStr i = Nat.toDigits 10 i.toNat := by
      unfold intToStr; simp only [hneg, if_false]
    rw [e]
    cases hd : Nat.toDigits 10 i.toNat with
    | nil => exact absurd hd h2
    | cons d ds =>
      rw [hd] at h1 h3
      rw [stoi_digits d ds h1 (by rw [h3]; omega), h3]
      have : ((i.toNat : Nat) : Int) = i := by omega
      rw [this]

theorem binary64_fields (n e sign : Nat) (hlo : 2 ^ e ≤ n) (hhi : n < 2 ^ (e + 1))
    (he : e ≤ 31) (hs : sign = 0 ∨ sign = 2 ^ 63) :
    (sign + (e + 1023) * 2 ^ 52 + (n * 2 ^ (52 - e) - 2 ^ 52)) / 2 ^ 63 % 2 = sign / 2 ^ 63 ∧
    (sign + (e + 1023) * 2 ^ 52 + (n * 2 ^ (52 - e) - 2 ^ 52)) / 2 ^ 52 % 2048 = e + 1023 ∧
    (2 ^ 52 + (sign + (e + 1023) * 2 ^ 52 + (n * 2 ^ (52 - e) - 2 ^ 52)) % 2 ^ 52)
      / 2 ^ (1075 - (e + 1023)) = n ∧
    (2 ^ 52 + (sign + (e + 1023) * 2 ^ 52 + (n * 2 ^ (52 - e) - 2 ^ 52)) % 2 ^ 52
      + 2 ^ (1075 - (e + 1023)) - 1) / 2 ^ (1075 - (e + 1023)) = n := by
  interval_cases e <;> norm_num at hlo hhi ⊢ <;>
    rcases hs with hs | hs <;> subst hs <;> omega

theorem binary64_round_trip (i : Int) (hi : IsI32 i) :
    binary64FloorToInt (binary64OfInt i) = .ok i := by
  unfold IsI32 at hi
  by_cases h0 : i = 0
  · subst h0
    have e1 : ¬ (0 = 2047) := by decide
    have e2 : ¬ (1075 ≤ 1) := by decide
    simp only [binary64OfInt, if_true, binary64FloorToInt, Nat.zero_div, Nat.zero_mod, e1,
      if_false, e2, Nat.cast_zero]
    decide
  · have hn1 : 1 ≤ i.natAbs := by omega
    have hlo : 2 ^ Nat.log2 i.natAbs ≤ i.natAbs := Nat.log2_self_le (by omega)
    have hhi : i.natAbs < 2 ^ (Nat.log2 i.natAbs + 1) := Nat.lt_log2_self
    have he : Nat.log2 i.natAbs ≤ 31 := by
      by_contra hc
      have : 2 ^ 32 ≤ 2 ^ Nat.log2 i.natAbs := Nat.pow_le_pow_right (by decide) (by omega)
      omega
    by_cases hneg : i < 0
    · obtain ⟨f1, f2, _, f4⟩ :=
        binary64_fields i.natAbs (Nat.log2 i.natAbs) (2 ^ 63) hlo hhi he (Or.inr rfl)
      simp only [binary64OfInt, h0, if_false, hneg, if_true, binary64FloorToInt, f1, f2]
      have e1 : ¬ Nat.log2 i.natAbs + 1023 = 2047 := by omega
      have e2 : ¬ Nat.log2 i.natAbs + 1023 = 0 := by omega
      have e3 : ¬ 1075 ≤ Nat.log2 i.natAbs + 1023 := by omega
      have e4 : ¬ (2 ^ 63 / 2 ^ 63 = 0) := by norm_num
      simp only [e1, e2, e3, e4, if_false, f4]
      have e5 : -((i.natAbs : Nat) : Int) = i := by omega
      rw [e5]
      have hr : ¬ (i < -2147483648 ∨ 2147483647 < i) := by omega
      simp only [hr, if_false]
    · obtain ⟨f1, f2, f3, _⟩ :=
        binary64_fields i.natAbs (Nat.log2 i.natAbs) 0 hlo hhi he (Or.inl rfl)
      simp only [binary64OfInt, h0, if_false, hneg, binary64FloorToInt, f1, f2]
      have e1 : ¬ Nat.log2 i.natAbs + 1023 = 2047 := by omega
      have e2 : ¬ Nat.log2 i.natAbs + 1023 = 0 := by omega
      have e3 : ¬ 1075 ≤ Nat.log2 i.natAbs + 1023 := by omega
      have e4 : (0 / 2 ^ 63 = 0) := by norm_num
      simp only [e1, e2, e3, e4, if_false, if_true, f3]
      have e5 : ((i.natAbs : Nat) : Int) = i := by omega
      rw [e5]
      have hr : ¬ (i < -2147483648 ∨ 2147483647 < i) := by omega
      simp only [hr, if_false]

/-- C25. For every 32-bit Integer `i`, on a platform whose conversions between `int` and
`double` are those of IEEE-754 binary64: converting Integer `i` to Double and back to Integer
gives Integer `i`, and converting Integer `i` to String and back to Integer gives Integer
`i`; both conversions return, for negative `i`, 0, `INT_MIN` and `INT_MAX` alike. -/
theorem integer_conversions_round_trip (fp : FloatOps) (i : Int) (hi : IsI32 i)
    (hof : fp.ofInt = binary64OfInt) (hfl : fp.floorToInt = binary64FloorToInt) :
    ((DxValue.ofInt i).convert fp .Double).bind (fun w => w.convert fp .Integer)
      = .ok (DxValue.ofInt i) ∧
    ((DxValue.ofInt i).convert fp .String).bind (fun w => w.convert fp .Integer)
      = .ok (DxValue.ofInt i) := by
  constructor
  · simp [DxValue.convert, DxValue.ofInt_eq, DxValue.type, DxValue.getInt, DxValue.getDouble,
      DxValue.m_value, DxValue.make, bind, Except.bind, pure, Except.pure, hof, hfl,
      binary64_round_trip i hi]
  · simp [DxValue.convert, DxValue.ofInt_eq, DxValue.type, DxValue.getInt, DxValue.getString,
      DxValue.m_value, DxValue.make, bind, Except.bind, pure, Except.pure,
      stoi_intToStr i hi]

/-- Witness of C25: `INT_MIN` survives both round trips. -/
theorem integer_conversions_round_trip_witness :
    ((DxValue.ofInt (-2147483648)).convert binary64FloatOps .Double).bind
        (fun w => w.convert binary64FloatOps .Integer) = .ok (DxValue.ofInt (-2147483648)) ∧
    ((DxValue.ofInt (-2147483648)).convert binary64FloatOps .String).bind
        (fun w => w.convert binary64FloatOps .Integer) = .ok (DxValue.ofInt (-2147483648)) :=
  integer_conversions_round_trip binary64FloatOps (-2147483648) (by decide) rfl rfl

theorem Quiet.refl (m : DxInterpreter) : Quiet m m :=
  ⟨rfl, rfl, rfl, ⟨[], by simp⟩, Or.inl rfl⟩

theorem Quiet.trans {a b c : DxInterpreter} (h1 : Quiet a b) (h2 : Quiet b c) : Quiet a c := by
  obtain ⟨d1, f1, g1, ⟨l1, c1⟩, s1⟩ := h1
  obtain ⟨d2, f2, g2, ⟨l2, c2⟩, s2⟩ := h2
  refine ⟨d2.trans d1, f2.trans f1, g2.trans g1, ⟨l1 ++ l2, by rw [c2, c1, List.append_assoc]⟩, ?_⟩
  rcases s2 with s2 | s2 | s2
  · rw [s2]; exact s1
  · exact Or.inr (Or.inl s2)
  · exact Or.inr (Or.inr s2)

theorem Exec.Keeps.pure {α : Type} (a : α) : (Pure.pure a : Exec α).Keeps :=
  fun m => Quiet.refl m

theorem Exec.Keeps.keeps_pure_eq {α : Type} (a : α) : (Exec.pure a).Keeps :=
  fun m => Quiet.refl m

theorem Exec.Keeps.keeps_bind {α β : Type} {x : Exec α} {f : α → Exec β} (hx : x.Keeps)
    (hf : ∀ a, (f a).Keeps) : (x >>= f).Keeps := by
  intro m
  show Quiet m (Exec.bind x f m).2
  unfold Exec.bind
  have h1 := hx m
  cases hxm : x m with
  | mk r m1 =>
    rw [hxm] at h1
    cases r with
    | ok a => exact Quiet.trans h1 (hf a m1)
    | error e => exact h1

theorem Exec.Keeps.keeps_bind_eq {α β : Type} {x : Exec α} {f : α → Exec β} (hx : x.Keeps)
    (hf : ∀ a, (f a).Keeps) : (Exec.bind x f).Keeps :=
  Exec.Keeps.keeps_bind hx hf

theorem Exec.Keeps.throw {α : Type} (e : DxError) : (Exec.throw e : Exec α).Keeps :=
  fun m => Quiet.refl m

theorem Exec.Keeps.get : Exec.get.Keeps := fun m => Quiet.refl m

theorem Exec.Keeps.lift {α : Type} (r : Except DxError α) : (Exec.lift r).Keeps :=
  fun m => Quiet.refl m

theorem Exec.Keeps.host {α : Type} (call : HostCall)
    (outcome : List HostCall → Except DxError α) : (Exec.host call outcome).Keeps :=
  fun _ => ⟨rfl, rfl, rfl, ⟨[call], rfl⟩, Or.inl rfl⟩

theorem Exec.Keeps.modify (f : DxInterpreter → DxInterpreter) (h : ∀ m, Quiet m (f m)) :
    (Exec.modify f).Keeps := fun m => h m

theorem Quiet.of_eq {m m1 : DxInterpreter} (hd : m1.m_data = m.m_data)
    (hf : m1.m_flagsInitialized = m.m_flagsInitialized)
    (hg : m1.m_definitions = m.m_definitions) (hc : m1.hostCalls = m.hostCalls)
    (hs : m1.m_state = m.m_state) : Quiet m m1 :=
  ⟨hd, hf, hg, ⟨[], by simp [hc]⟩, Or.inl hs⟩

theorem dx_assert_keeps (c : Bool) : (dx_assert c).Keeps := by
  unfold dx_assert
  split
  · exact Exec.Keeps.keeps_pure_eq _
  · exact Exec.Keeps.throw _

theorem assert_state_keeps (s : State) : (assert_state s).Keeps := by
  intro m
  unfold assert_state
  split <;> exact Quiet.refl m

theorem push_keeps (v : DxValue) : (push v).Keeps :=
  fun _ => Quiet.of_eq rfl rfl rfl rfl rfl

theorem pop_keeps : pop.Keeps := by
  intro m
  unfold pop
  split
  · exact Quiet.of_eq rfl rfl rfl rfl rfl
  · exact Quiet.refl m

theorem peek_keeps : peek.Keeps := by
  intro m
  unfold peek
  split <;> exact Quiet.refl m

theorem popN_keeps (n : Nat) : (popN n).Keeps := by
  induction n with
  | zero => exact Exec.Keeps.keeps_pure_eq _
  | succ n ih =>
    unfold popN
    exact Exec.Keeps.keeps_bind pop_keeps (fun _ => Exec.Keeps.keeps_bind ih (fun _ => Exec.Keeps.pure _))

theorem vectorOfCount_keeps (c : Int) : (vectorOfCount c).Keeps := by
  unfold vectorOfCount
  split
  · exact Exec.Keeps.throw _
  · exact Exec.Keeps.keeps_pure_eq _

theorem readBytes_keeps (n : Nat) : (readBytes n).Keeps := by
  intro m
  unfold readBytes
  split
  · exact Quiet.of_eq rfl rfl rfl rfl rfl
  · exact Quiet.refl m

theorem argI_keeps : argI.Keeps :=
  Exec.Keeps.keeps_bind (readBytes_keeps 4) (fun _ => Exec.Keeps.pure _)

theorem argII_keeps : argII.Keeps :=
  Exec.Keeps.keeps_bind argI_keeps (fun _ => Exec.Keeps.keeps_bind argI_keeps (fun _ => Exec.Keeps.pure _))

theorem argD_keeps : argD.Keeps :=
  Exec.Keeps.keeps_bind (readBytes_keeps 8) (fun _ => Exec.Keeps.pure _)

theorem popBackLocals_keeps : popBackLocals.Keeps := by
  intro m
  unfold popBackLocals
  split
  · exact Quiet.refl m
  · exact Quiet.of_eq rfl rfl rfl rfl rfl

theorem clearVMState_keeps : clearVMState.Keeps :=
  fun _ => Quiet.of_eq rfl rfl rfl rfl rfl

theorem popStrings_keeps (env : Env) (n : Nat) : (popStrings env n).Keeps := by
  induction n with
  | zero => exact Exec.Keeps.keeps_pure_eq _
  | succ n ih =>
    unfold popStrings
    exact Exec.Keeps.keeps_bind pop_keeps (fun _ => Exec.Keeps.keeps_bind (Exec.Keeps.lift _)
      (fun _ => Exec.Keeps.keeps_bind ih (fun _ => Exec.Keeps.pure _)))

theorem loadFlags_keeps (env : Env) (names : List DxStr) : (loadFlags env names).Keeps := by
  induction names with
  | nil => exact Exec.Keeps.keeps_pure_eq _
  | cons n rest ih =>
    unfold loadFlags
    exact Exec.Keeps.keeps_bind (Exec.Keeps.host _ _) (fun _ => Exec.Keeps.keeps_bind
      (Exec.Keeps.modify _ (fun _ => Quiet.of_eq rfl rfl rfl rfl rfl)) (fun _ => ih))

theorem endScene_keeps (env : Env) : (endScene env).Keeps := by
  unfold endScene
  refine Exec.Keeps.keeps_bind (Exec.Keeps.modify _ (fun m => ⟨rfl, rfl, rfl, ⟨[], by simp⟩,
    Or.inr (Or.inl rfl)⟩)) (fun _ => Exec.Keeps.keeps_bind Exec.Keeps.get (fun _ => ?_))
  split
  · exact Exec.Keeps.throw _
  · exact Exec.Keeps.keeps_bind (Exec.Keeps.modify _ (fun _ => Quiet.of_eq rfl rfl rfl rfl rfl))
      (fun _ => Exec.Keeps.keeps_bind clearVMState_keeps (fun _ => Exec.Keeps.host _ _))

theorem execOpcode_keeps (env : Env) (fuel : Nat) (opc : DxOpcode) (h : opc ≠ .choicesel) :
    (execOpcode env fuel opc).Keeps := by
  cases opc <;> first | exact absurd rfl h | skip
  all_goals
    simp only [execOpcode, execFreeloc, execSave, execLoad, execPushi, execPushd, execPushs,
      execPushints, execMakearr, execPusharrind, execSetarrind, execSetvarglb, execSetvarloc,
      execPushvarglb, execPushvarloc, execDup, execDup2, execBinop, execNeg, execInv, execBitop,
      execBitneg, execPow, execJ, execJcond, execExit, execRet, execCall, execCallext,
      execChoicebeg, execChoiceadd, execChoiceaddt, execChooseadd, execChooseaddt,
      execChoosesel, execTextrun]
    repeat' first
      | with_reducible exact Exec.Keeps.pure _
      | with_reducible exact Exec.Keeps.keeps_pure_eq _
      | with_reducible exact Exec.Keeps.throw _
      | with_reducible exact Exec.Keeps.get
      | with_reducible exact Exec.Keeps.lift _
      | with_reducible exact Exec.Keeps.host _ _
      | with_reducible exact pop_keeps
      | with_reducible exact peek_keeps
      | with_reducible exact push_keeps _
      | with_reducible exact argI_keeps
      | with_reducible exact argII_keeps
      | with_reducible exact argD_keeps
      | with_reducible exact popN_keeps _
      | with_reducible exact popStrings_keeps _ _
      | with_reducible exact vectorOfCount_keeps _
      | with_reducible exact dx_assert_keeps _
      | with_reducible exact assert_state_keeps _
      | with_reducible exact popBackLocals_keeps
      | with_reducible exact clearVMState_keeps
      | with_reducible exact loadFlags_keeps _ _
      | with_reducible exact endScene_keeps _
      | (with_reducible refine Exec.Keeps.modify _ (fun _ => ?_)) <;> first
        | exact Quiet.of_eq rfl rfl rfl rfl rfl
        | exact ⟨rfl, rfl, rfl, ⟨[], by simp⟩, Or.inr (Or.inl rfl)⟩
        | exact ⟨rfl, rfl, rfl, ⟨[], by simp⟩, Or.inr (Or.inr rfl)⟩
      | with_reducible refine Exec.Keeps.keeps_bind ?_ (fun _ => ?_)
      | split

theorem Quiet.not_inChoice {m m1 : DxInterpreter} (h : Quiet m m1)
    (hs : m.m_state ≠ .InChoice) : m1.m_state ≠ .InChoice := by
  rcases h.2.2.2.2 with s | s | s
  · rw [s]; exact hs
  · rw [s]; decide
  · rw [s]; decide

theorem ChoiceInvariant.of_ne {m : DxInterpreter} (h : m.m_state ≠ .InChoice) :
    ChoiceInvariant m := fun hs => absurd hs h

theorem execChoicesel_invariant (env : Env) (m : DxInterpreter) (hs : m.m_state ≠ .InChoice) :
    ChoiceInvariant (execChoicesel env m).2 := by
  by_cases h1 : m.m_startingChoice = true
  · by_cases h2 : m.m_choiceOptions = []
    · have : (execChoicesel env m).2 = m := by
        simp [execChoicesel, Exec.bind_eq, Exec.bind, Exec.get, dx_assert, h1, h2, Exec.pure,
          Exec.throw]
      rw [this]
      exact ChoiceInvariant.of_ne hs
    · rw [execChoicesel_spec env m h1 h2]
      intro _
      exact ⟨h2, rfl⟩
  · have : (execChoicesel env m).2 = m := by
      simp [execChoicesel, Exec.bind_eq, Exec.bind, Exec.get, dx_assert, h1, Exec.throw]
    rw [this]
    exact ChoiceInvariant.of_ne hs

theorem interpret_invariant (env : Env) (fuel : Nat) (m : DxInterpreter)
    (hs : m.m_state ≠ .InChoice) : ChoiceInvariant (interpret env fuel m).2 := by
  unfold interpret
  show ChoiceInvariant (Exec.bind (readBytes 1) _ m).2
  unfold Exec.bind
  have hq := readBytes_keeps 1 m
  cases hr : readBytes 1 m with
  | mk r m1 =>
    rw [hr] at hq
    have hs1 : m1.m_state ≠ .InChoice := hq.not_inChoice hs
    cases r with
    | error e => exact ChoiceInvariant.of_ne hs1
    | ok bs =>
      dsimp only
      split
      · rename_i b
        cases ho : DxOpcode.ofByte b with
        | none => exact ChoiceInvariant.of_ne hs1
        | some opcode =>
          dsimp only
          by_cases hc : opcode = .choicesel
          · subst hc
            exact execChoicesel_invariant env m1 hs1
          · exact ChoiceInvariant.of_ne ((execOpcode_keeps env fuel opcode hc m1).not_inChoice hs1)
      · exact ChoiceInvariant.of_ne hs1

theorem dispatchLoop_invariant (env : Env) (s : State) (hs : s ≠ .InChoice) (fuel : Nat) :
    ∀ m, ChoiceInvariant m → ChoiceInvariant (dispatchLoop env s fuel m).2 := by
  induction fuel with
  | zero =>
    intro m hm
    unfold dispatchLoop
    split <;> exact hm
  | succ fuel ih =>
    intro m hm
    unfold dispatchLoop
    by_cases h : m.m_state = s
    · simp only [h, if_true]
      unfold Exec.bind
      have h1 := interpret_invariant env fuel m (by rw [h]; exact hs)
      cases hr : interpret env fuel m with
      | mk r m1 =>
        rw [hr] at h1
        cases r with
        | ok _ => exact ih m1 h1
        | error _ => exact h1
    · simp only [h, if_false]
      exact hm

theorem Exec.Settles.of_keeps {α : Type} {x : Exec α} (h : x.Keeps) : x.Settles :=
  fun m hs => ChoiceInvariant.of_ne ((h m).not_inChoice hs)

theorem Exec.Settles.settles_bind {α β : Type} {x : Exec α} {f : α → Exec β} (hx : x.Keeps)
    (hf : ∀ a, (f a).Settles) : (Exec.bind x f).Settles := by
  intro m hs
  unfold Exec.bind
  have h1 := (hx m).not_inChoice hs
  cases hxm : x m with
  | mk r m1 =>
    rw [hxm] at h1
    cases r with
    | ok a => exact hf a m1 h1
    | error e => exact ChoiceInvariant.of_ne h1

theorem dispatchLoop_settles (env : Env) (s : State) (hs : s ≠ .InChoice) (fuel : Nat) :
    (dispatchLoop env s fuel).Settles :=
  fun m hm => dispatchLoop_invariant env s hs fuel m (ChoiceInvariant.of_ne hm)

theorem runScene_invariant (env : Env) (fuel : Nat) (name : DxStr) (m : DxInterpreter)
    (hm : ChoiceInvariant m) : ChoiceInvariant (runScene env fuel name m).2 := by
  simp only [runScene, Exec.bind_eq]
  simp only [Exec.bind, Exec.get, Exec.lift]
  cases hsc : m.m_data.scene name with
  | error e => exact hm
  | ok scene =>
    simp only [Exec.modify]
    by_cases ho : scene.codeOffset = -1
    · simp only [ho, if_true, Exec.pure]
      exact hm
    · simp only [ho, if_false]
      exact Exec.Settles.settles_bind clearVMState_keeps
        (fun _ => Exec.Settles.settles_bind (loadFlags_keeps env scene.flagNames)
          (fun _ => dispatchLoop_settles env .Running (by decide) fuel)) _ (by intro h; cases h)

theorem resumeScene_invariant (env : Env) (fuel : Nat) (m : DxInterpreter)
    (hm : ChoiceInvariant m) : ChoiceInvariant (resumeScene env fuel m).2 := by
  simp only [resumeScene, Exec.bind_eq]
  simp only [Exec.bind, Exec.modify]
  apply dispatchLoop_invariant env .Running (by decide) fuel
  split
  · exact ChoiceInvariant.of_ne (by intro h; cases h)
  · exact hm

theorem pauseScene_invariant (m : DxInterpreter) (hm : ChoiceInvariant m) :
    ChoiceInvariant (pauseScene m).2 := by
  simp only [pauseScene, Exec.modify]
  split
  · exact ChoiceInvariant.of_ne (by intro h; cases h)
  · exact hm

theorem assert_state_eq (s : State) (m : DxInterpreter) :
    assert_state s m = if m.m_state = s then (.ok (), m) else (.error .diannexException, m) := by
  unfold assert_state
  by_cases h : m.m_state = s
  · simp [h]
  · have : s ≠ m.m_state := fun e => h e.symm
    simp [h, this]

theorem selectChoice_invariant (env : Env) (fuel : Nat) (idx : Int) (m : DxInterpreter)
    (hm : ChoiceInvariant m) : ChoiceInvariant (selectChoice env fuel idx m).2 := by
  simp only [selectChoice, Exec.bind_eq]
  simp only [Exec.bind, assert_state_eq]
  by_cases h : m.m_state = .InChoice
  · simp only [h, if_true, Exec.get, Exec.lift]
    cases vectorIndex m.m_choiceOptions idx with
    | error e => exact hm
    | ok entry =>
      simp only [Exec.modify]
      exact dispatchLoop_settles env .Running (by decide) fuel _ (by intro h; cases h)
  · simp only [h, if_false]
    exact hm

theorem endScene_invariant (env : Env) (m : DxInterpreter) :
    ChoiceInvariant (endScene env m).2 := by
  have hst : (endScene env m).2.m_state = .Inactive := by
    simp only [endScene, Exec.bind_eq]
    simp only [Exec.bind, Exec.modify, Exec.get]
    cases m.m_currentScene with
    | none => rfl
    | some scene => rfl
  exact ChoiceInvariant.of_ne (by rw [hst]; decide)

theorem pop_invariant (m : DxInterpreter) (hm : ChoiceInvariant m) :
    ChoiceInvariant (pop m).2 := by
  unfold pop
  split
  · exact hm
  · exact hm

theorem executeEvalMultiple_invariant (env : Env) (fuel : Nat) (address : Int)
    (m : DxInterpreter) (hm : ChoiceInvariant m) :
    ChoiceInvariant (executeEvalMultiple env fuel address m).2 := by
  simp only [executeEvalMultiple, Exec.bind_eq]
  simp only [Exec.bind, assert_state_eq]
  by_cases h : m.m_state = .Inactive
  · simp only [h, if_true, Exec.modify]
    exact dispatchLoop_settles env .Eval (by decide) fuel _ (by intro h; cases h)
  · simp only [h, if_false]
    exact hm

theorem executeEval_invariant (env : Env) (fuel : Nat) (address : Int)
    (m : DxInterpreter) (hm : ChoiceInvariant m) :
    ChoiceInvariant (executeEval env fuel address m).2 := by
  simp only [executeEval, Exec.bind_eq]
  simp only [Exec.bind, assert_state_eq]
  by_cases h : m.m_state = .Inactive
  · simp only [h, if_true, Exec.modify]
    have h1 := dispatchLoop_settles env .Eval (by decide) fuel
      { m with m_state := .Eval, m_programCounter := address } (by intro h; cases h)
    cases hr : dispatchLoop env .Eval fuel
        { m with m_state := .Eval, m_programCounter := address } with
    | mk r m1 =>
      rw [hr] at h1
      cases r with
      | error e => exact h1
      | ok _ => exact pop_invariant m1 h1
  · simp only [h, if_false]
    exact hm

/-- C27. In every interpreter state reachable from a fresh interpreter through `run_scene`,
`resume_scene`, `pause_scene`, `select_choice`, `end_scene`, `execute_eval`,
`execute_eval_multiple` and opcode steps, with a host that does not re-enter the
interpreter: if the state is `InChoice`, the pending choice list is not empty and
`starting_choice` is false. -/
theorem in_choice_has_pending_choices (env : Env) (m : DxInterpreter) (h : Reachable env m)
    (hs : m.m_state = .InChoice) : m.m_choiceOptions ≠ [] ∧ m.m_startingChoice = false := by
  have hinv : ChoiceInvariant m := by
    clear hs
    induction h with
    | fresh data => exact ChoiceInvariant.of_ne (by intro h; cases h)
    | runScene fuel name _ ih => exact runScene_invariant env fuel name _ ih
    | resumeScene fuel _ ih => exact resumeScene_invariant env fuel _ ih
    | pauseScene _ ih => exact pauseScene_invariant _ ih
    | selectChoice fuel idx _ ih => exact selectChoice_invariant env fuel idx _ ih
    | endScene _ _ => exact endScene_invariant env _
    | executeEval fuel address _ ih => exact executeEval_invariant env fuel address _ ih
    | executeEvalMultiple fuel address _ ih =>
      exact executeEvalMultiple_invariant env fuel address _ ih
    | step fuel _ hst _ =>
      refine interpret_invariant env fuel _ ?_
      rcases hst with h1 | h1 <;> rw [h1] <;> decide
  exact hinv hs

/-- Witness of C27: `run_scene("main")` on the image whose scene offers one choice ends in
state `InChoice` with one pending choice and `starting_choice` false. -/
theorem in_choice_has_pending_choices_witness :
    (runScene sampleEnv 6 "main".toList (DxInterpreter.fresh choiceImage)).2.m_state
      = .InChoice ∧
    (runScene sampleEnv 6 "main".toList (DxInterpreter.fresh choiceImage)).2.m_choiceOptions
      ≠ [] ∧
    (runScene sampleEnv 6 "main".toList (DxInterpreter.fresh choiceImage)).2.m_startingChoice
      = false :=
  have hs : (runScene sampleEnv 6 "main".toList (DxInterpreter.fresh choiceImage)).2.m_state
      = .InChoice := by decide!
  ⟨hs, in_choice_has_pending_choices sampleEnv _
    (Reachable.runScene 6 "main".toList (Reachable.fresh choiceImage)) hs⟩

theorem SameImage.same_refl (m : DxInterpreter) : SameImage m m := ⟨rfl, rfl⟩

theorem SameImage.same_trans {a b c : DxInterpreter} (h1 : SameImage a b) (h2 : SameImage b c) :
    SameImage a c := ⟨h2.1.trans h1.1, h2.2.trans h1.2⟩

theorem Quiet.sameImage {m m1 : DxInterpreter} (h : Quiet m m1) : SameImage m m1 :=
  ⟨h.1, h.2.1⟩

theorem execChoicesel_frame (env : Env) (m : DxInterpreter) :
    SameImage m (execChoicesel env m).2 := by
  by_cases h1 : m.m_startingChoice = true
  · by_cases h2 : m.m_choiceOptions = []
    · have : (execChoicesel env m).2 = m := by
        simp [execChoicesel, Exec.bind_eq, Exec.bind, Exec.get, dx_assert, h1, h2, Exec.pure,
          Exec.throw]
      rw [this]
      exact ⟨rfl, rfl⟩
    · rw [execChoicesel_spec env m h1 h2]
      exact ⟨rfl, rfl⟩
  · have : (execChoicesel env m).2 = m := by
      simp [execChoicesel, Exec.bind_eq, Exec.bind, Exec.get, dx_assert, h1, Exec.throw]
    rw [this]
    exact ⟨rfl, rfl⟩

theorem interpret_frame (env : Env) (fuel : Nat) (m : DxInterpreter) :
    SameImage m (interpret env fuel m).2 := by
  unfold interpret
  show SameImage m (Exec.bind (readBytes 1) _ m).2
  unfold Exec.bind
  have hq := (readBytes_keeps 1 m).sameImage
  cases hr : readBytes 1 m with
  | mk r m1 =>
    rw [hr] at hq
    cases r with
    | error e => exact hq
    | ok bs =>
      dsimp only
      split
      · rename_i b
        cases ho : DxOpcode.ofByte b with
        | none => exact hq
        | some opcode =>
          dsimp only
          by_cases hc : opcode = .choicesel
          · subst hc
            exact hq.same_trans (execChoicesel_frame env m1)
          · exact hq.same_trans (execOpcode_keeps env fuel opcode hc m1).sameImage
      · exact hq

theorem dispatchLoop_frame (env : Env) (s : State) (fuel : Nat) :
    ∀ m, SameImage m (dispatchLoop env s fuel m).2 := by
  induction fuel with
  | zero =>
    intro m
    unfold dispatchLoop
    split <;> exact ⟨rfl, rfl⟩
  | succ fuel ih =>
    intro m
    unfold dispatchLoop
    by_cases h : m.m_state = s
    · simp only [h, if_true]
      unfold Exec.bind
      have h1 := interpret_frame env fuel m
      cases hr : interpret env fuel m with
      | mk r m1 =>
        rw [hr] at h1
        cases r with
        | ok _ => exact h1.same_trans (ih m1)
        | error _ => exact h1
    · simp only [h, if_false]
      exact ⟨rfl, rfl⟩

theorem DxData.allFlagOffsets_erase (d : DxData) :
    d.eraseFlagNames.allFlagOffsets = d.allFlagOffsets := by
  simp only [DxData.allFlagOffsets, DxData.eraseFlagNames, List.map_map]
  rfl

theorem FlagsEvaluable.evaluable_of_same {env : Env} {fuel : Nat} {d0 d : DxData}
    (h : d0.SameButFlagNames d) (hev : FlagsEvaluable env fuel d0) :
    FlagsEvaluable env fuel d := by
  intro m o hst hsame ho
  have hoff : d.allFlagOffsets = d0.allFlagOffsets := by
    rw [← DxData.allFlagOffsets_erase d, ← DxData.allFlagOffsets_erase d0, h]
  exact hev m o hst (hsame.trans h) (hoff ▸ ho)

theorem DxData.FlagTablesPaired.paired_of_same {d0 d : DxData} (h : d0.SameButFlagNames d)
    (hp : d0.FlagTablesPaired) : d.FlagTablesPaired := by
  have key : ∀ d1 : DxData, d1.FlagTablesPaired ↔ d1.eraseFlagNames.FlagTablesPaired := by
    intro d1
    simp only [DxData.FlagTablesPaired, DxData.eraseFlagNames, List.mem_map]
    constructor
    · rintro ⟨h1, h2⟩
      refine ⟨?_, ?_⟩
      · rintro e ⟨e0, he0, rfl⟩
        simpa using h1 e0 he0
      · rintro f ⟨f0, hf0, rfl⟩
        simpa using h2 f0 hf0
    · rintro ⟨h1, h2⟩
      refine ⟨?_, ?_⟩
      · intro e he
        simpa using h1 _ ⟨e, he, rfl⟩
      · intro f hf
        simpa using h2 _ ⟨f, hf, rfl⟩
  rw [key d, h, ← key d0]
  exact hp

theorem BinaryReader.reader_bind_eq {α β : Type} (x : BinaryReader α) (f : α → BinaryReader β) :
    (x >>= f) = BinaryReader.bind x f := rfl

theorem BinaryReader.reader_pure_eq {α : Type} (a : α) :
    (Pure.pure a : BinaryReader α) = BinaryReader.pure a := rfl

theorem encodeLE_length (n v : Nat) : (encodeLE n v).length = n := by
  induction n generalizing v with
  | zero => rfl
  | succ n ih => simp [encodeLE, ih]

theorem leValue_encodeLE (n v : Nat) : leValue (encodeLE n v) = v % 256 ^ n := by
  induction n generalizing v with
  | zero => simp [encodeLE, leValue, Nat.mod_one]
  | succ n ih =>
    simp only [encodeLE, leValue, ih]
    have h1 : (Fin.ofNat v : Fin 256).val = v % 256 := rfl
    rw [h1, Nat.pow_succ, Nat.mul_comm (256 ^ n) 256, Nat.mod_mul]

theorem read_n_append (file : Bool) (a rest : List Byte) :
    BinaryReader.read_n file false a.length (a ++ rest) = .ok (a, rest) := by
  simp [BinaryReader.read_n]

theorem skip_append (a rest : List Byte) :
    BinaryReader.skip a.length (a ++ rest) = .ok ((), rest) := by
  simp [BinaryReader.skip]

theorem readUnsigned_encodeLE (file : Bool) (n v : Nat) (hv : v < 256 ^ n)
    (rest : List Byte) :
    BinaryReader.readUnsigned file n (encodeLE n v ++ rest) = .ok (v, rest) := by
  have h := read_n_append file (encodeLE n v) rest
  rw [encodeLE_length] at h
  simp only [BinaryReader.readUnsigned, BinaryReader.reader_bind_eq, BinaryReader.bind, h,
    BinaryReader.reader_pure_eq, BinaryReader.pure, leValue_encodeLE, Nat.mod_eq_of_lt hv]

theorem readInt32_encodeI32 (file : Bool) (v : Int) (hv : IsI32 v) (rest : List Byte) :
    BinaryReader.readInt32 file (encodeI32 v ++ rest) = .ok (v, rest) := by
  have h := read_n_append file (encodeI32 v) rest
  rw [encodeI32_length] at h
  simp only [BinaryReader.readInt32, BinaryReader.reader_bind_eq, BinaryReader.bind, h,
    BinaryReader.reader_pure_eq, BinaryReader.pure, decode_encodeI32 hv]

theorem readString_encodeString (s : DxStr) (hs : IsCString s) (rest : List Byte) :
    BinaryReader.readString (encodeString s ++ rest) = .ok (s, rest) := by
  induction s with
  | nil => simp [encodeString, BinaryReader.readString]
  | cons c t ih =>
    have hc := hs c (List.mem_cons_self c t)
    have ht : IsCString t := fun x hx => hs x (List.mem_cons_of_mem c hx)
    have hval : (Fin.ofNat c.toNat : Fin 256).val = c.toNat := by
      show c.toNat % 256 = c.toNat
      exact Nat.mod_eq_of_lt hc.2
    have ih1 := ih ht
    simp only [encodeString, List.map_cons, List.cons_append, List.append_assoc] at ih1 ⊢
    unfold BinaryReader.readString
    have hne : ¬ (Fin.ofNat c.toNat : Fin 256).val = 0 := by rw [hval]; omega
    have hne2 : ¬ c.toNat = 0 := by omega
    simp only [hne, if_false, ih1, hval, Char.ofNat_toNat, hne2]

theorem times_spec {α β : Type} (item : BinaryReader α) (enc : β → List Byte) (dec : β → α)
    (xs : List β) (h : ∀ x ∈ xs, ∀ rest, item (enc x ++ rest) = .ok (dec x, rest))
    (rest : List Byte) :
    BinaryReader.times item xs.length ((xs.map enc).flatten ++ rest) = .ok (xs.map dec, rest) := by
  induction xs with
  | nil => rfl
  | cons x t ih =>
    have hx := h x (List.mem_cons_self x t)
    have iht := ih (fun y hy => h y (List.mem_cons_of_mem x hy))
    simp only [List.length_cons, List.map_cons, List.flatten_cons, List.append_assoc,
      BinaryReader.times, BinaryReader.reader_bind_eq, BinaryReader.bind, hx, iht,
      BinaryReader.reader_pure_eq, BinaryReader.pure]

theorem forCount_spec {α β : Type} (item : BinaryReader α) (enc : β → List Byte) (dec : β → α)
    (xs : List β) (hlen : xs.length ≤ 2147483647)
    (h : ∀ x ∈ xs, ∀ rest, item (enc x ++ rest) = .ok (dec x, rest)) (rest : List Byte) :
    BinaryReader.forCount xs.length item ((xs.map enc).flatten ++ rest)
      = .ok (xs.map dec, rest) := by
  unfold BinaryReader.forCount
  rw [if_neg (by omega)]
  exact times_spec item enc dec xs h rest

theorem read_block_encodeBlock (file : Bool) (bs rest : List Byte)
    (h : bs.length < 4294967296) (hne : file = true → bs ≠ []) :
    BinaryReader.read_block file (encodeBlock bs ++ rest) = .ok (bs, rest) := by
  simp only [BinaryReader.read_block, encodeBlock, List.append_assoc,
    BinaryReader.reader_bind_eq, BinaryReader.bind,
    readUnsigned_encodeLE file 4 bs.length (by norm_num; exact h)]
  cases bs with
  | nil =>
    cases file with
    | true => exact absurd rfl (hne rfl)
    | false => simp [BinaryReader.read_n]
  | cons b t =>
    have hd : decide ((b :: t).length = 0) = false := by simp
    rw [hd]
    exact read_n_append file (b :: t) rest

theorem read_block_empty (rest : List Byte) :
    BinaryReader.read_block true (encodeBlock [] ++ rest) = .error .invalidArgument := by
  simp only [BinaryReader.read_block, encodeBlock, List.append_assoc,
    BinaryReader.reader_bind_eq, BinaryReader.bind,
    readUnsigned_encodeLE true 4 ([] : List Byte).length (by norm_num)]
  simp [BinaryReader.read_n]

theorem vectorAt_nat {α : Type} (v : List α) (n : Nat) (a : α) (hn : n < 4294967296)
    (h : v.get? n = some a) : vectorAt v (n : Int) = .ok a := by
  have e : toSizeT (n : Int) = n := by
    unfold toSizeT
    omega
  simp only [vectorAt, e, h]

theorem nameAt_get? (f : ImageFile) (idx : Nat) (h : idx < f.strings.length) :
    f.strings.get? idx = some (f.nameAt idx) := by
  simp [ImageFile.nameAt, List.getD, List.getElem?_eq_getElem h]

theorem readFlaggedEntry_bytes (f : ImageFile) (e : FlaggedEntry)
    (he : e.WellFormed f.strings.length) (rest : List Byte) :
    readFlaggedEntry f.strings (e.bytes ++ rest)
      = .ok ((f.nameAt e.nameIdx, e.codeOffset, e.flagOffsets,
          List.replicate ((e.rawFlagCount - 1) / 2) []), rest) := by
  obtain ⟨h1, h2, h3, h4, h5, h6, h7⟩ := he
  have hname := vectorAt_nat f.strings e.nameIdx _ h2 (nameAt_get? f e.nameIdx h1)
  have hoffs := times_spec (BinaryReader.readInt32 false) encodeI32 id e.flagOffsets
    (fun o ho r => readInt32_encodeI32 false o (h7 o ho) r) rest
  simp only [List.map_id] at hoffs
  simp only [readFlaggedEntry, FlaggedEntry.bytes, List.append_assoc, BinaryReader.reader_bind_eq,
    BinaryReader.bind, readUnsigned_encodeLE false 4 e.nameIdx (by norm_num; exact h2),
    BinaryReader.lift, hname,
    readUnsigned_encodeLE false 2 e.rawFlagCount (by norm_num; exact h4),
    readInt32_encodeI32 false e.codeOffset h6]
  by_cases hr : e.rawFlagCount = 1
  · have hnil : e.flagOffsets = [] := by
      apply List.eq_nil_of_length_eq_zero
      omega
    simp [hr, hnil, BinaryReader.reader_pure_eq, BinaryReader.pure]
  · have hne : (e.rawFlagCount : Int) - 1 ≠ 0 := by omega
    have hnn : ¬ (e.rawFlagCount : Int) - 1 < 0 := by omega
    have hto : ((e.rawFlagCount : Int) - 1).toNat = e.flagOffsets.length := by omega
    have hto2 : e.rawFlagCount - 1 = e.flagOffsets.length := by omega
    simp only [hne, ne_eq, not_false_eq_true, if_true, hnn, if_false, hto, hto2,
      BinaryReader.reader_pure_eq]
    simp only [BinaryReader.bind, hoffs, BinaryReader.pure]

theorem readDefinitionEntry_bytes (f : ImageFile) (e : DefinitionEntry)
    (he : e.WellFormed f.strings.length) (rest : List Byte) :
    readDefinitionEntry f.strings (e.bytes ++ rest)
      = .ok ((f.nameAt e.nameIdx, ImageFile.definitionOf e), rest) := by
  obtain ⟨h1, h2, h3, h4⟩ := he
  have hname := vectorAt_nat f.strings e.nameIdx _ h2 (nameAt_get? f e.nameIdx h1)
  simp only [readDefinitionEntry, DefinitionEntry.bytes, List.append_assoc,
    BinaryReader.reader_bind_eq, BinaryReader.bind,
    readUnsigned_encodeLE false 4 e.nameIdx (by norm_num; exact h2), BinaryReader.lift, hname,
    readUnsigned_encodeLE false 4 e.persisted (by norm_num; exact h3),
    readInt32_encodeI32 false e.codeOffset h4]
  by_cases hb : 2147483648 ≤ e.persisted
  · have h5 : e.persisted / 2147483648 % 2 ≠ 0 := by omega
    simp [h5, hb, ImageFile.definitionOf, BinaryReader.reader_pure_eq, BinaryReader.pure]
  · have h5 : ¬ e.persisted / 2147483648 % 2 ≠ 0 := by omega
    have h6 : e.persisted % 2147483648 = e.persisted := by omega
    simp [h5, hb, h6, ImageFile.definitionOf, BinaryReader.reader_pure_eq, BinaryReader.pure]

theorem readStringTable_encodeTable (file : Bool) (strings : List DxStr)
    (hs : ∀ s ∈ strings, IsCString s) (hlen : strings.length ≤ 2147483647)
    (rest : List Byte) :
    readStringTable file (encodeTable (strings.map encodeString) ++ rest)
      = .ok (strings, rest) := by
  have hskip := skip_append (encodeLE 4 (encodeLE 4 (strings.map encodeString).length ++
      (strings.map encodeString).flatten).length)
    (encodeLE 4 (strings.map encodeString).length ++
      ((strings.map encodeString).flatten ++ rest))
  rw [encodeLE_length] at hskip
  simp only [List.length_map] at hskip
  have hitems := forCount_spec BinaryReader.readString encodeString id strings hlen
    (fun s h r => readString_encodeString s (hs s h) r) rest
  simp only [List.map_id] at hitems
  simp only [readStringTable, encodeTable, encodeBlock, List.append_assoc,
    BinaryReader.reader_bind_eq, BinaryReader.bind, hskip, List.length_map,
    readUnsigned_encodeLE file 4 strings.length (by norm_num; omega), hitems]

theorem parse_table {α β : Type} (item : BinaryReader α) (enc : β → List Byte) (dec : β → α)
    (xs : List β) (hlen : xs.length ≤ 2147483647)
    (h : ∀ x ∈ xs, ∀ rest, item (enc x ++ rest) = .ok (dec x, rest)) (bs : List Byte) :
    parseBlock (encodeLE 4 (xs.map enc).length ++ (xs.map enc).flatten)
        (BinaryReader.bind (BinaryReader.readUnsigned false 4)
          (fun count => BinaryReader.forCount count item)) bs
      = .ok (xs.map dec, bs) := by
  have hitems := forCount_spec item enc dec xs hlen h []
  simp only [List.append_nil] at hitems
  simp only [parseBlock, BinaryReader.bind, List.length_map,
    readUnsigned_encodeLE false 4 xs.length (by norm_num; omega), hitems]

theorem lookup_isSome_iff {β : Type} (map : List (DxStr × β)) (key : DxStr) :
    (map.lookup key).isSome = true ↔ key ∈ map.map Prod.fst := by
  induction map with
  | nil => simp [List.lookup]
  | cons a t ih =>
    obtain ⟨k, v⟩ := a
    rw [List.map_cons, List.mem_cons]
    by_cases h : key = k
    · subst h
      have : List.lookup key ((key, v) :: t) = some v := by
        simp only [List.lookup, beq_self_eq_true]
      rw [this]
      exact ⟨fun _ => Or.inl rfl, fun _ => rfl⟩
    · have h2 : (key == k) = false := beq_false_of_ne h
      have : List.lookup key ((k, v) :: t) = List.lookup key t := by
        simp only [List.lookup, h2]
      rw [this, ih]
      exact ⟨fun hm => Or.inr hm, fun hm => hm.resolve_left h⟩

theorem foldl_mapEmplace {α β : Type} (key : α → DxStr) (val : α → β) (xs : List α) :
    ∀ (acc : List (DxStr × β)), (acc.map Prod.fst ++ xs.map key).Nodup →
      xs.foldl (fun map e => mapEmplace map (key e) (val e)) acc
        = acc ++ xs.map (fun e => (key e, val e)) := by
  induction xs with
  | nil => intro acc _; simp
  | cons x t ih =>
    intro acc hnd
    have hx : key x ∉ acc.map Prod.fst := by
      intro hmem
      have := List.nodup_append.mp hnd
      exact this.2.2 hmem (by simp)
    have hl : ¬ ((acc.lookup (key x)).isSome = true) := fun h =>
      hx ((lookup_isSome_iff acc (key x)).mp h)
    have hstep : mapEmplace acc (key x) (val x) = acc ++ [(key x, val x)] := by
      simp only [mapEmplace, hl, if_false, Bool.false_eq_true]
    rw [List.foldl_cons, hstep, ih (acc ++ [(key x, val x)])]
    · simp
    · simpa [List.map_append, List.append_assoc] using hnd

theorem readUnsigned_one (file : Bool) (b : Byte) (rest : List Byte) :
    BinaryReader.readUnsigned file 1 (b :: rest) = .ok (b.val, rest) := by
  simp [BinaryReader.readUnsigned, BinaryReader.reader_bind_eq, BinaryReader.bind, BinaryReader.read_n,
    BinaryReader.reader_pure_eq, BinaryReader.pure, leValue]

theorem read_block_encodeTable (file : Bool) (entries : List (List Byte))
    (h : 4 + entries.flatten.length < 4294967296) (rest : List Byte) :
    BinaryReader.read_block file (encodeTable entries ++ rest)
      = .ok (encodeLE 4 entries.length ++ entries.flatten, rest) := by
  unfold encodeTable
  apply read_block_encodeBlock
  · rw [List.length_append, encodeLE_length]
    exact h
  · intro _ hnil
    have := congrArg List.length hnil
    rw [List.length_append, encodeLE_length] at this
    simp at this

theorem readImageBody_layout (file : Bool) (f : ImageFile) (hf : f.WellFormed)
    (hi : file = true → f.instructions ≠ []) (he : file = true → f.externalFunctions ≠ []) :
    readImageBody file (decide (f.flags / 2 % 2 ≠ 0)) f.body = .ok (f.image, []) := by
  obtain ⟨_, _, _, htr, hstr, htrs, hls, hlt, hlsc, hlf, hld, hbs, hbf, hbd, hbi, hbe, hws, hwf,
    hwd, hns, hnd⟩ := hf
  have hscenes := parse_table (readFlaggedEntry f.strings) FlaggedEntry.bytes
    (fun e => (f.nameAt e.nameIdx, e.codeOffset, e.flagOffsets,
      List.replicate ((e.rawFlagCount - 1) / 2) ([] : DxStr))) f.scenes hlsc
    (fun e he r => readFlaggedEntry_bytes f e (hws e he) r)
  have hfuncs := parse_table (readFlaggedEntry f.strings) FlaggedEntry.bytes
    (fun e => (f.nameAt e.nameIdx, e.codeOffset, e.flagOffsets,
      List.replicate ((e.rawFlagCount - 1) / 2) ([] : DxStr))) f.functions hlf
    (fun e he r => readFlaggedEntry_bytes f e (hwf e he) r)
  have hdefs := parse_table (readDefinitionEntry f.strings) DefinitionEntry.bytes
    (fun e => (f.nameAt e.nameIdx, ImageFile.definitionOf e)) f.definitions hld
    (fun e he r => readDefinitionEntry_bytes f e (hwd e he) r)
  have hsc : List.foldl (fun map (e : DxStr × Int × List Int × List DxStr) =>
        mapEmplace map e.1 (⟨e.1, e.2.1, e.2.2.1, e.2.2.2⟩ : DxScene)) []
      (f.scenes.map (fun e => (f.nameAt e.nameIdx, e.codeOffset, e.flagOffsets,
        List.replicate ((e.rawFlagCount - 1) / 2) ([] : DxStr))))
      = f.scenes.map (fun e => (f.nameAt e.nameIdx, f.sceneOf e)) := by
    rw [List.foldl_map]
    have := foldl_mapEmplace (fun e : FlaggedEntry => f.nameAt e.nameIdx) f.sceneOf f.scenes []
      (by simpa using hns)
    simpa [ImageFile.sceneOf] using this
  have hdf : List.foldl (fun map (e : DxStr × DxDefinition) => mapEmplace map e.1 e.2) []
      (f.definitions.map (fun e => (f.nameAt e.nameIdx, ImageFile.definitionOf e)))
      = f.definitions.map (fun e => (f.nameAt e.nameIdx, ImageFile.definitionOf e)) := by
    rw [List.foldl_map]
    have := foldl_mapEmplace (fun e : DefinitionEntry => f.nameAt e.nameIdx)
      ImageFile.definitionOf f.definitions [] (by simpa using hnd)
    simpa using this
  have hs2 := hscenes []
  have hf2 := hfuncs []
  have hd2 := hdefs []
  have hext := read_block_encodeBlock file f.externalFunctions [] hbe he
  rw [List.append_nil] at hext
  unfold ImageFile.body
  by_cases hb : f.flags / 2 % 2 = 1
  · have hdec : decide (f.flags / 2 % 2 ≠ 0) = true := by
      have : f.flags / 2 % 2 ≠ 0 := by omega
      simp [this]
    rw [hdec]
    simp only [hb, if_true, readImageBody, BinaryReader.reader_bind_eq]
    simp only [BinaryReader.bind, read_block_encodeTable file _ hbs,
      read_block_encodeTable file _ hbf, read_block_encodeTable file _ hbd,
      read_block_encodeBlock file _ _ hbi hi,
      readStringTable_encodeTable file f.strings hstr hls,
      readStringTable_encodeTable file f.translations htrs hlt, hext]
    simp only [BinaryReader.bind] at hs2 hf2 hd2
    simp only [hs2, hf2, hd2, BinaryReader.reader_pure_eq, BinaryReader.pure, hsc, hdf,
      List.map_map]
    rfl
  · have hb0 : f.flags / 2 % 2 = 0 := by omega
    have hdec : decide (f.flags / 2 % 2 ≠ 0) = false := by simp [hb0]
    rw [hdec]
    simp only [hb, if_false, Bool.false_eq_true, readImageBody, BinaryReader.reader_bind_eq,
      List.nil_append]
    simp only [BinaryReader.bind, read_block_encodeTable file _ hbs,
      read_block_encodeTable file _ hbf, read_block_encodeTable file _ hbd,
      read_block_encodeBlock file _ _ hbi hi,
      readStringTable_encodeTable file f.strings hstr hls, BinaryReader.reader_pure_eq,
      BinaryReader.pure, hext]
    simp only [BinaryReader.bind] at hs2 hf2 hd2
    simp only [hs2, hf2, hd2, hsc, hdf, List.map_map]
    simp only [ImageFile.image, htr hb0]
    rfl

theorem readImageBody_empty_block (f : ImageFile) (hf : f.WellFormed)
    (h : f.instructions = [] ∨ f.externalFunctions = []) :
    readImageBody true (decide (f.flags / 2 % 2 ≠ 0)) f.body = .error .invalidArgument := by
  obtain ⟨_, _, _, htr, hstr, htrs, hls, hlt, hlsc, hlf, hld, hbs, hbf, hbd, hbi, hbe, hws, hwf,
    hwd, hns, hnd⟩ := hf
  have hemp := read_block_empty []
  rw [List.append_nil] at hemp
  unfold ImageFile.body
  by_cases hin : f.instructions = []
  · simp only [hin, readImageBody, BinaryReader.reader_bind_eq]
    simp only [BinaryReader.bind, read_block_encodeTable true _ hbs,
      read_block_encodeTable true _ hbf, read_block_encodeTable true _ hbd, read_block_empty]
  · have hex : f.externalFunctions = [] := h.resolve_left hin
    by_cases hb : f.flags / 2 % 2 = 1
    · have hdec : decide (f.flags / 2 % 2 ≠ 0) = true := by
        have : f.flags / 2 % 2 ≠ 0 := by omega
        simp [this]
      rw [hdec]
      simp only [hb, if_true, hex, readImageBody, BinaryReader.reader_bind_eq]
      simp only [BinaryReader.bind, read_block_encodeTable true _ hbs,
        read_block_encodeTable true _ hbf, read_block_encodeTable true _ hbd,
        read_block_encodeBlock true _ _ hbi (fun _ => hin),
        readStringTable_encodeTable true f.strings hstr hls,
        readStringTable_encodeTable true f.translations htrs hlt, hemp]
    · have hb0 : f.flags / 2 % 2 = 0 := by omega
      have hdec : decide (f.flags / 2 % 2 ≠ 0) = false := by simp [hb0]
      rw [hdec]
      simp only [hb, if_false, Bool.false_eq_true, hex, readImageBody,
        BinaryReader.reader_bind_eq, List.nil_append]
      simp only [BinaryReader.bind, read_block_encodeTable true _ hbs,
        read_block_encodeTable true _ hbf, read_block_encodeTable true _ hbd,
        read_block_encodeBlock true _ _ hbi (fun _ => hin),
        readStringTable_encodeTable true f.strings hstr hls, BinaryReader.reader_pure_eq,
        BinaryReader.pure, hemp]

theorem fromFile_uncompressed (uncompress : Nat → List Byte → Option (List Byte))
    (f : ImageFile) (hfl : f.flags < 256) (hf0 : f.flags % 2 = 0) (hun : f.unused.length = 4) :
    DxData.fromFile uncompress f.bytes
      = match readImageBody true (decide (f.flags / 2 % 2 ≠ 0)) f.body with
        | .ok (d, _) => .ok d
        | .error e => .error e := by
  have hflags : (Fin.ofNat f.flags : Fin 256).val = f.flags := Nat.mod_eq_of_lt hfl
  have hskip := skip_append f.unused
  rw [hun] at hskip
  have hc : ¬ f.flags % 2 ≠ 0 := by omega
  simp only [DxData.fromFile, ImageFile.bytes, List.cons_append, List.nil_append,
    List.append_assoc, BinaryReader.reader_bind_eq]
  have h68 : ((68 : Byte).val ≠ 68) = False := eq_false (by decide)
  have h78 : ((78 : Byte).val ≠ 78) = False := eq_false (by decide)
  have h88 : ((88 : Byte).val ≠ 88) = False := eq_false (by decide)
  have h4 : ((4 : Byte).val ≠ 4) = False := eq_false (by decide)
  simp only [BinaryReader.bind]
  rw [readUnsigned_one]
  simp only [h68, if_false, BinaryReader.bind]
  rw [readUnsigned_one]
  simp only [h78, if_false, BinaryReader.bind]
  rw [readUnsigned_one]
  simp only [h88, if_false, BinaryReader.bind]
  rw [readUnsigned_one]
  simp only [h4, if_false, BinaryReader.bind]
  rw [readUnsigned_one]
  simp only [hflags, hc, if_false, BinaryReader.bind]
  rw [hskip]
  rfl

theorem fromFile_compressed (uncompress : Nat → List Byte → Option (List Byte))
    (f : ImageFile) (packed : List Byte) (hfl : f.flags < 256) (hf0 : f.flags % 2 = 0)
    (hp : packed ≠ []) (hpl : packed.length < 4294967296) (hbl : f.body.length < 4294967296)
    (hun : uncompress f.body.length packed = some f.body) :
    DxData.fromFile uncompress (f.compressedBytes packed)
      = match readImageBody false (decide (f.flags / 2 % 2 ≠ 0)) f.body with
        | .ok (d, _) => .ok d
        | .error e => .error e := by
  have hflags : (Fin.ofNat (f.flags + 1) : Fin 256).val = f.flags + 1 :=
    Nat.mod_eq_of_lt (by omega)
  have hc : (f.flags + 1) % 2 ≠ 0 := by omega
  have htr : (f.flags + 1) / 2 % 2 = f.flags / 2 % 2 := by omega
  have hd : decide (packed.length = 0) = false := by
    cases packed with
    | nil => exact absurd rfl hp
    | cons b t => simp
  have hread := read_n_append true packed []
  rw [List.append_nil] at hread
  have hsize := readUnsigned_encodeLE true 4 packed.length (by norm_num; exact hpl) packed
  have husize := readUnsigned_encodeLE true 4 f.body.length (by norm_num; exact hbl)
    (encodeLE 4 packed.length ++ packed)
  simp only [DxData.fromFile, ImageFile.compressedBytes, List.cons_append, List.nil_append,
    List.append_assoc, BinaryReader.reader_bind_eq]
  have h68 : ((68 : Byte).val ≠ 68) = False := eq_false (by decide)
  have h78 : ((78 : Byte).val ≠ 78) = False := eq_false (by decide)
  have h88 : ((88 : Byte).val ≠ 88) = False := eq_false (by decide)
  have h4 : ((4 : Byte).val ≠ 4) = False := eq_false (by decide)
  simp only [BinaryReader.bind]
  rw [readUnsigned_one]
  simp only [h68, if_false, BinaryReader.bind]
  rw [readUnsigned_one]
  simp only [h78, if_false, BinaryReader.bind]
  rw [readUnsigned_one]
  simp only [h88, if_false, BinaryReader.bind]
  rw [readUnsigned_one]
  simp only [h4, if_false, BinaryReader.bind]
  rw [readUnsigned_one]
  simp only [hflags, hc, ne_eq, not_false_eq_true, if_true, BinaryReader.bind, husize, hsize,
    hd, hread, hun, htr, parseBlock]
  cases readImageBody false (decide (¬ f.flags / 2 % 2 = 0)) f.body with
  | error e => rfl
  | ok r => rfl

theorem lookup_map_of_mem {α β : Type} (key : α → DxStr) (val : α → β) (xs : List α)
    (hnd : (xs.map key).Nodup) (x : α) (hx : x ∈ xs) :
    (xs.map (fun e => (key e, val e))).lookup (key x) = some (val x) := by
  induction xs with
  | nil => cases hx
  | cons a t ih =>
    rw [List.map_cons, List.nodup_cons] at hnd
    rw [List.map_cons]
    rcases List.mem_cons.mp hx with rfl | hmem
    · simp only [List.lookup, beq_self_eq_true]
    · have hne : key x ≠ key a := by
        intro heq
        exact hnd.1 (heq ▸ List.mem_map_of_mem key hmem)
      have h2 : (key x == key a) = false := beq_false_of_ne hne
      simp only [List.lookup, h2]
      exact ih hnd.2 hmem

theorem lookup_map_of_not_mem {α β : Type} (key : α → DxStr) (val : α → β) (xs : List α)
    (name : DxStr) (h : name ∉ xs.map key) :
    (xs.map (fun e => (key e, val e))).lookup name = none := by
  have hiff := lookup_isSome_iff (xs.map (fun e => (key e, val e))) name
  rw [List.map_map] at hiff
  have hk : (Prod.fst ∘ fun e => (key e, val e)) = key := rfl
  rw [hk] at hiff
  cases hl : (xs.map (fun e => (key e, val e))).lookup name with
  | none => rfl
  | some v =>
    rw [hl] at hiff
    exact absurd (hiff.mp rfl) h

theorem image_loadedAs (f : ImageFile) (hf : f.WellFormed) : f.LoadedAs f.image := by
  obtain ⟨_, _, _, _, _, _, _, _, _, _, _, _, _, _, _, _, _, _, _, hns, hnd⟩ := hf
  refine ⟨rfl, rfl, rfl, rfl, rfl, rfl, ?_, ?_, ?_, ?_⟩
  · intro e he
    exact lookup_map_of_mem (fun e : FlaggedEntry => f.nameAt e.nameIdx) f.sceneOf f.scenes
      hns e he
  · intro name hname
    exact lookup_map_of_not_mem (fun e : FlaggedEntry => f.nameAt e.nameIdx) f.sceneOf
      f.scenes name hname
  · intro e he
    exact lookup_map_of_mem (fun e : DefinitionEntry => f.nameAt e.nameIdx)
      ImageFile.definitionOf f.definitions hnd e he
  · intro name hname
    exact lookup_map_of_not_mem (fun e : DefinitionEntry => f.nameAt e.nameIdx)
      ImageFile.definitionOf f.definitions name hname

theorem sampleImageFile_wellFormed : sampleImageFile.WellFormed := by
  unfold ImageFile.WellFormed
  refine ⟨by decide, by decide, by decide, by decide, ?_, ?_, by decide, by decide, by decide,
    by decide, by decide, by decide, by decide, by decide, by decide, by decide, ?_, ?_, ?_,
    by decide, by decide⟩
  · intro s hs
    simp only [sampleImageFile, List.mem_cons, List.mem_singleton, List.not_mem_nil, or_false] at hs
    rcases hs with rfl | rfl <;> unfold IsCString <;> decide
  · intro s hs
    simp only [sampleImageFile, List.mem_cons, List.mem_singleton, List.not_mem_nil, or_false] at hs
    rcases hs with rfl | rfl <;> unfold IsCString <;> decide
  · intro e he
    simp only [sampleImageFile, List.mem_cons, List.mem_singleton, List.not_mem_nil, or_false] at he
    subst he
    unfold FlaggedEntry.WellFormed IsI32
    decide
  · intro e he
    simp only [sampleImageFile, List.mem_cons, List.mem_singleton, List.not_mem_nil, or_false] at he
    subst he
    unfold FlaggedEntry.WellFormed IsI32
    decide
  · intro e he
    simp only [sampleImageFile, List.mem_cons, List.mem_singleton, List.not_mem_nil, or_false] at he
    subst he
    unfold DefinitionEntry.WellFormed IsI32
    decide

theorem loadableImageFile_wellFormed : loadableImageFile.WellFormed := by
  have h := sampleImageFile_wellFormed
  unfold ImageFile.WellFormed at h ⊢
  obtain ⟨h1, h2, h3, h4, h5, h6, h7, h8, h9, h10, h11, h12, h13, h14, h15, _, h17, h18, h19,
    h20, h21⟩ := h
  exact ⟨h1, h2, h3, h4, h5, h6, h7, h8, h9, h10, h11, h12, h13, h14, h15, by decide, h17, h18,
    h19, h20, h21⟩

/-- C30 (code at the failing input). An uncompressed image is read with the file reader, whose
`read_n` throws `std::invalid_argument` for a null destination, and `read_block` passes the
data pointer of a vector of the size of the block, which is null for size 0: for every
well-formed layout whose instruction block or external-function block is empty, `fromFile`
on the bytes of the layout throws `std::invalid_argument` and loads nothing (so for the sample
file, whose reserved external-function block is empty). The span reader has no such test: the
compressed form of the same layout loads. With both blocks non-empty the uncompressed layout
loads as the specification says: strings, translations, instructions and functions of the
file, every scene and definition found under its name, `raw_flag_count - 1` flag offsets and
`floor((raw_flag_count - 1) / 2)` empty flag names per entry, `is_internal = (w >= 2^31)` and
`value_string_index = w mod 2^31` for the persisted `w`, cache id -1 incremented once. -/
theorem empty_block_rejected_by_file_reader :
    (∀ (uncompress : Nat → List Byte → Option (List Byte)) (f : ImageFile), f.WellFormed →
      f.instructions = [] ∨ f.externalFunctions = [] →
      DxData.fromFile uncompress f.bytes = .error .invalidArgument) ∧
    DxData.fromFile (fun _ _ => none) sampleImageFile.bytes = .error .invalidArgument ∧
    (∀ (uncompress : Nat → List Byte → Option (List Byte)) (f : ImageFile)
      (packed : List Byte), f.WellFormed → packed ≠ [] → packed.length < 4294967296 →
      f.body.length < 4294967296 → uncompress f.body.length packed = some f.body →
      ∃ d, DxData.fromFile uncompress (f.compressedBytes packed) = .ok d ∧ f.LoadedAs d) ∧
    (∃ d, DxData.fromFile (fun _ _ => some sampleImageFile.body)
        (sampleImageFile.compressedBytes [1]) = .ok d ∧ sampleImageFile.LoadedAs d) ∧
    (∀ (uncompress : Nat → List Byte → Option (List Byte)) (f : ImageFile), f.WellFormed →
      f.instructions ≠ [] → f.externalFunctions ≠ [] →
      ∃ d, DxData.fromFile uncompress f.bytes = .ok d ∧ f.LoadedAs d ∧
        (∀ e ∈ f.scenes, (f.sceneOf e).flagOffsets.length = e.rawFlagCount - 1 ∧
          (f.sceneOf e).flagNames = List.replicate ((e.rawFlagCount - 1) / 2) []) ∧
        (∀ e ∈ f.functions, (f.functionOf e).flagOffsets.length = e.rawFlagCount - 1 ∧
          (f.functionOf e).flagNames = List.replicate ((e.rawFlagCount - 1) / 2) []) ∧
        (∀ e ∈ f.definitions,
          (ImageFile.definitionOf e).isInternal = decide (2147483648 ≤ e.persisted) ∧
          (ImageFile.definitionOf e).valueStringIndex = e.persisted % 2147483648)) ∧
    (∃ d, DxData.fromFile (fun _ _ => none) loadableImageFile.bytes = .ok d ∧
      loadableImageFile.LoadedAs d) := by
  have hfail : ∀ (uncompress : Nat → List Byte → Option (List Byte)) (f : ImageFile),
      f.WellFormed → f.instructions = [] ∨ f.externalFunctions = [] →
      DxData.fromFile uncompress f.bytes = .error .invalidArgument := by
    intro uncompress f hf h
    rw [fromFile_uncompressed uncompress f hf.1 hf.2.1 hf.2.2.1,
      readImageBody_empty_block f hf h]
  have hpacked : ∀ (uncompress : Nat → List Byte → Option (List Byte)) (f : ImageFile)
      (packed : List Byte), f.WellFormed → packed ≠ [] → packed.length < 4294967296 →
      f.body.length < 4294967296 → uncompress f.body.length packed = some f.body →
      ∃ d, DxData.fromFile uncompress (f.compressedBytes packed) = .ok d ∧ f.LoadedAs d := by
    intro uncompress f packed hf hp hpl hbl hun
    refine ⟨f.image, ?_, image_loadedAs f hf⟩
    rw [fromFile_compressed uncompress f packed hf.1 hf.2.1 hp hpl hbl hun,
      readImageBody_layout false f hf (fun h => by cases h) (fun h => by cases h)]
  have hgood : ∀ (uncompress : Nat → List Byte → Option (List Byte)) (f : ImageFile),
      f.WellFormed → f.instructions ≠ [] → f.externalFunctions ≠ [] →
      DxData.fromFile uncompress f.bytes = .ok f.image := by
    intro uncompress f hf hi he
    rw [fromFile_uncompressed uncompress f hf.1 hf.2.1 hf.2.2.1,
      readImageBody_layout true f hf (fun _ => hi) (fun _ => he)]
  refine ⟨hfail, hfail _ _ sampleImageFile_wellFormed (Or.inr rfl), hpacked, ?_, ?_, ?_⟩
  · exact hpacked _ sampleImageFile [1] sampleImageFile_wellFormed (by decide) (by decide)
      (by decide) rfl
  · intro uncompress f hf hi he
    refine ⟨f.image, hgood uncompress f hf hi he, image_loadedAs f hf, ?_, ?_, ?_⟩
    · intro e hmem
      have := (hf.2.2.2.2.2.2.2.2.2.2.2.2.2.2.2.2.1 e hmem).2.2.2.2.1
      refine ⟨?_, rfl⟩
      show e.flagOffsets.length = e.rawFlagCount - 1
      omega
    · intro e hmem
      have := (hf.2.2.2.2.2.2.2.2.2.2.2.2.2.2.2.2.2.1 e hmem).2.2.2.2.1
      refine ⟨?_, rfl⟩
      show e.flagOffsets.length = e.rawFlagCount - 1
      omega
    · intro e _
      exact ⟨rfl, rfl⟩
  · exact ⟨loadableImageFile.image,
      hgood _ loadableImageFile loadableImageFile_wellFormed (by decide) (by decide),
      image_loadedAs _ loadableImageFile_wellFormed⟩

theorem readTranslationHeader_bytes (count : Nat) (hc : count < 4294967296) (rest : List Byte) :
    readTranslationHeader (translationHeaderBytes count rest) = .ok (count, rest) := by
  have h68 : ((68 : Byte).val ≠ 68) = False := eq_false (by decide)
  have h88 : ((88 : Byte).val ≠ 88) = False := eq_false (by decide)
  have h84 : ((84 : Byte).val ≠ 84) = False := eq_false (by decide)
  have h0 : ((0 : Byte).val ≠ 0) = False := eq_false (by decide)
  have hcount := readUnsigned_encodeLE true 4 count (by simpa using hc) rest
  simp only [readTranslationHeader, translationHeaderBytes, List.cons_append, List.nil_append,
    BinaryReader.reader_bind_eq]
  simp only [BinaryReader.bind]
  rw [readUnsigned_one]
  simp only [h68, if_false, BinaryReader.bind]
  rw [readUnsigned_one]
  simp only [h88, if_false, BinaryReader.bind]
  rw [readUnsigned_one]
  simp only [h84, if_false, BinaryReader.bind]
  rw [readUnsigned_one]
  simp only [h0, if_false]
  exact hcount

theorem readTranslations_spec (t : List DxStr) (ht : ∀ s ∈ t, IsCString s) (rest : List Byte) :
    ∀ d : DxData, readTranslations t.length ((t.map encodeString).flatten ++ rest) d
      = (.ok (), { d with m_translations := d.m_translations ++ t }) := by
  induction t with
  | nil =>
    intro d
    simp [readTranslations]
  | cons s t ih =>
    intro d
    have hs := readString_encodeString s (ht s (List.mem_cons_self s t))
      ((t.map encodeString).flatten ++ rest)
    have iht := ih (fun x hx => ht x (List.mem_cons_of_mem s hx))
      { d with m_translations := d.m_translations ++ [s] }
    simp only [List.length_cons, readTranslations, List.map_cons, List.flatten_cons,
      List.append_assoc, hs, iht, List.singleton_append]

theorem loadTranslationFile_accepted (d : DxData) (t : List DxStr)
    (hcount : d.m_translations = [] ∨ t.length = d.m_translations.length)
    (ht : ∀ s ∈ t, IsCString s) (hlen : t.length ≤ 2147483647)
    (hid : d.m_currentCacheID ≠ 2147483647) :
    d.loadTranslationFile (translationFileBytes t)
      = (.ok (),
          match d.m_originalText with
          | none => { d with
              m_originalText := some d.m_translations, m_translations := t,
              m_currentCacheID := d.m_currentCacheID + 1 }
          | some _ => { d with
              m_translations := d.m_translations ++ t,
              m_currentCacheID := d.m_currentCacheID + 1 }) := by
  have hh := readTranslationHeader_bytes t.length (by omega) (t.map encodeString).flatten
  have hc : ¬ (d.m_translations ≠ [] ∧ t.length ≠ d.m_translations.length) := by
    rintro ⟨h1, h2⟩
    rcases hcount with h | h
    · exact h1 h
    · exact h2 h
  have hl : ¬ 2147483647 < t.length := by omega
  have hr := fun d1 => readTranslations_spec t ht [] d1
  simp only [List.append_nil] at hr
  simp only [DxData.loadTranslationFile, translationFileBytes, hh, hc, if_false, hl, hr]
  cases ho : d.m_originalText with
  | none => simp only [hid, if_false, List.nil_append]
  | some o => simp only [hid, if_false, ho]

/-- C31 (amended). For every image that holds at least one translation and every translation
file whose header is valid and whose `count` differs from the number of translations of the
image, `loadTranslationFile` throws `data_processing_exception` (the count mismatch) before
it changes anything: translations, original text and cache id are those of before. -/
theorem translation_count_mismatch_rejected (d : DxData) (count : Nat) (rest : List Byte)
    (hc : count < 4294967296) (hne : d.m_translations ≠ [])
    (hdiff : count ≠ d.m_translations.length) :
    d.loadTranslationFile (translationHeaderBytes count rest) = (.error .dataProcessing, d) := by
  simp only [DxData.loadTranslationFile, readTranslationHeader_bytes count hc rest]
  rw [if_pos ⟨hne, hdiff⟩]

/-- Witness of C31: an image with one translation rejects a file that announces two. -/
theorem translation_count_mismatch_rejected_witness :
    (translatedImage ["Hello".toList]).loadTranslationFile
        (translationFileBytes ["Bonjour".toList, "Salut".toList])
      = (.error .dataProcessing, translatedImage ["Hello".toList]) :=
  translation_count_mismatch_rejected (translatedImage ["Hello".toList]) 2
    (["Bonjour".toList, "Salut".toList].map encodeString).flatten (by decide)
    (by decide) (by decide)

/-- Counterexample to C31: an image that holds no translation accepts a translation file of
one string, although 1 differs from 0: the load returns, the translations become that
string, the original text is set and the cache id moves from 0 to 1. -/
theorem empty_translations_accept_any_count :
    (translatedImage []).loadTranslationFile (translationFileBytes ["Bonjour".toList])
      = (.ok (), { translatedImage [] with
          m_translations := ["Bonjour".toList], m_originalText := some [],
          m_currentCacheID := 1 }) :=
  loadTranslationFile_accepted (translatedImage []) ["Bonjour".toList] (Or.inl rfl)
    (by
      intro s hs
      simp only [List.mem_singleton] at hs
      subst hs
      unfold IsCString
      decide)
    (by decide) (by decide)

/-- C32 (code at the failing input). The first successful `loadTranslationFile` of an image
(its original text still empty) replaces the translations by the strings `t` of the file,
keeps them as original text, leaves the string table alone and adds 1 to the cache id.
Every later successful load finds the original text set, does not clear the translations,
and appends: the translations become the previous ones followed by `t`, twice as many as
the file holds. After loading `Bonjour` and then `Hallo` into an image of one translation,
the translations are `Bonjour`, `Hallo`, and index 0 still reads `Bonjour`. -/
theorem later_translation_load_appends :
    (∀ (d : DxData) (t : List DxStr), d.m_originalText = none →
      (d.m_translations = [] ∨ t.length = d.m_translations.length) →
      (∀ s ∈ t, IsCString s) → t.length ≤ 2147483647 → d.m_currentCacheID ≠ 2147483647 →
      d.loadTranslationFile (translationFileBytes t)
        = (.ok (), { d with
            m_originalText := some d.m_translations, m_translations := t,
            m_currentCacheID := d.m_currentCacheID + 1 })) ∧
    (∀ (d : DxData) (t o : List DxStr), d.m_originalText = some o →
      (d.m_translations = [] ∨ t.length = d.m_translations.length) →
      (∀ s ∈ t, IsCString s) → t.length ≤ 2147483647 → d.m_currentCacheID ≠ 2147483647 →
      d.loadTranslationFile (translationFileBytes t)
        = (.ok (), { d with
            m_translations := d.m_translations ++ t,
            m_currentCacheID := d.m_currentCacheID + 1 })) ∧
    ((translatedImage ["Hello".toList]).loadTranslationFile
        (translationFileBytes ["Bonjour".toList])).1 = .ok () ∧
    (((translatedImage ["Hello".toList]).loadTranslationFile
        (translationFileBytes ["Bonjour".toList])).2.loadTranslationFile
        (translationFileBytes ["Hallo".toList]))
      = (.ok (), { translatedImage ["Hello".toList] with
          m_translations := ["Bonjour".toList, "Hallo".toList],
          m_originalText := some ["Hello".toList], m_currentCacheID := 2 }) ∧
    (((translatedImage ["Hello".toList]).loadTranslationFile
        (translationFileBytes ["Bonjour".toList])).2.loadTranslationFile
        (translationFileBytes ["Hallo".toList])).2.translation 0 = .ok "Bonjour".toList := by
  refine ⟨?_, ?_, by decide, by decide, by decide⟩
  · intro d t ho hcount ht hlen hid
    rw [loadTranslationFile_accepted d t hcount ht hlen hid, ho]
  · intro d t o ho hcount ht hlen hid
    rw [loadTranslationFile_accepted d t hcount ht hlen hid, ho]

theorem DefaultHandlers.foldl_get_stores (calls : List HostCall) :
    ∀ h : DefaultHandlers,
      (calls.foldl DefaultHandlers.record h).m_getVariableHandler = h.m_getVariableHandler ∧
      (calls.foldl DefaultHandlers.record h).m_getFlagHandler = h.m_getFlagHandler := by
  induction calls with
  | nil => intro h; exact ⟨rfl, rfl⟩
  | cons c rest ih =>
    intro h
    rw [List.foldl_cons]
    obtain ⟨h1, h2⟩ := ih (h.record c)
    rw [h1, h2]
    cases c <;> exact ⟨rfl, rfl⟩

theorem DefaultVariableStore.get_set_set (s : DefaultVariableStore) (n : DxStr) (v w : DxValue) :
    ((s.set n v).set n w).get n = (s.set n v).get n := by
  have hsome : ((mapEmplace s.container n v).lookup n).isSome = true := by
    unfold mapEmplace
    split
    · assumption
    · rw [List.lookup_append]
      cases h : List.lookup n s.container with
      | some x => rfl
      | none => simp [List.lookup]
  simp only [DefaultVariableStore.get, DefaultVariableStore.set]
  rw [show mapEmplace (mapEmplace s.container n v) n w = mapEmplace s.container n v from by
    unfold mapEmplace at hsome ⊢
    rw [if_pos hsome]]

/-- C33 (code at the failing input). The constructor assigns the global store to the set
member and to the get member separately, and each `std::function` keeps a copy of its own:
what a default set handler stores is never seen by the default get handler, whose store
stays empty. After any invocations, the default variable-get and flag-get throw
`std::out_of_range` for every name. The scene `pushi 5; pushi 0; setvarglb; pushi 0;
pushvarglb; exit` on a freshly constructed interpreter stores 5 under `x` and then fails in
`pushvarglb` with `std::out_of_range`, after two callback invocations. Within the store of a set handler `emplace` keeps the
first value of a name: a second value stored under the same name is dropped. -/
theorem default_get_never_sees_default_set :
    (∀ (calls : List HostCall) (name : DxStr),
      (DefaultHandlers.after calls).m_getVariableHandler.get name = .error .outOfRange ∧
      (DefaultHandlers.after calls).m_getFlagHandler.get name = .error .outOfRange) ∧
    (∀ (fp : FloatOps) (random_real : List HostCall → DxDouble → DxDouble → DxDouble)
      (calls : List HostCall) (name : DxStr) (v : DxValue),
      (defaultHost fp random_real).getVariable
          (calls ++ [.setVariable name v]) name = .error .outOfRange ∧
      (defaultHost fp random_real).getFlag
          (calls ++ [.setFlag name v]) name = .error .outOfRange) ∧
    (runScene ⟨sampleFloatOps, defaultHost sampleFloatOps (fun _ _ _ => DxDouble.zero)⟩ 10
        "main".toList (DxInterpreter.fresh variableImage)).1 = .error .outOfRange ∧
    (runScene ⟨sampleFloatOps, defaultHost sampleFloatOps (fun _ _ _ => DxDouble.zero)⟩ 10
        "main".toList (DxInterpreter.fresh variableImage)).2.hostCalls.length = 2 ∧
    (runScene ⟨sampleFloatOps, defaultHost sampleFloatOps (fun _ _ _ => DxDouble.zero)⟩ 10
        "main".toList (DxInterpreter.fresh variableImage)).2.m_programCounter = 17 ∧
    (∀ (s : DefaultVariableStore) (n : DxStr) (v w : DxValue),
      ((s.set n v).set n w).get n = (s.set n v).get n) ∧
    (∀ (n : DxStr) (v w : DxValue), ((defaultVarStore.set n v).set n w).get n = .ok v) := by
  have hget : ∀ (calls : List HostCall) (name : DxStr),
      (DefaultHandlers.after calls).m_getVariableHandler.get name = .error .outOfRange ∧
      (DefaultHandlers.after calls).m_getFlagHandler.get name = .error .outOfRange := by
    intro calls name
    obtain ⟨h1, h2⟩ := DefaultHandlers.foldl_get_stores calls DefaultHandlers.fresh
    unfold DefaultHandlers.after
    rw [h1, h2]
    exact ⟨rfl, rfl⟩
  refine ⟨hget, ?_, by decide!, by decide!, by decide!, DefaultVariableStore.get_set_set, ?_⟩
  · intro fp random_real calls name v
    exact ⟨(hget _ name).1, (hget _ name).2⟩
  · intro n v w
    rw [DefaultVariableStore.get_set_set]
    simp [DefaultVariableStore.get, DefaultVariableStore.set, defaultVarStore, mapEmplace,
      List.lookup]

theorem selectWeight_zeros (fp : FloatOps) (r : DxDouble)
    (h : fp.lt DxDouble.zero DxDouble.zero = false) (n : Nat) :
    ∀ (i sel : Int),
      selectWeight fp r (List.replicate n DxDouble.zero) i sel DxDouble.zero = sel := by
  induction n with
  | zero => intro i sel; rfl
  | succ n ih =>
    intro i sel
    simp only [List.replicate_succ, selectWeight, h, Bool.and_false]
    exact ih (i + 1) sel

/-- C36 (code at the failing input). The default weighted-chance handler builds
`fixedWeights` with `count` zeros before it pushes the running sums, so the loop that
selects an index compares the draw with `0.0` at every index: for every non-empty list of
weights and every draw `r >= 0` it returns index 0, whatever the weights are. -/
theorem default_weighted_chance_returns_first_index (fp : FloatOps)
    (random_real : DxDouble → DxDouble → DxDouble) (chances : List DxDouble)
    (hne : chances ≠ [])
    (hneg : fp.lt DxDouble.minusOne DxDouble.zero = true)
    (hzero : fp.lt DxDouble.zero DxDouble.zero = false)
    (hr : fp.le DxDouble.zero
      (random_real DxDouble.zero (pushedWeights fp DxDouble.zero chances).2) = true) :
    defaultWeightedChance fp random_real chances = 0 := by
  cases chances with
  | nil => exact absurd rfl hne
  | cons c rest =>
    simp only [defaultWeightedChance]
    rw [List.take_left' (List.length_replicate _ _)]
    simp only [List.length_cons, List.replicate_succ, selectWeight, hr, hneg, Bool.and_self,
      if_true]
    exact selectWeight_zeros fp _ hzero _ _ _

/-- Witness of C36: with the weights `0.0, 1.0` and the draw `0.5` the handler returns index
0, whose weight is 0, where the weighted pick is index 1. -/
theorem default_weighted_chance_returns_first_index_witness :
    defaultWeightedChance orderedFloatOps (fun _ _ => DxDouble.half)
      [DxDouble.zero, DxDouble.one] = 0 :=
  default_weighted_chance_returns_first_index orderedFloatOps (fun _ _ => DxDouble.half)
    [DxDouble.zero, DxDouble.one] (by simp) (by decide) (by decide) (by decide)

/-- C38 (code at the failing input). For an operator other than `==` and `!=`, a right operand
of tag Undefined and a left operand of another tag (a String under `+` excepted), the
coercion step converts the left operand to Undefined, which `convert` answers with the
operand itself, and calls the operator again on the same pair: the evaluation never
returns, whatever number of nested calls is allowed. -/
theorem coercion_to_undefined_never_returns (fp : FloatOps) (op : BinOp) (l r : DxValue)
    (fuel : Nat) (hop : op.nullcheck = none) (hr : r.type = .Undefined)
    (hl : l.type ≠ .Undefined) (hadd : ¬ (op = .add ∧ l.type = .String)) :
    DxValue.binop fp op fuel l r = .error .fuelExhausted := by
  induction fuel with
  | zero => rfl
  | succ n ih =>
    have hne : l.type ≠ r.type := by rw [hr]; exact hl
    have hcond : op.cond l.type r.type = false := by
      rw [hr]
      cases op <;> simp [BinOp.cond]
      intro h
      exact hadd ⟨rfl, h⟩
    have hconv : l.convert fp r.type = .ok l := by
      unfold DxValue.convert
      rw [if_pos (Or.inr hr)]
    unfold DxValue.binop
    simp only [hop, hne, hcond, hconv, ih]
    simp
    intro h
    exact absurd h hne

/-- Witness of C38: `Integer 1 + Undefined` is still running after 1000 nested calls of the
operator. -/
theorem coercion_to_undefined_never_returns_witness :
    DxValue.binop sampleFloatOps .add 1000 (DxValue.ofInt 1) DxValue.undefined
      = .error .fuelExhausted :=
  coercion_to_undefined_never_returns sampleFloatOps .add (DxValue.ofInt 1) DxValue.undefined
    1000 rfl rfl (by decide) (by decide)

/-- C40 (code at the failing input). Neither `endScene` nor `clearVMState` resets
`m_startingChoice`. On a fresh interpreter `run_scene("main")` over the scene
`choicebeg; exit` returns in state `Inactive` with `m_startingChoice` still true, a state
reachable through `run_scene` alone; the next `run_scene("main")` fails in `choicebeg` with
the `diannex_exception` of its state check and leaves the interpreter `Running`. -/
theorem starting_choice_survives_end_of_scene :
    (∀ (env : Env) (m : DxInterpreter),
      (endScene env m).2.m_startingChoice = m.m_startingChoice ∧
      (clearVMState m).2.m_startingChoice = m.m_startingChoice) ∧
    Reachable sampleEnv
      (runScene sampleEnv 10 "main".toList (DxInterpreter.fresh abandonedChoiceImage)).2 ∧
    (runScene sampleEnv 10 "main".toList (DxInterpreter.fresh abandonedChoiceImage)).1
      = .ok () ∧
    (runScene sampleEnv 10 "main".toList (DxInterpreter.fresh abandonedChoiceImage)).2.m_state
      = .Inactive ∧
    (runScene sampleEnv 10 "main".toList
      (DxInterpreter.fresh abandonedChoiceImage)).2.m_startingChoice = true ∧
    (runScene sampleEnv 10 "main".toList
      (runScene sampleEnv 10 "main".toList (DxInterpreter.fresh abandonedChoiceImage)).2).1
      = .error .diannexException ∧
    (runScene sampleEnv 10 "main".toList
      (runScene sampleEnv 10 "main".toList
        (DxInterpreter.fresh abandonedChoiceImage)).2).2.m_state = .Running := by
  refine ⟨?_, Reachable.runScene 10 "main".toList (Reachable.fresh abandonedChoiceImage),
    by decide!, by decide!, by decide!, by decide!, by decide!⟩
  intro env m
  refine ⟨?_, rfl⟩
  simp only [endScene, Exec.bind_eq, Exec.bind, Exec.modify, Exec.get]
  cases m.m_currentScene with
  | none => rfl
  | some scene => rfl

theorem popStrings_append (env : Env) (vs : List DxValue) (rest : List DxValue) :
    ∀ (args : List DxStr) (m : DxInterpreter),
      vs.map (fun v => v.safeGetString env.fp) = args.map Except.ok →
      m.m_stack = vs ++ rest →
      popStrings env vs.length m = (.ok args, { m with m_stack := rest }) := by
  induction vs with
  | nil =>
    intro args m hargs h
    cases args with
    | nil =>
      simp only [List.nil_append] at h
      simp only [List.length_nil, popStrings, Exec.pure, ← h]
    | cons a t => simp at hargs
  | cons v t ih =>
    intro args m hargs h
    cases args with
    | nil => simp at hargs
    | cons a at1 =>
      simp only [List.map_cons, List.cons.injEq] at hargs
      obtain ⟨hv, ht⟩ := hargs
      have h1 : pop m = (.ok v, { m with m_stack := t ++ rest }) := by
        simp only [pop, h, List.cons_append]
      have h2 := ih at1 { m with m_stack := t ++ rest } ht rfl
      simp only [List.length_cons, popStrings, Exec.bind_eq, Exec.bind, h1, Exec.lift, hv, h2,
        Exec.pure_eq, Exec.pure]

/-- C34. In a state whose code at the program counter is `pushints idx n` (or `pushbints`),
with `template = translations[idx]` (or `strings[idx]`), whose operand stack holds the `n`
values `vs` above `rest`, the top first, each with a String conversion (`args[k]` for the
value `k` positions below the top): the instruction pops exactly those `n` values and
pushes the String `interpolate(template, args)`, leaving `rest` below it untouched; when
`interpolate` throws, the instruction throws the same exception after the `n` pops. -/
theorem pushints_interpolates_popped_strings (env : Env) (fuel : Nat) (m : DxInterpreter)
    (translated : Bool) (idx n : Int) (template : DxStr) (vs rest : List DxValue)
    (args : List DxStr) (hidx : IsI32 idx) (hn : IsI32 n)
    (hcode : m.m_data.codeAt m.m_programCounter
      (enc2 (if translated then .pushints else .pushbints) idx n))
    (htemplate : (if translated then m.m_data.translation idx else m.m_data.string idx)
      = .ok template)
    (hstack : m.m_stack = vs ++ rest) (hlen : (vs.length : Int) = n)
    (hargs : vs.map (fun v => v.safeGetString env.fp) = args.map Except.ok) :
    interpret env fuel m =
      match interpolate template args with
      | .ok text => (.ok (), { m with
          m_programCounter := m.m_programCounter + 9,
          m_stack := DxValue.ofString text :: rest })
      | .error e => (.error e, { m with
          m_programCounter := m.m_programCounter + 9, m_stack := rest }) := by
  have hop : execOpcode env fuel (if translated then DxOpcode.pushints else DxOpcode.pushbints)
      = execPushints env translated := by
    cases translated <;> rfl
  have hargsAt := DxData.codeAt_tail hcode
  have e1 := argII_codeAt (m := { m with m_programCounter := m.m_programCounter + 1 })
    hidx hn hargsAt
  have hcount : ¬ n < 0 := by omega
  have hnat : n.toNat = vs.length := by omega
  have hpop := popStrings_append env vs rest args
    { m with m_programCounter := m.m_programCounter + 1 + 8 } hargs hstack
  have e9 : m.m_programCounter + 1 + 8 = m.m_programCounter + 9 := by omega
  rw [e9] at hpop e1
  rw [interpret_codeAt env fuel hcode, hop]
  simp only [execPushints, Exec.bind_eq, Exec.bind, e1, Exec.get, Exec.lift, htemplate,
    vectorOfCount, hcount, if_false, Exec.pure, hnat, hpop]
  cases interpolate template args with
  | ok text => rfl
  | error e => rfl

/-- Witness of C34: `pushbints 0 2` over the template `${0} and ${1}` with the String `a` and
the Integers 7 and 99 on the stack, `a` on top, pushes `a and 7` and leaves 99 below. -/
theorem pushints_interpolates_popped_strings_witness :
    interpret sampleEnv 0 (runningAt interpolationImage 0
        [DxValue.ofString "a".toList, DxValue.ofInt 7, DxValue.ofInt 99])
      = (.ok (), { runningAt interpolationImage 0
            [DxValue.ofString "a".toList, DxValue.ofInt 7, DxValue.ofInt 99] with
          m_programCounter := 9,
          m_stack := [DxValue.ofString "a and 7".toList, DxValue.ofInt 99] }) :=
  pushints_interpolates_popped_strings sampleEnv 0 (runningAt interpolationImage 0
      [DxValue.ofString "a".toList, DxValue.ofInt 7, DxValue.ofInt 99]) false 0 2
    "$\x7b0\x7d and $\x7b1\x7d".toList [DxValue.ofString "a".toList, DxValue.ofInt 7]
    [DxValue.ofInt 99] ["a".toList, "7".toList] (by decide) (by decide) (by decide) rfl rfl
    rfl rfl

theorem executeEvalMultiple_frame (env : Env) (fuel : Nat) (address : Int) (m : DxInterpreter) :
    SameImage m (executeEvalMultiple env fuel address m).2 := by
  simp only [executeEvalMultiple, Exec.bind_eq]
  simp only [Exec.bind, assert_state_eq]
  by_cases h : m.m_state = .Inactive
  · simp only [h, if_true, Exec.modify]
    exact dispatchLoop_frame env .Eval fuel
      { m with m_state := .Eval, m_programCounter := address }
  · simp only [h, if_false]
    exact ⟨rfl, rfl⟩

theorem valueNoCache_cachedId (env : Env) (fuel : Nat) (inst : DxDefinitionInstance)
    (m : DxInterpreter) :
    (DxDefinitionInstance.valueNoCache env fuel inst m).2.1.m_cachedId = inst.m_cachedId := by
  unfold DxDefinitionInstance.valueNoCache
  dsimp only
  repeat' split
  all_goals rfl

theorem valueNoCache_ok (env : Env) (fuel : Nat) (inst inst1 : DxDefinitionInstance)
    (m m1 : DxInterpreter) (s : DxStr)
    (h : DxDefinitionInstance.valueNoCache env fuel inst m = (.ok s, inst1, m1)) :
    inst1 = { inst with m_cachedValue := some s } ∧ m1.m_data = m.m_data := by
  unfold DxDefinitionInstance.valueNoCache at h
  by_cases hoff : inst.m_target.codeOffset ≠ -1
  · rw [if_pos hoff] at h
    have hf1 := executeEvalMultiple_frame env fuel inst.m_target.codeOffset m
    cases h1 : executeEvalMultiple env fuel inst.m_target.codeOffset m with
    | mk r1 ma =>
      rw [h1] at h hf1
      cases r1 with
      | error e => simp at h
      | ok u =>
        have hf2 := (popStrings_keeps env ma.m_stack.length ma).sameImage
        cases h2 : popStrings env ma.m_stack.length ma with
        | mk r2 mb =>
          rw [h2] at hf2
          simp only [h2] at h
          cases r2 with
          | error e => simp at h
          | ok elems =>
            simp only at h
            split at h
            · simp at h
            · simp only [Prod.mk.injEq, Except.ok.injEq] at h
              obtain ⟨hs, hi, hm⟩ := h
              subst hs hm
              exact ⟨hi.symm, hf2.1.trans hf1.1⟩
  · rw [if_neg hoff] at h
    simp only at h
    split at h
    · simp at h
    · simp only [Prod.mk.injEq, Except.ok.injEq] at h
      obtain ⟨hs, hi, hm⟩ := h
      subst hs hm
      exact ⟨hi.symm, rfl⟩

theorem value_cached (env : Env) (fuel : Nat) (inst : DxDefinitionInstance) (m : DxInterpreter)
    (s : DxStr) (hv : inst.m_cachedValue = some s)
    (hid : inst.m_cachedId = m.m_data.m_currentCacheID) :
    inst.value env fuel m = (.ok s, inst, m) := by
  unfold DxDefinitionInstance.value
  simp [hv, hid]

/-- C35. For every definition instance and interpreter: when the instance holds a cached
string and its `m_cachedId` is the cache id of the image, `value()` returns that string and
changes neither the instance nor the interpreter (no bytecode runs, the operand stack is
untouched); otherwise `value()` is `valueNoCache()` on the instance with `m_cachedId` set to
the cache id of the image, which with a code offset other than -1 starts with
`executeEvalMultiple` (its exception is the exception of `value()`) and with the code offset
-1 leaves the interpreter alone. Hence when `value()` returns a string, the next `value()`
returns the same string without changing anything. On the definition of `Score: ${0}` with
code `pushi 7; exit` the first call returns `Score: 7` and caches it under id 0. -/
theorem definition_value_recomputes_only_when_stale (env : Env) (fuel : Nat)
    (inst : DxDefinitionInstance) (m : DxInterpreter) :
    (∀ s, inst.m_cachedValue = some s → inst.m_cachedId = m.m_data.m_currentCacheID →
      inst.value env fuel m = (.ok s, inst, m)) ∧
    (inst.m_cachedValue = none ∨ inst.m_cachedId ≠ m.m_data.m_currentCacheID →
      inst.value env fuel m
        = DxDefinitionInstance.valueNoCache env fuel
            { inst with m_cachedId := m.m_data.m_currentCacheID } m ∧
      (inst.value env fuel m).2.1.m_cachedId = m.m_data.m_currentCacheID ∧
      (inst.m_target.codeOffset ≠ -1 → ∀ e m1,
        executeEvalMultiple env fuel inst.m_target.codeOffset m = (.error e, m1) →
        inst.value env fuel m
          = (.error e, { inst with m_cachedId := m.m_data.m_currentCacheID }, m1)) ∧
      (inst.m_target.codeOffset = -1 → (inst.value env fuel m).2.2 = m)) ∧
    (∀ s inst1 m1, inst.value env fuel m = (.ok s, inst1, m1) →
      inst1.value env fuel m1 = (.ok s, inst1, m1)) ∧
    (scoreDefinition.value sampleEnv 5 (DxInterpreter.fresh definitionImage)).1
      = .ok "Score: 7".toList ∧
    (scoreDefinition.value sampleEnv 5 (DxInterpreter.fresh definitionImage)).2.1
      = ⟨⟨0, 0, true⟩, some "Score: 7".toList, 0⟩ := by
  have hmiss : inst.m_cachedValue = none ∨ inst.m_cachedId ≠ m.m_data.m_currentCacheID →
      inst.value env fuel m
        = DxDefinitionInstance.valueNoCache env fuel
            { inst with m_cachedId := m.m_data.m_currentCacheID } m := by
    intro h
    unfold DxDefinitionInstance.value
    have hc : m.m_data.m_currentCacheID ≠ inst.m_cachedId ∨ inst.m_cachedValue.isNone = true := by
      rcases h with h | h
      · exact Or.inr (by rw [h]; rfl)
      · exact Or.inl (fun e => h e.symm)
    simp only [hc, if_true]
  refine ⟨value_cached env fuel inst m, ?_, ?_, by decide!, by decide!⟩
  · intro h
    refine ⟨hmiss h, ?_, ?_, ?_⟩
    · rw [hmiss h, valueNoCache_cachedId]
    · intro hoff e m1 he
      rw [hmiss h]
      unfold DxDefinitionInstance.valueNoCache
      simp only [hoff, ne_eq, not_false_eq_true, if_true, he]
    · intro hoff
      rw [hmiss h]
      unfold DxDefinitionInstance.valueNoCache
      simp only [hoff, ne_eq, not_true_eq_false, if_false]
      split <;> rfl
  · intro s inst1 m1 h
    by_cases hhit : inst.m_cachedValue = none ∨ inst.m_cachedId ≠ m.m_data.m_currentCacheID
    · rw [hmiss hhit] at h
      obtain ⟨hi, hd⟩ := valueNoCache_ok env fuel _ inst1 m m1 s h
      apply value_cached env fuel inst1 m1 s
      · rw [hi]
      · rw [hi, hd]
    · have hv : ∃ s0, inst.m_cachedValue = some s0 := by
        cases hc : inst.m_cachedValue with
        | none => exact absurd (Or.inl hc) hhit
        | some s0 => exact ⟨s0, rfl⟩
      obtain ⟨s0, hs0⟩ := hv
      have hid : inst.m_cachedId = m.m_data.m_currentCacheID := by
        by_contra hne
        exact hhit (Or.inr hne)
      rw [value_cached env fuel inst m s0 hs0 hid] at h
      simp only [Prod.mk.injEq, Except.ok.injEq] at h
      obtain ⟨hs, hi, hm⟩ := h
      subst hs hi hm
      exact value_cached env fuel inst m s0 hs0 hid

theorem Exec.Stays.stays_pure {α : Type} (a : α) : (Pure.pure a : Exec α).Stays :=
  fun _ => rfl

theorem Exec.Stays.stays_pure_eq {α : Type} (a : α) : (Exec.pure a).Stays :=
  fun _ => rfl

theorem Exec.Stays.stays_bind {α β : Type} {x : Exec α} {f : α → Exec β} (hx : x.Stays)
    (hf : ∀ a, (f a).Stays) : (x >>= f).Stays := by
  intro m
  show (Exec.bind x f m).2.m_state = m.m_state
  unfold Exec.bind
  have h1 := hx m
  cases hxm : x m with
  | mk r m1 =>
    rw [hxm] at h1
    cases r with
    | ok a => exact (hf a m1).trans h1
    | error e => exact h1

theorem Exec.Stays.stays_throw {α : Type} (e : DxError) : (Exec.throw e : Exec α).Stays :=
  fun _ => rfl

theorem Exec.Stays.stays_get : Exec.get.Stays := fun _ => rfl

theorem Exec.Stays.stays_lift {α : Type} (r : Except DxError α) : (Exec.lift r).Stays :=
  fun _ => rfl

theorem Exec.Stays.stays_host {α : Type} (call : HostCall)
    (outcome : List HostCall → Except DxError α) : (Exec.host call outcome).Stays :=
  fun _ => rfl

theorem Exec.Stays.stays_modify (f : DxInterpreter → DxInterpreter)
    (h : ∀ m, (f m).m_state = m.m_state) : (Exec.modify f).Stays := fun m => h m

theorem dx_assert_stays (c : Bool) : (dx_assert c).Stays := by
  unfold dx_assert
  split
  · exact Exec.Stays.stays_pure_eq _
  · exact Exec.Stays.stays_throw _

theorem assert_state_stays (s : State) : (assert_state s).Stays := by
  intro m
  unfold assert_state
  split <;> rfl

theorem push_stays (v : DxValue) : (push v).Stays := fun _ => rfl

theorem pop_stays : pop.Stays := by
  intro m
  unfold pop
  split <;> rfl

theorem peek_stays : peek.Stays := by
  intro m
  unfold peek
  split <;> rfl

theorem popN_stays (n : Nat) : (popN n).Stays := by
  induction n with
  | zero => exact Exec.Stays.stays_pure_eq _
  | succ n ih =>
    unfold popN
    exact Exec.Stays.stays_bind pop_stays
      (fun _ => Exec.Stays.stays_bind ih (fun _ => Exec.Stays.stays_pure _))

theorem vectorOfCount_stays (c : Int) : (vectorOfCount c).Stays := by
  unfold vectorOfCount
  split
  · exact Exec.Stays.stays_throw _
  · exact Exec.Stays.stays_pure_eq _

theorem readBytes_stays (n : Nat) : (readBytes n).Stays := by
  intro m
  unfold readBytes
  split <;> rfl

theorem argI_stays : argI.Stays :=
  Exec.Stays.stays_bind (readBytes_stays 4) (fun _ => Exec.Stays.stays_pure _)

theorem argII_stays : argII.Stays :=
  Exec.Stays.stays_bind argI_stays
    (fun _ => Exec.Stays.stays_bind argI_stays (fun _ => Exec.Stays.stays_pure _))

theorem argD_stays : argD.Stays :=
  Exec.Stays.stays_bind (readBytes_stays 8) (fun _ => Exec.Stays.stays_pure _)

theorem popBackLocals_stays : popBackLocals.Stays := by
  intro m
  unfold popBackLocals
  split <;> rfl

theorem popStrings_stays (env : Env) (n : Nat) : (popStrings env n).Stays := by
  induction n with
  | zero => exact Exec.Stays.stays_pure_eq _
  | succ n ih =>
    unfold popStrings
    exact Exec.Stays.stays_bind pop_stays (fun _ => Exec.Stays.stays_bind
      (Exec.Stays.stays_lift _)
      (fun _ => Exec.Stays.stays_bind ih (fun _ => Exec.Stays.stays_pure _)))

theorem loadFlags_stays (env : Env) (names : List DxStr) : (loadFlags env names).Stays := by
  induction names with
  | nil => exact Exec.Stays.stays_pure_eq _
  | cons n rest ih =>
    unfold loadFlags
    exact Exec.Stays.stays_bind (Exec.Stays.stays_host _ _) (fun _ => Exec.Stays.stays_bind
      (Exec.Stays.stays_modify _ (fun _ => rfl)) (fun _ => ih))

theorem execOpcode_stays (env : Env) (fuel : Nat) (opc : DxOpcode) (h1 : opc ≠ .textrun)
    (h2 : opc ≠ .choicesel) (h3 : opc ≠ .exit) (h4 : opc ≠ .ret) :
    (execOpcode env fuel opc).Stays := by
  cases opc <;> first
    | exact absurd rfl h1 | exact absurd rfl h2 | exact absurd rfl h3 | exact absurd rfl h4
    | skip
  all_goals
    simp only [execOpcode, execFreeloc, execSave, execLoad, execPushi, execPushd, execPushs,
      execPushints, execMakearr, execPusharrind, execSetarrind, execSetvarglb, execSetvarloc,
      execPushvarglb, execPushvarloc, execDup, execDup2, execBinop, execNeg, execInv, execBitop,
      execBitneg, execPow, execJ, execJcond, execCall, execCallext,
      execChoicebeg, execChoiceadd, execChoiceaddt, execChooseadd, execChooseaddt,
      execChoosesel]
    repeat' first
      | with_reducible exact Exec.Stays.stays_pure _
      | with_reducible exact Exec.Stays.stays_pure_eq _
      | with_reducible exact Exec.Stays.stays_throw _
      | with_reducible exact Exec.Stays.stays_get
      | with_reducible exact Exec.Stays.stays_lift _
      | with_reducible exact Exec.Stays.stays_host _ _
      | with_reducible exact pop_stays
      | with_reducible exact peek_stays
      | with_reducible exact push_stays _
      | with_reducible exact argI_stays
      | with_reducible exact argII_stays
      | with_reducible exact argD_stays
      | with_reducible exact popN_stays _
      | with_reducible exact popStrings_stays _ _
      | with_reducible exact vectorOfCount_stays _
      | with_reducible exact dx_assert_stays _
      | with_reducible exact assert_state_stays _
      | with_reducible exact popBackLocals_stays
      | with_reducible exact loadFlags_stays _ _
      | (with_reducible refine Exec.Stays.stays_modify _ (fun _ => ?_)) <;> exact rfl
      | with_reducible refine Exec.Stays.stays_bind ?_ (fun _ => ?_)
      | split

theorem endScene_state (env : Env) (m : DxInterpreter) :
    (endScene env m).2.m_state = .Inactive := by
  simp only [endScene, Exec.bind_eq, Exec.bind, Exec.modify, Exec.get]
  cases m.m_currentScene with
  | none => rfl
  | some scene => rfl

theorem execExit_state (env : Env) (m : DxInterpreter) (hs : m.m_state = .Running) :
    (m.m_callStack = [] → (execExit env m).2.m_state = .Inactive) ∧
    (m.m_callStack ≠ [] → (execExit env m).2.m_state = .Running) := by
  have hne : m.m_state ≠ .Eval := by rw [hs]; decide
  simp only [execExit, Exec.bind_eq, Exec.bind, Exec.get, hne, if_false]
  cases hc : m.m_callStack with
  | nil => exact ⟨fun _ => endScene_state env m, fun h => absurd rfl h⟩
  | cons f r =>
    refine ⟨fun h => List.noConfusion h, fun _ => ?_⟩
    simp only [Exec.modify, push]
    exact hs

theorem execRet_state (env : Env) (m : DxInterpreter) (hs : m.m_state = .Running) :
    (m.m_callStack = [] → (execRet env m).2.m_state = .Inactive) ∧
    (m.m_callStack ≠ [] → (execRet env m).2.m_state = .Running) := by
  simp only [execRet, Exec.bind_eq, Exec.bind, Exec.get]
  cases hc : m.m_callStack with
  | nil => exact ⟨fun _ => endScene_state env m, fun h => absurd rfl h⟩
  | cons f r =>
    refine ⟨fun h => List.noConfusion h, fun _ => ?_⟩
    simp only []
    have hrest : (Exec.bind pop fun returnValue =>
        Exec.bind (Exec.modify (fun m => { m with
          m_callStack := r, m_stack := f.stack, m_locals := f.locals }))
          (fun _ => push returnValue)).Stays :=
      Exec.Stays.stays_bind pop_stays (fun _ => Exec.Stays.stays_bind
        (Exec.Stays.stays_modify _ (fun _ => rfl)) (fun _ => push_stays _))
    exact (hrest m).trans hs

theorem execTextrun_state (env : Env) (m : DxInterpreter) (hs : m.m_state = .Running) :
    (execTextrun env m).2.m_state = .InText := by
  have hrest : ∀ m1 : DxInterpreter,
      ((Exec.bind pop fun v => Exec.bind (Exec.lift (v.safeGetString env.fp)) fun text =>
        Exec.host (.text text) (fun h => env.host.text h text)) m1).2.m_state = m1.m_state :=
    Exec.Stays.stays_bind pop_stays (fun _ => Exec.Stays.stays_bind (Exec.Stays.stays_lift _)
      (fun _ => Exec.Stays.stays_host _ _))
  simp only [execTextrun, Exec.bind_eq]
  rw [Exec.bind, assert_state_eq, if_pos hs]
  simp only []
  rw [Exec.bind]
  simp only [Exec.modify]
  rw [hrest]

theorem execChoicesel_state (env : Env) (m : DxInterpreter) (hs : m.m_state = .Running) :
    (execChoicesel env m).2.m_state
      = if m.m_startingChoice = true ∧ m.m_choiceOptions ≠ [] then .InChoice else .Running := by
  by_cases h1 : m.m_startingChoice = true
  · by_cases h2 : m.m_choiceOptions = []
    · simp [execChoicesel, Exec.bind_eq, Exec.bind, Exec.get, dx_assert, h1, h2, Exec.pure,
        Exec.throw, hs]
    · rw [execChoicesel_spec env m h1 h2, if_pos ⟨h1, h2⟩]
  · simp [execChoicesel, Exec.bind_eq, Exec.bind, Exec.get, dx_assert, h1, Exec.throw, hs]

/-- C37. In state `Running`, with the opcode `opc` at the program counter, one call of
`interpret` (callbacks of the host not calling back into the interpreter) leaves the state
`Running` when `opc` is none of `textrun`, `choicesel`, `exit`, `ret`, and when it is `exit`
or `ret` with a non-empty call stack; after `textrun` the state is `InText`; after
`choicesel` it is `InChoice` when a choice was begun and the pending list is not empty, and
`Running` when the checks of `choicesel` throw; after `exit` or `ret` with an empty call
stack it is `Inactive`. -/
theorem running_state_changes_only_at_suspension_points (env : Env) (fuel : Nat)
    (m : DxInterpreter) (opc : DxOpcode) (hrun : m.m_state = .Running)
    (hcode : m.m_data.codeAt m.m_programCounter [opc.toByte]) :
    ((opc ≠ .textrun ∧ opc ≠ .choicesel ∧ opc ≠ .exit ∧ opc ≠ .ret) ∨
        ((opc = .exit ∨ opc = .ret) ∧ m.m_callStack ≠ []) →
      (interpret env fuel m).2.m_state = .Running) ∧
    (opc = .textrun → (interpret env fuel m).2.m_state = .InText) ∧
    (opc = .choicesel →
      (interpret env fuel m).2.m_state
        = if m.m_startingChoice = true ∧ m.m_choiceOptions ≠ [] then .InChoice
          else .Running) ∧
    ((opc = .exit ∨ opc = .ret) → m.m_callStack = [] →
      (interpret env fuel m).2.m_state = .Inactive) := by
  rw [interpret_codeAt env fuel hcode]
  have hexit := execExit_state env { m with m_programCounter := m.m_programCounter + 1 } hrun
  have hret := execRet_state env { m with m_programCounter := m.m_programCounter + 1 } hrun
  refine ⟨?_, ?_, ?_, ?_⟩
  · rintro (⟨h1, h2, h3, h4⟩ | ⟨h | h, hc⟩)
    · exact (execOpcode_stays env fuel opc h1 h2 h3 h4 _).trans hrun
    · subst h
      exact hexit.2 hc
    · subst h
      exact hret.2 hc
  · intro h
    subst h
    exact execTextrun_state env _ hrun
  · intro h
    subst h
    exact execChoicesel_state env _ hrun
  · rintro (h | h) hc
    · subst h
      exact hexit.1 hc
    · subst h
      exact hret.1 hc

/-- Witness of C37: in the scene `pushbs 0; textrun; exit`, the instruction `pushbs` at
address 0 leaves the state `Running`. -/
theorem running_state_changes_only_at_suspension_points_witness :
    (interpret sampleEnv 0 (runningAt helloImage 0 [])).2.m_state = .Running :=
  (running_state_changes_only_at_suspension_points sampleEnv 0 (runningAt helloImage 0 [])
    .pushbs rfl (by decide)).1 (Or.inl ⟨by decide, by decide, by decide, by decide⟩)

/-- C21 (code at the failing input). A comparison of two Doubles returns a value tagged Double
whose payload is an `int` (`op_branch` tags the `bool` result with the type of the
operands). On two such operands, both of type Double, `+` and `==` throw
`std::bad_variant_access`: they neither return a value, as the table says for Double, nor
fail with InvalidOperator. `INT_MIN / -1` on two Integers is undefined. For operands whose
payload is the one their tag names, without Integer division by zero or `INT_MIN / -1`, the
table holds: the operator returns a value on the types the specification lists and fails
with InvalidOperator on every other type. -/
theorem operator_table_fails_on_mistagged_operands :
    (∀ (fp : FloatOps) (a b : DxDouble), ∃ v,
      DxValue.binop fp .lt 1 (DxValue.ofDouble a) (DxValue.ofDouble b) = .ok v ∧
      v.type = .Double ∧
      DxValue.binop fp .add 1 v v = .error .badVariantAccess ∧
      DxValue.binop fp .eq 1 v v = .error .badVariantAccess) ∧
    (∀ (fp : FloatOps) (fuel : Nat),
      DxValue.binop fp .div (fuel + 1) (DxValue.ofInt (-2147483648)) (DxValue.ofInt (-1))
        = .error .undefinedBehaviour) ∧
    (∀ (fp : FloatOps) (fuel : Nat) (op : BinOp) (l r : DxValue),
      l.HoldsItsType → r.HoldsItsType → l.type = r.type →
      (∀ a b, l.getInt = .ok a → r.getInt = .ok b → op = .div ∨ op = .mod →
        b ≠ 0 ∧ ¬ (a = -2147483648 ∧ b = -1)) →
      (op.definedOn l.type = true → ∃ v, DxValue.binop fp op (fuel + 1) l r = .ok v) ∧
      (op.definedOn l.type = false →
        DxValue.binop fp op (fuel + 1) l r = .error .invalidOperator)) := by
  refine ⟨?_, ?_, ?_⟩
  · intro fp a b
    exact ⟨⟨some (.int (if fp.lt a b then 1 else 0)), .Double⟩, rfl, rfl, rfl, rfl⟩
  · intro fp fuel
    rw [DxValue.binop_same_type fp .div fuel (DxValue.ofInt (-2147483648)) (DxValue.ofInt (-1))
      rfl]
    rfl
  · intro fp fuel op l r hl hr ht hdiv
    exact operator_table_of_tagged fp fuel op l r hl hr ht hdiv

/-- C23 (code at the failing input). On the value a comparison of two Doubles returns, tagged
Double with an `int` payload, `convert` to Integer and `convert` to String call
`std::get<double>` and throw `std::bad_variant_access`, although Double to Integer and
Double to String are in the list of conversions that succeed. Converting the Double `1e10`
to Integer evaluates `(int)floor(d)` out of the range of `int`, which is undefined. For a
value whose payload is the one its tag names (a Double having a floor that fits an `int`),
`convert` does what the list says: the identity for the same type and for the target
Undefined, `undefined` for Undefined to String, ValueConversion outside the list, and inside
the list a value of the target type, a String source provided `std::stoi` or `std::stod`
returns. -/
theorem convert_fails_on_mistagged_value :
    (∀ (fp : FloatOps) (a b : DxDouble), ∃ v,
      DxValue.binop fp .lt 1 (DxValue.ofDouble a) (DxValue.ofDouble b) = .ok v ∧
      v.type = .Double ∧
      v.convert fp .Integer = .error .badVariantAccess ∧
      v.convert fp .String = .error .badVariantAccess) ∧
    (DxValue.ofDouble DxDouble.tenBillion).convert binary64FloatOps .Integer
      = .error .undefinedBehaviour ∧
    (∀ (fp : FloatOps) (v : DxValue) (t : DxValueType), v.HoldsItsType →
      (∀ d, v.getDouble = .ok d → ∃ i, fp.floorToInt d = .ok i) →
      (t = v.type ∨ t = .Undefined → v.convert fp t = .ok v) ∧
      (v.type = .Undefined → t = .String →
        v.convert fp t = .ok (DxValue.ofString "undefined".toList)) ∧
      (t ≠ v.type → t ≠ .Undefined → convertiblePair v.type t = false →
        v.convert fp t = .error .valueConversion) ∧
      (t ≠ v.type → t ≠ .Undefined → convertiblePair v.type t = true →
        ((∃ w, v.convert fp t = .ok w) ↔
          (v.type = .String →
            (t = .Integer → ∃ i, v.getString.bind stoi = .ok i) ∧
            (t = .Double → ∃ d, v.getString.bind fp.stod = .ok d)))) ∧
      (∀ w, t ≠ .Undefined → v.convert fp t = .ok w → w.type = t)) := by
  have hfl : binary64FloorToInt DxDouble.tenBillion = .error .undefinedBehaviour := by decide
  refine ⟨?_, ?_, ?_⟩
  · intro fp a b
    exact ⟨⟨some (.int (if fp.lt a b then 1 else 0)), .Double⟩, rfl, rfl, rfl, rfl⟩
  · simp only [DxValue.convert, DxValue.ofDouble, DxValue.make, DxValue.type,
      DxValue.getDouble, DxValue.m_value, binary64FloatOps, bind, Except.bind]
    simp
    rw [hfl]
  · intro fp v t hv hfloor
    exact convert_table_of_tagged fp v t hv hfloor

/-- C26 (code at the failing input). The method `endScene` reads `m_currentScene->name`
without testing that a scene is current. In a state without a current scene it dereferences
an empty optional, which is undefined, after it has set the state to Inactive: no callback
is invoked with the name of a scene. Such a state is the state `Eval` in which
`executeEvalMultiple(0)` leaves a fresh interpreter when the evaluated code throws (here `textrun`,
whose state check fails in `Eval`). In a state with a current scene, whatever `m_state` is,
`endScene` sets the state to Inactive, empties the operand stack, the call stack, the
locals, the pending choice list and the pending choose list, clears the save register and
the current scene, and invokes the end-scene callback once with the name of that scene. -/
theorem end_scene_without_current_scene_is_undefined :
    (∀ (env : Env) (m : DxInterpreter), m.m_currentScene = none →
      endScene env m = (.error .undefinedBehaviour, { m with m_state := .Inactive })) ∧
    Reachable sampleEnv (executeEvalMultiple sampleEnv 5 0 (DxInterpreter.fresh evalTextImage)).2 ∧
    (executeEvalMultiple sampleEnv 5 0 (DxInterpreter.fresh evalTextImage)).1
      = .error .diannexException ∧
    (executeEvalMultiple sampleEnv 5 0 (DxInterpreter.fresh evalTextImage)).2.m_state = .Eval ∧
    (executeEvalMultiple sampleEnv 5 0 (DxInterpreter.fresh evalTextImage)).2.m_currentScene = none ∧
    (endScene sampleEnv (executeEvalMultiple sampleEnv 5 0 (DxInterpreter.fresh evalTextImage)).2).1
      = .error .undefinedBehaviour ∧
    (endScene sampleEnv
      (executeEvalMultiple sampleEnv 5 0 (DxInterpreter.fresh evalTextImage)).2).2.hostCalls.length
      = 0 ∧
    (∀ (env : Env) (m : DxInterpreter) (scene : DxScene), m.m_currentScene = some scene →
      endScene env m = (env.host.endScene m.hostCalls scene.name, { m with
        m_state := .Inactive, m_currentScene := none, m_stack := [], m_callStack := [],
        m_locals := [], m_choiceOptions := [], m_chooseOptions := [], m_saveRegister := none,
        hostCalls := m.hostCalls ++ [.endScene scene.name] })) := by
  refine ⟨?_, Reachable.executeEvalMultiple 5 0 (Reachable.fresh evalTextImage), by decide!,
    by decide!, by decide!, by decide!, by decide!, ?_⟩
  · intro env m h
    simp only [endScene, Exec.bind_eq, Exec.bind, Exec.modify, Exec.get, h, Exec.throw]
  · intro env m scene h
    exact endScene_spec env m scene h

end diannex
